import Mathlib

/-!
# grass router: dispatch pipeline, error normalisation, body decoding

A shallow embedding of `src/router` (route.go, context.go, error.go,
serialize.go, router.go).  Go `string` is `String` (the byte comparisons with
`'/'` in `newRoute` compare an ASCII code unit, which is a whole character of
UTF-8 text), Go `int` is `Int`, a nil-able `error` is `Option GoError`.
-/

namespace Grass

/-! ## error.go -/

/-- ErrorItem: `Metadata map[string]any` is carried as key/value text; no code
of the package inspects it. -/
structure ErrorItem where
  Name : String
  Reason : String
  Metadata : List (String × String)
  deriving Repr

/-- HTTPError over a type `E` of error values for the `Err error` field
(nil is `none`). -/
structure HTTPErrorOf (E : Type) where
  Err : Option E
  Title : String
  Status : Int
  Detail : String
  Errors : List ErrorItem

/-- The named error kinds of error.go, each declared `type XError HTTPError`. -/
inductive ErrorKind where
  | BadRequestError | UnauthorizedError | PaymentRequiredError | ForbiddenError
  | NotFoundError | MethodNotAllowedError | NotAcceptableError
  | ProxyAuthRequiredError | RequestTimeoutError | ConflictError | GoneError
  | LengthRequiredError | PreconditionFailedError | RequestEntityTooLargeError
  | RequestURITooLongError | UnsupportedMediaTypeError
  | RequestedRangeNotSatisfiableError | ExpectationFailedError | TeapotError
  | MisdirectedRequestError | UnprocessableEntityError | LockedError
  | FailedDependencyError | TooEarlyError | UpgradeRequiredError
  | PreconditionRequiredError | TooManyRequestsError
  | RequestHeaderFieldsTooLargeError | UnavailableForLegalReasonsError
  deriving DecidableEq, Repr

/-- Go error values, by dynamic type:
* `plain`: a type with no `StatusCode()` method (errors.New, fmt.Errorf, ...);
* `coded`: a type outside error.go that implements the `Error` interface,
  with the value its `StatusCode()` returns;
* `http`: a value of type `HTTPError`;
* `named`: a value of one of the named kinds. -/
inductive GoError where
  | plain (msg : String)
  | coded (msg : String) (code : Int)
  | http (e : HTTPErrorOf GoError)
  | named (kind : ErrorKind) (e : HTTPErrorOf GoError)

abbrev HTTPError := HTTPErrorOf GoError

/-- net/http status constants used by the named kinds (`StatusCode()` of each). -/
def ErrorKind.StatusCode : ErrorKind → Int
  | .BadRequestError => 400
  | .UnauthorizedError => 401
  | .PaymentRequiredError => 402
  | .ForbiddenError => 403
  | .NotFoundError => 404
  | .MethodNotAllowedError => 405
  | .NotAcceptableError => 406
  | .ProxyAuthRequiredError => 407
  | .RequestTimeoutError => 408
  | .ConflictError => 409
  | .GoneError => 410
  | .LengthRequiredError => 411
  | .PreconditionFailedError => 412
  | .RequestEntityTooLargeError => 413
  | .RequestURITooLongError => 414
  | .UnsupportedMediaTypeError => 415
  | .RequestedRangeNotSatisfiableError => 416
  | .ExpectationFailedError => 417
  | .TeapotError => 418
  | .MisdirectedRequestError => 421
  | .UnprocessableEntityError => 422
  | .LockedError => 423
  | .FailedDependencyError => 424
  | .TooEarlyError => 425
  | .UpgradeRequiredError => 426
  | .PreconditionRequiredError => 428
  | .TooManyRequestsError => 429
  | .RequestHeaderFieldsTooLargeError => 431
  | .UnavailableForLegalReasonsError => 451

/-- The table of net/http `StatusText` (Go standard library); unknown codes
give the empty string. -/
def StatusText (code : Int) : String :=
  if code = 100 then "Continue"
  else if code = 101 then "Switching Protocols"
  else if code = 102 then "Processing"
  else if code = 103 then "Early Hints"
  else if code = 200 then "OK"
  else if code = 201 then "Created"
  else if code = 202 then "Accepted"
  else if code = 203 then "Non-Authoritative Information"
  else if code = 204 then "No Content"
  else if code = 205 then "Reset Content"
  else if code = 206 then "Partial Content"
  else if code = 207 then "Multi-Status"
  else if code = 208 then "Already Reported"
  else if code = 226 then "IM Used"
  else if code = 300 then "Multiple Choices"
  else if code = 301 then "Moved Permanently"
  else if code = 302 then "Found"
  else if code = 303 then "See Other"
  else if code = 304 then "Not Modified"
  else if code = 305 then "Use Proxy"
  else if code = 307 then "Temporary Redirect"
  else if code = 308 then "Permanent Redirect"
  else if code = 400 then "Bad Request"
  else if code = 401 then "Unauthorized"
  else if code = 402 then "Payment Required"
  else if code = 403 then "Forbidden"
  else if code = 404 then "Not Found"
  else if code = 405 then "Method Not Allowed"
  else if code = 406 then "Not Acceptable"
  else if code = 407 then "Proxy Authentication Required"
  else if code = 408 then "Request Timeout"
  else if code = 409 then "Conflict"
  else if code = 410 then "Gone"
  else if code = 411 then "Length Required"
  else if code = 412 then "Precondition Failed"
  else if code = 413 then "Request Entity Too Large"
  else if code = 414 then "Request URI Too Long"
  else if code = 415 then "Unsupported Media Type"
  else if code = 416 then "Requested Range Not Satisfiable"
  else if code = 417 then "Expectation Failed"
  else if code = 418 then "I\x27m a teapot"
  else if code = 421 then "Misdirected Request"
  else if code = 422 then "Unprocessable Entity"
  else if code = 423 then "Locked"
  else if code = 424 then "Failed Dependency"
  else if code = 425 then "Too Early"
  else if code = 426 then "Upgrade Required"
  else if code = 428 then "Precondition Required"
  else if code = 429 then "Too Many Requests"
  else if code = 431 then "Request Header Fields Too Large"
  else if code = 451 then "Unavailable For Legal Reasons"
  else if code = 500 then "Internal Server Error"
  else if code = 501 then "Not Implemented"
  else if code = 502 then "Bad Gateway"
  else if code = 503 then "Service Unavailable"
  else if code = 504 then "Gateway Timeout"
  else if code = 505 then "HTTP Version Not Supported"
  else if code = 506 then "Variant Also Negotiates"
  else if code = 507 then "Insufficient Storage"
  else if code = 508 then "Loop Detected"
  else if code = 510 then "Not Extended"
  else if code = 511 then "Network Authentication Required"
  else ""

/-- HTTPError.StatusCode: the status field, or 500 when it is zero. -/
def HTTPError.StatusCode (e : HTTPError) : Int :=
  if e.Status = 0 then 500 else e.Status

/-- The type assertion `err.(Error)` followed by `StatusCode()`: `none` when
the dynamic type has no `StatusCode()` method (also for a nil error). -/
def GoError.StatusCode? : Option GoError → Option Int
  | none => none
  | some (.plain _) => none
  | some (.coded _ code) => some code
  | some (.http e) => some (HTTPError.StatusCode e)
  | some (.named kind _) => some kind.StatusCode

/-- The type assertion `err.(HTTPError)`: succeeds only for the exact dynamic
type `HTTPError`. -/
def GoError.asHTTPError? : Option GoError → Option HTTPError
  | some (.http e) => some e
  | _ => none

/-- defaultErrorProcessor (error.go 266-286); the result is always a value of
type `HTTPError`. -/
def defaultErrorProcessorValue (err : Option GoError) : HTTPError :=
  let errResponse : HTTPError :=
    { Err := err, Title := "", Status := 500,
      Detail := "An unexpected error occurred", Errors := [] }
  let errResponse : HTTPError :=
    match GoError.asHTTPError? err with
    | some httpErr => httpErr
    | none => errResponse
  let errResponse : HTTPError :=
    match GoError.StatusCode? err with
    | some code => { errResponse with Status := code }
    | none => errResponse
  if errResponse.Title = "" then
    { errResponse with Title := StatusText errResponse.Status }
  else errResponse

abbrev ErrorProcessor := Option GoError → Option GoError

/-- defaultErrorProcessor as an `ErrorProcessor` (`func(err error) error`). -/
def defaultErrorProcessor : ErrorProcessor :=
  fun err => some (.http (defaultErrorProcessorValue err))

/-! ## context.go -/

/-- The request body stream: `http.NoBody`, or a reader with the bytes not yet
read from it. -/
inductive ReqBody where
  | NoBody
  | reader (remaining : String)
  deriving DecidableEq, Repr

/-- The fields of `*http.Request` that the package reads. -/
structure Request where
  ContentLength : Int
  Body : ReqBody
  deriving DecidableEq, Repr

/-- One call made on the `http.ResponseWriter`. -/
inductive ResCall where
  | WriteHeader (code : Int)
  | HeaderSet (key value : String)
  | HeaderAdd (key value : String)
  | Write (data : String)
  deriving DecidableEq, Repr

/-- The `http.ResponseWriter` (an external collaborator), as the sequence of
calls made on it, oldest first. -/
structure ResponseWriter where
  calls : List ResCall
  deriving DecidableEq, Repr

structure ContextAny where
  res : ResponseWriter
  req : Request
  statusCode : Int
  isNextCalled : Bool
  deriving DecidableEq, Repr

/-- Context[Body]: the embedded `*ContextAny` and the decoded-body cache
(`body *Body`, nil is `none`). -/
structure Context (Body : Type) where
  ctxAny : ContextAny
  body : Option Body

/-- A value given to `panic`: an `error`, or any other value, kept as the
text that `%v` prints for it. -/
inductive PanicValue where
  | error (e : GoError)
  | value (text : String)

/-- How a call of user code (or of a panicking method) ends. -/
inductive Outcome (α : Type) where
  | ret (v : α)
  | panic (p : PanicValue)

def ContextAny.SetHeader (ctx : ContextAny) (key value : String) : ContextAny :=
  { ctx with res := ⟨ctx.res.calls ++ [.HeaderSet key value]⟩ }

def ContextAny.AddHeader (ctx : ContextAny) (key value : String) : ContextAny :=
  { ctx with res := ⟨ctx.res.calls ++ [.HeaderAdd key value]⟩ }

def ContextAny.Status (ctx : ContextAny) : Int := ctx.statusCode

def ContextAny.SetStatus (ctx : ContextAny) (code : Int) : ContextAny :=
  { ctx with statusCode := code }

/-- ContextAny.Body panics (the untyped context has no decoded body). -/
def ContextAny.Body (_ctx : ContextAny) : Outcome Unit :=
  .panic (.value "*ContextAny.Body should not be called, use *ContextAny.BodyRaw")

/-- ContextAny.GetBody panics likewise. -/
def ContextAny.GetBody (_ctx : ContextAny) : Outcome Unit :=
  .panic (.value "*ContextAny.GetBody should not be called, use *ContextAny.BodyRaw")

def ContextAny.BodyRaw (ctx : ContextAny) : ReqBody := ctx.req.Body

/-- ContextAny.Next sets the flag and returns a nil error. -/
def ContextAny.Next (ctx : ContextAny) : ContextAny × Option GoError :=
  ({ ctx with isNextCalled := true }, none)

def ContextAny.Request (ctx : ContextAny) : Request := ctx.req

def ContextAny.ResponseWriter (ctx : ContextAny) : ResponseWriter := ctx.res

/-- Whether the response writer has written its header: after a call of
`WriteHeader` that returned, or a `Write` (which writes the header when none
was written). -/
def ResponseWriter.wroteHeader (w : ResponseWriter) : Bool :=
  w.calls.any (fun c =>
    match c with
    | .WriteHeader _ => true
    | .Write _ => true
    | _ => false)

/-- The status codes that `WriteHeader` takes: three digits. -/
def validWriteHeaderCode (code : Int) : Prop := 100 ≤ code ∧ code ≤ 999

/-- checkWriteHeaderCode of net/http (Go standard library): the panic value
for a code below 100 or above 999, `none` when the code passes. -/
def checkWriteHeaderCode (code : Int) : Option PanicValue :=
  if code < 100 ∨ code > 999 then
    some (.value ("invalid WriteHeader code " ++ toString code))
  else none

/-- The context after a call `ctx.ResponseWriter().WriteHeader(code)` that
returned: the call is added to the calls made on the writer. -/
def ContextAny.afterWriteHeader (ctx : ContextAny) (code : Int) : ContextAny :=
  { ctx with res := ⟨ctx.res.calls ++ [.WriteHeader code]⟩ }

/-- The call `ctx.ResponseWriter().WriteHeader(code)`, for the response
writers of net/http (the server's and httptest's): when the header was
already written the call returns without checking the code (a superfluous
call); otherwise `checkWriteHeaderCode` runs first and a code outside
100..999 makes the call panic, with nothing written. -/
def ContextAny.WriteHeader (ctx : ContextAny) (code : Int) : Except PanicValue ContextAny :=
  if ctx.res.wroteHeader then .ok (ctx.afterWriteHeader code)
  else
    match checkWriteHeaderCode code with
    | some p => .error p
    | none => .ok (ctx.afterWriteHeader code)

/-- The call `ctx.ResponseWriter().Write(data)`. -/
def ContextAny.Write (ctx : ContextAny) (data : String) : ContextAny :=
  { ctx with res := ⟨ctx.res.calls ++ [.Write data]⟩ }

/-- What `json.NewDecoder(r).Decode(body)` (Go standard library) leaves behind
when `body` points at a fresh zero value: the value now stored in `*body`,
whether the returned error is non-nil, and the bytes of the stream it has not
read. -/
structure DecodeResult (Body : Type) where
  value : Body
  failed : Bool
  rest : String

/-- The Input shape of a route: its zero value (`new(Body)`) and the JSON
decoder for it. -/
structure BodyShape (Body : Type) where
  zero : Body
  decode : String → DecodeResult Body

/-- Context.GetBody (context.go 163-182): the value and error returned, and
the context afterwards. -/
def Context.GetBody {Body : Type} (shape : BodyShape Body) (ctx : Context Body) :
    (Body × Option GoError) × Context Body :=
  match ctx.body with
  | some b => ((b, none), ctx)
  | none =>
    let body := shape.zero
    match ctx.ctxAny.req.Body with
    | .reader remaining =>
      if ctx.ctxAny.req.ContentLength > 0 then
        let d := shape.decode remaining
        let ctx1 : Context Body :=
          { ctx with ctxAny := { ctx.ctxAny with
              req := { ctx.ctxAny.req with Body := .reader d.rest } } }
        if d.failed then
          ((d.value, some (.plain "could not read incoming request")), ctx1)
        else ((d.value, none), { ctx1 with body := some d.value })
      else ((body, none), { ctx with body := some body })
    | .NoBody => ((body, none), { ctx with body := some body })

/-- Context.Body (context.go 155-161): GetBody, panicking with its error. -/
def Context.Body {Body : Type} (shape : BodyShape Body) (ctx : Context Body) :
    Outcome Body × Context Body :=
  match Context.GetBody shape ctx with
  | ((_, some err), ctx1) => (.panic (.error err), ctx1)
  | ((body, none), ctx1) => (.ret body, ctx1)

/-! ## router.go, serialize.go, route.go -/

def xContentType : String := "Content-Type"

def contentTypeJson : String := "application/json"

/-- An action of user code (a middleware or a handler) on the context it is
given, through the exported methods of context.go and the response writer:
a call that returned.  A call that panics (`WriteHeader` with a code that
the writer rejects) ends the user code; it is then the `panic` result of the
run and not one of its actions. -/
inductive CtxOp where
  | Next
  | SetStatus (code : Int)
  | SetHeader (key value : String)
  | AddHeader (key value : String)
  | WriteHeader (code : Int)
  | Write (data : String)
  deriving DecidableEq, Repr

/-- The effect of one action, by the method of context.go it calls; for
`WriteHeader`, the effect of the call that returned. -/
def ContextAny.applyOp (ctx : ContextAny) : CtxOp → ContextAny
  | .Next => (ctx.Next).1
  | .SetStatus code => ctx.SetStatus code
  | .SetHeader key value => ctx.SetHeader key value
  | .AddHeader key value => ctx.AddHeader key value
  | .WriteHeader code => ctx.afterWriteHeader code
  | .Write data => ctx.Write data

def ContextAny.applyOps (ctx : ContextAny) (ops : List CtxOp) : ContextAny :=
  ops.foldl ContextAny.applyOp ctx

/-- One run of user code: the actions it performed on the context, in order,
and how it ended (for a panic, the actions are those before the panic). -/
structure Run (α : Type) where
  ops : List CtxOp
  result : Outcome α

/-- Middleware: `func(*ContextAny) error`. -/
abbrev Middleware := ContextAny → Run (Option GoError)

/-- The context type argument `Ctx` of a route.  These are the two context
types of the package; the `default` arm of the type switch in `newContext`
(any other type: `panic("invalid context struct")`, raised before dispatch
starts) has no counterpart. -/
inductive CtxKind where
  | ContextAny
  | Context
  deriving DecidableEq, Repr

/-- A value of the route's context type: a `*ContextAny` or a `*Context[Input]`. -/
inductive Ctx (Input : Type) where
  | untyped (ctx : ContextAny)
  | typed (ctx : Context Input)

/-- newContext (context.go 56-66). -/
def newContext {Input : Type} (kind : CtxKind) (ctxAny : ContextAny) : Ctx Input :=
  match kind with
  | .ContextAny => .untyped ctxAny
  | .Context => .typed { ctxAny := ctxAny, body := none }

/-- Handler: `func(Ctx) (O, error)`. -/
abbrev Handler (Input Output : Type) := Ctx Input → Run (Output × Option GoError)

/-- A value handed to `Serializer.Marshal` (its `v any` argument): a handler
output or the processed error. -/
inductive Payload (Output : Type) where
  | output (v : Output)
  | error (err : Option GoError)

/-- Serializer, the pluggable codec: its content type and the bytes `Marshal`
writes to the writer for a value. -/
structure Serializer (Output : Type) where
  ContentType : String
  Marshal : Payload Output → String

/-- JSONSerializer over the encoding/json encoder (Go standard library). -/
def JSONSerializer {Output : Type} (encode : Payload Output → String) : Serializer Output :=
  { ContentType := contentTypeJson, Marshal := encode }

/-- Router, the fields that routes read.  `Output` is the type of the values
handlers return to the codec. -/
structure Router (Output : Type) where
  pattern : String
  middlewares : List Middleware
  serializers : List (String × Serializer Output)
  errorProcessor : Option ErrorProcessor
  methodToStatusCode : String → Int
  contentType : String
  enableAutoSlash : Bool

/-- defaultMethodToStatusCode (route.go 187-196). -/
def defaultMethodToStatusCode (method : String) : Int :=
  if method = "POST" then 201
  else if method = "PUT" ∨ method = "PATCH" ∨ method = "DELETE" then 202
  else 200

/-- The route struct.  The three OpenAPI texts (operationId, summary,
description) come from an external string library and are read only by
`Operation()`; they are left out. -/
structure route (Input Output : Type) where
  method : String
  pattern : String
  middlewares : List Middleware
  handler : Handler Input Output
  router : Router Output
  ctxKind : CtxKind
  contentType : String
  serializer : Serializer Output
  errorProcessor : ErrorProcessor
  statusCode : Int

/-- The runtime panic of an index expression on an empty string. -/
def indexOutOfRange : PanicValue :=
  .error (.plain "runtime error: index out of range [0] with length 0")

/-- The runtime panic of calling a nil function value. -/
def nilDereference : PanicValue :=
  .error (.plain "runtime error: invalid memory address or nil pointer dereference")

/-- newRoute (route.go 49-111).  `kind` is the context type argument and
`outputSerializer` the `Serializer` implementation of the Output type, when
it has one (`any(output).(Serializer)`); `jsonEncode` is the encoding/json
encoder behind `JSONSerializer{}`.  An empty pattern on a router without
prefix makes `pattern[0]` panic. -/
def newRoute {Input Output : Type} (router : Router Output) (method : String)
    (pattern : String) (handler : Handler Input Output) (kind : CtxKind)
    (outputSerializer : Option (Serializer Output))
    (jsonEncode : Payload Output → String) :
    Except PanicValue (route Input Output) :=
  let pattern :=
    if router.pattern ≠ "" then
      if pattern ≠ "/" then router.pattern ++ pattern else router.pattern
    else pattern
  match pattern.data.head? with
  | none => .error indexOutOfRange
  | some first =>
    let pattern := if first ≠ '/' then "/" ++ pattern else pattern
    let pattern :=
      if router.enableAutoSlash ∧ pattern.data.getLast? ≠ some '/' then pattern ++ "/"
      else pattern
    let contentType := router.contentType
    let (serializer, contentType) :=
      match outputSerializer with
      | some v => (v, v.ContentType)
      | none =>
        match router.serializers.lookup contentType with
        | some v => (v, contentType)
        | none => (JSONSerializer jsonEncode, contentTypeJson)
    let errorProcessor :=
      match router.errorProcessor with
      | some ep => ep
      | none => defaultErrorProcessor
    .ok { method := method, pattern := pattern, handler := handler, router := router,
          middlewares := router.middlewares, ctxKind := kind,
          serializer := serializer, contentType := contentType,
          errorProcessor := errorProcessor,
          statusCode := router.methodToStatusCode method }

def route.Method {I O : Type} (r : route I O) : String := r.method

def route.Pattern {I O : Type} (r : route I O) : String := r.pattern

def route.MuxPattern {I O : Type} (r : route I O) : String :=
  if r.method = "" then r.pattern else r.method ++ " " ++ r.pattern

def route.Use {I O : Type} (r : route I O) (middlewares : List Middleware) : route I O :=
  { r with middlewares := r.middlewares ++ middlewares }

/-- route.handleError (route.go 172-183).  The processor called is the
router's; calling it when it is nil panics, and so does `WriteHeader` when
it rejects the status code. -/
def route.handleError {I O : Type} (r : route I O) (ctx : ContextAny)
    (err : Option GoError) : Except PanicValue ContextAny :=
  match r.router.errorProcessor with
  | none => .error nilDereference
  | some errorProcessor =>
    let statusCode : Int := 500
    let err := errorProcessor err
    let statusCode :=
      match GoError.StatusCode? err with
      | some code => code
      | none => statusCode
    match ctx.WriteHeader statusCode with
    | .error p => .error p
    | .ok ctx =>
      let ctx := ctx.SetHeader xContentType r.contentType
      .ok (ctx.Write (r.serializer.Marshal (.error err)))

/-- Which user code an invocation ran. -/
inductive Callee where
  | middleware (index : Nat)
  | handler
  deriving DecidableEq, Repr

/-- Record of one invocation of user code during a dispatch: who ran, the
actions it performed, and the error it returned or the panic it raised. -/
structure Invocation where
  who : Callee
  ops : List CtxOp
  result : Outcome (Option GoError)

/-- How the middleware loop of ServeHTTP ends. -/
inductive Flow where
  | next
  | stop (err : Option GoError)
  | panic (p : PanicValue)

/-- The loop `for _, middleware := range r.middlewares` of ServeHTTP
(route.go 133-139), from the middleware at position `index` on: the
invocations made, the context afterwards, and the way the loop ends
(`stop err` is the branch that calls `handleError(ctx, err)` and returns). -/
def middlewareLoop : List Middleware → Nat → ContextAny →
    List Invocation × ContextAny × Flow
  | [], _, ctxAny => ([], ctxAny, .next)
  | middleware :: rest, index, ctxAny =>
    let ctxAny := { ctxAny with isNextCalled := false }
    let run := middleware ctxAny
    let ctxAny := ctxAny.applyOps run.ops
    let inv : Invocation := { who := .middleware index, ops := run.ops, result := run.result }
    match run.result with
    | .panic p => ([inv], ctxAny, .panic p)
    | .ret err =>
      if err.isSome ∨ ctxAny.isNextCalled = false then ([inv], ctxAny, .stop err)
      else
        let (invs, ctxAny, flow) := middlewareLoop rest (index + 1) ctxAny
        (inv :: invs, ctxAny, flow)

/-- The typed context shares the `*ContextAny` it was built from: its view of
the context after user code has acted on the shared value. -/
def Ctx.sync {Input : Type} : Ctx Input → ContextAny → Ctx Input
  | .untyped _, ctxAny => .untyped ctxAny
  | .typed ctx, ctxAny => .typed { ctx with ctxAny := ctxAny }

/-- The deferred function of ServeHTTP (route.go 123-131) for a recovered
panic value. -/
def route.recovered {I O : Type} (r : route I O) (ctx : ContextAny)
    (p : PanicValue) : Except PanicValue ContextAny :=
  match p with
  | .error e => r.handleError ctx (some e)
  | .value text => r.handleError ctx (some (.plain ("panic recovered: " ++ text)))

/-- The result of one dispatch: the context at the end (with the response
writer's calls), the invocations of user code in order, and the panic that
leaves ServeHTTP, if any. -/
structure Dispatch where
  ctx : ContextAny
  invoked : List Invocation
  propagated : Option PanicValue

/-- The error part of what user code returned. -/
def Outcome.error? {α : Type} : Outcome (α × Option GoError) → Outcome (Option GoError)
  | .ret (_, err) => .ret err
  | .panic p => .panic p

/-- The record of the handler's invocation on a context. -/
def route.handlerInvocation {I O : Type} (r : route I O) (ctx : Ctx I) : Invocation :=
  { who := .handler, ops := (r.handler ctx).ops, result := (r.handler ctx).result.error? }

/-- The body of ServeHTTP after the `defer` (route.go 133-149): the context,
the invocations, and the panic raised in it, if any. -/
def route.serveBody {I O : Type} (r : route I O) (ctx : Ctx I) (ctxAny : ContextAny) :
    ContextAny × List Invocation × Option PanicValue :=
  match middlewareLoop r.middlewares 0 ctxAny with
  | (invs, ctxAny, .panic p) => (ctxAny, invs, some p)
  | (invs, ctxAny, .stop err) =>
    match r.handleError ctxAny err with
    | .ok ctxAny => (ctxAny, invs, none)
    | .error p => (ctxAny, invs, some p)
  | (invs, ctxAny, .next) =>
    let run := r.handler (ctx.sync ctxAny)
    let invs := invs ++ [r.handlerInvocation (ctx.sync ctxAny)]
    let ctxAny := ctxAny.applyOps run.ops
    match run.result with
    | .panic p => (ctxAny, invs, some p)
    | .ret (output, err) =>
      match err with
      | some e =>
        match r.handleError ctxAny (some e) with
        | .ok ctxAny => (ctxAny, invs, none)
        | .error p => (ctxAny, invs, some p)
      | none =>
        match ctxAny.WriteHeader ctxAny.statusCode with
        | .error p => (ctxAny, invs, some p)
        | .ok ctxAny =>
          let ctxAny := ctxAny.SetHeader xContentType r.contentType
          (ctxAny.Write (r.serializer.Marshal (.output output)), invs, none)

/-- route.ServeHTTP (route.go 113-150). -/
def route.ServeHTTP {I O : Type} (r : route I O) (res : ResponseWriter) (req : Request) :
    Dispatch :=
  let ctxAny : ContextAny :=
    { req := req, res := res, statusCode := r.statusCode, isNextCalled := true }
  let ctx : Ctx I := newContext r.ctxKind ctxAny
  match r.serveBody ctx ctxAny with
  | (ctxAny, invs, none) => { ctx := ctxAny, invoked := invs, propagated := none }
  | (ctxAny, invs, some p) =>
    match r.recovered ctxAny p with
    | .ok ctxAny => { ctx := ctxAny, invoked := invs, propagated := none }
    | .error p => { ctx := ctxAny, invoked := invs, propagated := some p }

/-- Whether the loop ran to its end. -/
def Flow.isNext : Flow → Bool
  | .next => true
  | _ => false

/-- The invoked code returned, and returned a nil error. -/
def Invocation.returnedNil (inv : Invocation) : Bool :=
  match inv.result with
  | .ret none => true
  | _ => false

/-- The invoked code called `Next()` on its context. -/
def Invocation.calledNext (inv : Invocation) : Bool :=
  inv.ops.contains .Next

/-- The invoked code returned a nil error and called `Next()`. -/
def Invocation.continues (inv : Invocation) : Bool :=
  inv.returnedNil && inv.calledNext

/-- router.New() (router.go 35-52), for the fields that routes read. -/
def New {Output : Type} (jsonEncode : Payload Output → String) : Router Output :=
  { pattern := "", middlewares := [],
    serializers := [(contentTypeJson, JSONSerializer jsonEncode)],
    contentType := contentTypeJson,
    errorProcessor := some defaultErrorProcessor,
    methodToStatusCode := defaultMethodToStatusCode,
    enableAutoSlash := false }

/-- The error that the deferred function of ServeHTTP makes of a recovered
panic value. -/
def panicError : PanicValue → GoError
  | .error e => e
  | .value text => .plain ("panic recovered: " ++ text)

/-- The call on the response writer that an action of user code makes, if any. -/
def CtxOp.resCall? : CtxOp → Option ResCall
  | .Next => none
  | .SetStatus _ => none
  | .SetHeader key value => some (.HeaderSet key value)
  | .AddHeader key value => some (.HeaderAdd key value)
  | .WriteHeader code => some (.WriteHeader code)
  | .Write data => some (.Write data)

/-- The calls on the response writer made by user code, over a record of
invocations. -/
def userCalls (invs : List Invocation) : List ResCall :=
  invs.flatMap (fun inv => inv.ops.filterMap CtxOp.resCall?)

/-- The error that an invocation sends to error handling, read from the way
it ended: a panic value (converted), a returned error, or the nil error of a
middleware that returned without calling `Next()`. -/
def Invocation.routed (inv : Invocation) : Option (Option GoError) :=
  match inv.result with
  | .panic p => some (some (panicError p))
  | .ret (some e) => some (some e)
  | .ret none => if inv.who = .handler ∨ inv.calledNext = true then none else some none

/-- The response that error handling writes for an error on a route with the
default error processor: the status line, the content type header, and the
encoded body. -/
def errorResponse {I O : Type} (r : route I O) (err : Option GoError) : List ResCall :=
  [.WriteHeader (HTTPError.StatusCode (defaultErrorProcessorValue err)),
   .HeaderSet xContentType r.contentType,
   .Write (r.serializer.Marshal (.error (some (.http (defaultErrorProcessorValue err)))))]

/-! ## Sample values -/

/-- A stand-in for the JSON encoder on text outputs. -/
def sampleEncode : Payload String → String
  | .output v => v
  | .error none => "null"
  | .error (some (.http e)) => e.Title ++ ": " ++ e.Detail
  | .error (some _) => "{}"

/-- A router mounted at "/api" with trailing-slash mode on. -/
def sampleRouter : Router String :=
  { New sampleEncode with pattern := "/api", enableAutoSlash := true }

/-- A handler that returns "ok". -/
def sampleHandler : Handler Unit String :=
  fun _ => { ops := [], result := .ret ("ok", none) }

/-- A request without a body. -/
def sampleRequest : Request := { ContentLength := 0, Body := .NoBody }

/-- A route of a router made by `New`, with the given middlewares and handler. -/
def sampleRoute (middlewares : List Middleware) (handler : Handler Unit String) :
    route Unit String :=
  { method := "POST", pattern := "/items", middlewares := middlewares, handler := handler,
    router := New sampleEncode, ctxKind := .ContextAny, contentType := contentTypeJson,
    serializer := JSONSerializer sampleEncode, errorProcessor := defaultErrorProcessor,
    statusCode := 201 }

/-- A middleware that calls `Next()` and returns nil. -/
def passMiddleware : Middleware :=
  fun ctx => { ops := [.Next], result := .ret (ctx.Next).2 }

/-- A middleware that writes some bytes and then panics with a non-error value. -/
def panicMiddleware : Middleware :=
  fun _ => { ops := [.Write "partial"], result := .panic (.value "boom") }

/-- A handler that returns a ConflictError with its own title and detail. -/
def conflictHandler : Handler Unit String :=
  fun _ => { ops := [], result := .ret ("", some (.named .ConflictError
    { Err := none, Title := "Duplicate", Status := 0, Detail := "item exists", Errors := [] })) }

/-- A handler that returns an error whose `StatusCode()` is 0. -/
def zeroCodeHandler : Handler Unit String :=
  fun _ => { ops := [], result := .ret ("", some (.coded "unset" 0)) }

/-- The fields of an HTTPError that the JSON encoding shows (the struct tags
of error.go: `Err` is tagged `json:"-"`). -/
structure EncodedError where
  title : String
  status : Int
  detail : String
  errors : List ErrorItem

def HTTPError.encoded (e : HTTPError) : EncodedError :=
  { title := e.Title, status := e.Status, detail := e.Detail, errors := e.Errors }

/-- The error is a structured one: an HTTPError or one of the named kinds. -/
def GoError.isStructured : Option GoError → Bool
  | some (.http _) => true
  | some (.named _ _) => true
  | _ => false

/-- An HTTPError whose status field is unset. -/
def unsetStatusError : HTTPError :=
  { Err := none, Title := "Out of stock", Status := 0, Detail := "no items left", Errors := [] }

/-- The payload of a BadRequestError that names the invalid field. -/
def invalidNameError : HTTPError :=
  { Err := none, Title := "Invalid name", Status := 400, Detail := "name is required",
    Errors := [{ Name := "name", Reason := "required", Metadata := [] }] }

/-- A middleware that rejects the request with a TooManyRequestsError. -/
def limitMiddleware : Middleware :=
  fun _ => { ops := [], result := .ret (some (.named .TooManyRequestsError
    { Err := none, Title := "", Status := 0, Detail := "", Errors := [] })) }

/-- The bytes of the request payload that are still to be read. -/
def ReqBody.payload : ReqBody → String
  | .NoBody => ""
  | .reader remaining => remaining

/-- The context after `n` calls of GetBody. -/
def Context.afterGetBody {Body : Type} (shape : BodyShape Body) :
    Nat → Context Body → Context Body
  | 0, ctx => ctx
  | n + 1, ctx => Context.afterGetBody shape n (Context.GetBody shape ctx).2

/-- An Input shape: `struct { Name string; Count int }`. -/
structure ItemInput where
  Name : String
  Count : Int
  deriving DecidableEq, Repr

/-- The payload `{"Name":"pen","Count":3}`. -/
def itemPayload : String :=
  "\x7b\x22Name\x22:\x22pen\x22,\x22Count\x22:3\x7d"

/-- The payload `{"Name":"pen","Count":"x"}`: the count is a JSON string. -/
def mismatchPayload : String :=
  "\x7b\x22Name\x22:\x22pen\x22,\x22Count\x22:\x22x\x22\x7d"

/-- ItemInput with what encoding/json does on the payloads used below.  The
decoder reads a short stream whole.  On `itemPayload` it fills both fields;
on `mismatchPayload` it stores `Name`, skips `Count` and returns an
UnmarshalTypeError; on the empty stream it returns io.EOF; other text, such
as "x", is a syntax error and nothing is stored. -/
def itemShape : BodyShape ItemInput :=
  { zero := { Name := "", Count := 0 },
    decode := fun stream =>
      if stream = itemPayload then
        { value := { Name := "pen", Count := 3 }, failed := false, rest := "" }
      else if stream = mismatchPayload then
        { value := { Name := "pen", Count := 0 }, failed := true, rest := "" }
      else { value := { Name := "", Count := 0 }, failed := true, rest := "" } }

/-- A fresh typed context for a request with the given body and declared
content length. -/
def itemContext (contentLength : Int) (payload : String) : Context ItemInput :=
  let req : Request := { ContentLength := contentLength, Body := .reader payload }
  { ctxAny := { res := ⟨[]⟩, req := req, statusCode := 201, isNextCalled := true },
    body := none }

/-! ## Reading the claims: status and pattern -/

/-- The status after one action: `SetStatus` replaces it. -/
def statusStep (status : Int) : CtxOp → Int
  | .SetStatus code => code
  | _ => status

/-- The status a context reports after user code performed `ops`, starting
from `status`: the code of the last `SetStatus`, if any. -/
def statusAfter (ops : List CtxOp) (status : Int) : Int :=
  ops.foldl statusStep status

/-- The text begins with "/". -/
def startsWithSlash (s : String) : Bool := s.data.head? == some '/'

/-- The text ends with "/". -/
def endsWithSlash (s : String) : Bool := s.data.getLast? == some '/'

/-- The effective pattern as section 4.3 of the specification words it:
the prefix followed by the pattern (the bare prefix for a pattern of exactly
"/" under a non-empty prefix), a leading "/" added when missing, a trailing
"/" added in trailing-slash mode when missing. -/
def specifiedPattern (mount pattern : String) (autoSlash : Bool) : String :=
  let joined := if pattern = "/" ∧ mount ≠ "" then mount else mount ++ pattern
  let led := if startsWithSlash joined then joined else "/" ++ joined
  if autoSlash ∧ ¬ endsWithSlash led then led ++ "/" else led

/-! ## schema.go -/

/-- The ordered map of the OpenAPI library, as its entries in insertion
order: `Set` replaces the value of a present key in place and appends a new
key at the end. -/
def omSet {V : Type} : List (String × V) → String → V → List (String × V)
  | [], key, v => [(key, v)]
  | (k, w) :: rest, key, v =>
    if k = key then (key, v) :: rest else (k, w) :: omSet rest key v

/-- The ordered map's `Get`. -/
def omGet {V : Type} : List (String × V) → String → Option V
  | [], _ => none
  | (k, w) :: rest, key => if k = key then some w else omGet rest key

/-- A non-nil `*base.SchemaProxy`: a proxy of an inline schema, with the
fields of `base.Schema` that the walker sets, or a reference proxy.  A nil
proxy is `none : Option SchemaProxy`.  `Items` and `AdditionalProperties`
are `*base.DynamicValue`: for `Items` the `A` side (which may be a nil
proxy), for `AdditionalProperties` the `A` side or the boolean `B` side. -/
inductive SchemaProxy where
  | schema (Types : List String) (Format : String) (Minimum : Option Int)
      (MinItems MaxItems : Option Int) (Items : Option (Option SchemaProxy))
      (AdditionalProperties : Option (Option SchemaProxy ⊕ Bool))
      (Properties : List (String × Option SchemaProxy))
  | ref (target : String)

/-- The proxy that `walk` creates first: an empty schema with an empty
property map. -/
def SchemaProxy.empty : SchemaProxy := .schema [] "" none none none none none []

/-- The width of an integer kind: `int`/`uint` or one of the sized kinds. -/
inductive Width where
  | plain | w8 | w16 | w32 | w64
  deriving DecidableEq, Repr

def Width.digits : Width → String
  | .plain => ""
  | .w8 => "8"
  | .w16 => "16"
  | .w32 => "32"
  | .w64 => "64"

/-- A `reflect.Type`, by kind.  A struct type is given by its name (what
`typeToString` returns for it) and its fields are looked up in the type
environment, so that a struct may mention itself.  `other` stands for the
kinds without a case in `walk` (uintptr, complex, chan, func, unsafe
pointer). -/
inductive GoType where
  | bool
  | string
  | int (w : Width)
  | uint (w : Width)
  | float32
  | float64
  | array (len : Nat) (elem : GoType)
  | slice (elem : GoType)
  | map (key elem : GoType)
  | ptr (elem : GoType)
  | interface
  | struct (name : String)
  | other
  deriving DecidableEq, Repr

/-- A `reflect.StructField`: `Typ` is its `Type`, `Tag` the struct tag as
its key/value pairs. -/
structure StructField where
  Name : String
  PkgPath : String
  Typ : GoType
  Tag : List (String × String)
  deriving DecidableEq, Repr

/-- StructField.IsExported of package reflect: the package path is empty. -/
def StructField.IsExported (f : StructField) : Bool := f.PkgPath = ""

/-- StructTag.Get of package reflect: the value of the key, or "". -/
def StructField.TagGet (f : StructField) (key : String) : String :=
  (omGet f.Tag key).getD ""

/-- The declared struct types: the fields of each, by name. -/
abbrev TypeEnv := String → List StructField

/-- A `*v3.Parameter`, with the fields that the walker sets. -/
structure V3Parameter where
  Name : String
  In : String
  Schema : Option SchemaProxy
  AllowEmptyValue : Bool

/-- What a walk reads and writes: the component map of the document
(`doc.Components.Schemas`) and the parameter list of the operation
(`op.Parameters`). -/
structure WalkState where
  Schemas : List (String × SchemaProxy)
  Parameters : List V3Parameter

/-- structPropToParams (schema.go 138-162). -/
def structPropToParams (sf : StructField) (schema : Option SchemaProxy) : List V3Parameter :=
  let params : List V3Parameter := []
  let params :=
    if sf.TagGet "header" ≠ "" then
      params ++ [{ Name := sf.TagGet "header", In := "header", Schema := schema,
                   AllowEmptyValue := false }]
    else params
  let params :=
    if sf.TagGet "path" ≠ "" then
      params ++ [{ Name := sf.TagGet "path", In := "path", Schema := schema,
                   AllowEmptyValue := false }]
    else params
  let params :=
    if sf.TagGet "query" ≠ "" then
      params ++ [{ Name := sf.TagGet "query", In := "query", Schema := schema,
                   AllowEmptyValue := true }]
    else params
  params

/-- The part of a text before the first comma (`strings.Cut(name, ",")`). -/
def cutComma (name : String) : String := String.mk (name.data.takeWhile (· ≠ ','))

/-- propName (schema.go 164-173): the property name and whether to skip. -/
def propName (sf : StructField) : String × Bool :=
  if sf.TagGet "json" ≠ "" then
    let before := cutComma (sf.TagGet "json")
    (before, before = "-")
  else (sf.Name, false)

/-- typeToString (schema.go 179-181) on a struct type. -/
def typeToString (name : String) : String := name

/-- componentSchemaRef (schema.go 175-177). -/
def componentSchemaRef (name : String) : String :=
  "#/components/schemas/" ++ typeToString name

/-- The field loop of the struct case of `walk` (schema.go 115-125), with
the walk of a field type given as `w`: the properties set so far and the
state are threaded through the fields. -/
def walkFields (w : WalkState → GoType → Option (Option SchemaProxy × WalkState)) :
    List StructField → WalkState → List (String × Option SchemaProxy) →
    Option (List (String × Option SchemaProxy) × WalkState)
  | [], st, props => some (props, st)
  | f :: rest, st, props =>
    if f.IsExported then
      match w st f.Typ with
      | none => none
      | some (nsp, st) =>
        let params := structPropToParams f nsp
        if params.length > 0 then
          walkFields w rest { st with Parameters := st.Parameters ++ params } props
        else if (propName f).2 = false then
          walkFields w rest st (omSet props (propName f).1 nsp)
        else walkFields w rest st props
    else walkFields w rest st props

/-- walk (schema.go 57-136).  The recursion of the source is not bounded;
here `fuel` bounds its depth and `none` means that the fuel ran out.  The
result is the proxy returned (`none` inside is the nil proxy) and the state
afterwards. -/
def walk (env : TypeEnv) : Nat → WalkState → GoType →
    Option (Option SchemaProxy × WalkState)
  | 0, _, _ => none
  | fuel + 1, st, t =>
    match t with
    | .bool => some (some (.schema ["boolean"] "" none none none none none []), st)
    | .string => some (some (.schema ["string"] "" none none none none none []), st)
    | .int w =>
      some (some (.schema ["integer"] (if w ≠ .plain then "int" ++ w.digits else "")
        none none none none none []), st)
    | .uint w =>
      some (some (.schema ["integer"] ("uint" ++ w.digits) (some 0) none none none none []), st)
    | .float32 => some (some (.schema ["number"] "float" none none none none none []), st)
    | .float64 => some (some (.schema ["number"] "double" none none none none none []), st)
    | .array len elem =>
      match walk env fuel st elem with
      | none => none
      | some (item, st) =>
        some (some (.schema ["array"] "" none (some len) (some len) (some item) none []), st)
    | .slice elem =>
      match walk env fuel st elem with
      | none => none
      | some (item, st) =>
        some (some (.schema ["array"] "" none none none (some item) none []), st)
    | .map _ elem =>
      match walk env fuel st elem with
      | none => none
      | some (value, st) =>
        some (some (.schema ["object"] "" none none none none (some (.inl value)) []), st)
    | .ptr elem => walk env fuel st elem
    | .interface =>
      some (some (.schema ["object"] "" none none none none (some (.inr true)) []), st)
    | .struct name =>
      let sft := typeToString name
      if (omGet st.Schemas sft).isSome then
        some (some (.ref (componentSchemaRef name)), st)
      else
        match walkFields (walk env fuel) (env name) st [] with
        | none => none
        | some (props, st) =>
          if props.length = 0 then some (none, st)
          else
            let proxy : SchemaProxy := .schema ["object"] "" none none none none none props
            some (some (.ref (componentSchemaRef name)),
              { st with Schemas := omSet st.Schemas sft proxy })
    | .other => some (some SchemaProxy.empty, st)

/-- The struct types that a walk of the type reaches without entering a
struct: through arrays, slices, map values and pointers. -/
def GoType.structNames : GoType → List String
  | .array _ elem => elem.structNames
  | .slice elem => elem.structNames
  | .map _ elem => elem.structNames
  | .ptr elem => elem.structNames
  | .struct name => [name]
  | _ => []

/-- No struct type mentions itself, directly or through other structs: some
rank on the struct names falls from each struct to the structs its fields
reach. -/
def Acyclic (env : TypeEnv) (rank : String → Nat) : Prop :=
  ∀ name, ∀ f ∈ env name, ∀ s ∈ f.Typ.structNames, rank s < rank name

/-- The walk of the type returns when given enough fuel, from every state. -/
def Terminates (env : TypeEnv) (t : GoType) : Prop :=
  ∃ fuel, ∀ st, (walk env fuel st t).isSome = true

/-- A linked-list node: `type Node struct { Value string; Next *Node }`. -/
def nodeEnv : TypeEnv := fun name =>
  if name = "Node" then
    [{ Name := "Value", PkgPath := "", Typ := .string, Tag := [] },
     { Name := "Next", PkgPath := "", Typ := .ptr (.struct "Node"), Tag := [] }]
  else []

/-- A `*v3.MediaType` with its schema. -/
structure V3MediaType where
  Schema : Option SchemaProxy

/-- A `*v3.RequestBody`. -/
structure V3RequestBody where
  Required : Option Bool
  Description : String
  Content : List (String × V3MediaType)

/-- A `*v3.Response` with its content map. -/
structure V3Response where
  Content : List (String × V3MediaType)

/-- A `*v3.Responses`: the responses by status code and the default one. -/
structure V3Responses where
  Codes : List (String × V3Response)
  Default : Option V3Response

/-- A `*v3.Operation`, without the three texts that `route` leaves out. -/
structure V3Operation where
  RequestBody : Option V3RequestBody
  Responses : Option V3Responses
  Parameters : List V3Parameter

/-- The name of the struct type HTTPError for `typeToString`. -/
def httpErrorTypeName : String := "router.HTTPError"

/-- The decimal text of an integer (`strconv.Itoa`). -/
def Itoa (n : Int) : String := toString n

/-- route.Operation (schema.go 16-55).  `inputType` and `outputType` are the
reflect types of the type arguments; `schemas` is the component map of the
shared document `r.router.doc`, returned as the walks leave it.  `none`
means that a walk ran out of fuel. -/
def route.Operation {I O : Type} (r : route I O) (env : TypeEnv) (fuel : Nat)
    (inputType outputType : GoType) (schemas : List (String × SchemaProxy)) :
    Option (V3Operation × List (String × SchemaProxy)) :=
  match walk env fuel { Schemas := schemas, Parameters := [] } inputType with
  | none => none
  | some (inputSchema, st) =>
    let requestBody : V3RequestBody :=
      { Required := some true, Description := StatusText r.statusCode,
        Content := [(r.contentType, { Schema := inputSchema })] }
    match walk env fuel st outputType with
    | none => none
    | some (outputSchema, st) =>
      match walk env fuel st (.struct httpErrorTypeName) with
      | none => none
      | some (errorSchema, st) =>
        let responses : V3Responses :=
          { Codes := [(Itoa r.statusCode,
              { Content := [(r.contentType, { Schema := outputSchema })] })],
            Default := some { Content := [(r.contentType, { Schema := errorSchema })] } }
        some ({ RequestBody := some requestBody, Responses := some responses,
                Parameters := st.Parameters }, st.Schemas)

/-- A `*v3.PathItem`: one operation slot per verb. -/
structure V3PathItem where
  Get : Option V3Operation
  Head : Option V3Operation
  Post : Option V3Operation
  Put : Option V3Operation
  Patch : Option V3Operation
  Delete : Option V3Operation

/-- The `*v3.Document`: the path items and the component schemas (version
and info block are constants of defaultSchema). -/
structure V3Document where
  PathItems : List (String × V3PathItem)
  Schemas : List (String × SchemaProxy)

/-- defaultSchema (schema.go 183-197). -/
def defaultSchema : V3Document := { PathItems := [], Schemas := [] }

/-- The `Route` interface as Schema uses it: verb, pattern, and
`Operation()` as a step on the component map of the shared document. -/
structure Route where
  Method : String
  Pattern : String
  Operation : List (String × SchemaProxy) → Option (V3Operation × List (String × SchemaProxy))

/-- A route as a value of the `Route` interface. -/
def route.toRoute {I O : Type} (r : route I O) (env : TypeEnv) (fuel : Nat)
    (inputType outputType : GoType) : Route :=
  { Method := r.Method, Pattern := r.Pattern,
    Operation := r.Operation env fuel inputType outputType }

/-- The verbs with a case in the switch of Schema. -/
def hasSlot (method : String) : Bool :=
  method = "GET" ∨ method = "HEAD" ∨ method = "POST" ∨ method = "PUT" ∨
    method = "PATCH" ∨ method = "DELETE"

/-- The assignment of the switch of Schema (router.go 72-87) for a verb with
a case. -/
def V3PathItem.setSlot (item : V3PathItem) (method : String) (op : V3Operation) :
    V3PathItem :=
  if method = "GET" then { item with Get := some op }
  else if method = "HEAD" then { item with Head := some op }
  else if method = "POST" then { item with Post := some op }
  else if method = "PUT" then { item with Put := some op }
  else if method = "PATCH" then { item with Patch := some op }
  else { item with Delete := some op }

/-- The slot of a path item for a verb. -/
def V3PathItem.slot (item : V3PathItem) (method : String) : Option V3Operation :=
  if method = "GET" then item.Get
  else if method = "HEAD" then item.Head
  else if method = "POST" then item.Post
  else if method = "PUT" then item.Put
  else if method = "PATCH" then item.Patch
  else if method = "DELETE" then item.Delete
  else none

/-- The path item that Schema works on for a pattern (router.go 66-69): the
one of the document, or a new empty one. -/
def pathItemOf (doc : V3Document) (pattern : String) : V3PathItem :=
  match omGet doc.PathItems pattern with
  | some item => item
  | none => { Get := none, Head := none, Post := none, Put := none, Patch := none,
              Delete := none }

/-- The document after the turn of a route whose verb has a case: the path
item of its pattern with the operation in the verb's slot, and the
component map as `Operation()` left it. -/
def schemaStep (doc : V3Document) (ro : Route) (op : V3Operation)
    (schemas : List (String × SchemaProxy)) : V3Document :=
  { PathItems := omSet doc.PathItems ro.Pattern ((pathItemOf doc ro.Pattern).setSlot ro.Method op),
    Schemas := schemas }

/-- The loop of Router.Schema (router.go 64-92) over `r.routes`, on the
document `r.doc`; a verb without case is the `continue` of the switch. -/
def schemaLoop : List Route → V3Document → Option V3Document
  | [], doc => some doc
  | ro :: rest, doc =>
    if hasSlot ro.Method then
      match ro.Operation doc.Schemas with
      | none => none
      | some (op, schemas) => schemaLoop rest (schemaStep doc ro op schemas)
    else schemaLoop rest doc

/-- Router.Schema (router.go 64-92): `routes` and `doc` are the fields of
the router. -/
def Router.Schema (routes : List Route) (doc : V3Document) : Option V3Document :=
  schemaLoop routes doc

/-- The object node that the struct case of `walk` builds: type "object"
and the properties set by the field loop. -/
def objectProxy (props : List (String × Option SchemaProxy)) : SchemaProxy :=
  .schema ["object"] "" none none none none none props

/-- A field that the field loop turns into a body property: exported,
without header, path or query tag, and not skipped by its naming tag. -/
def StructField.isBodyProperty (f : StructField) : Prop :=
  f.IsExported = true ∧ f.TagGet "header" = "" ∧ f.TagGet "path" = "" ∧
    f.TagGet "query" = "" ∧ (propName f).2 = false

/-- The number of entries of an ordered map under a key. -/
def keyCount {V : Type} (m : List (String × V)) (key : String) : Nat :=
  m.countP (fun e => e.1 = key)

/-- The shapes of the examples: a request shape with a path parameter, a
query parameter and one body field; a response shape; a shape whose fields
are all parameters; and the two error shapes of error.go. -/
def sampleEnv : TypeEnv := fun name =>
  if name = "GetItem" then
    [{ Name := "ID", PkgPath := "", Typ := .string, Tag := [("path", "id")] },
     { Name := "Page", PkgPath := "", Typ := .int .plain, Tag := [("query", "page")] },
     { Name := "Verbose", PkgPath := "", Typ := .bool, Tag := [("json", "verbose")] }]
  else if name = "Item" then
    [{ Name := "Name", PkgPath := "", Typ := .string, Tag := [] },
     { Name := "Count", PkgPath := "", Typ := .uint .w8, Tag := [("json", ",omitempty")] }]
  else if name = "ItemKey" then
    [{ Name := "ID", PkgPath := "", Typ := .string, Tag := [("path", "id")] }]
  else if name = "router.HTTPError" then
    [{ Name := "Err", PkgPath := "", Typ := .interface, Tag := [("json", "-")] },
     { Name := "Title", PkgPath := "", Typ := .string, Tag := [("json", "title,omitzero")] },
     { Name := "Status", PkgPath := "", Typ := .int .plain, Tag := [("json", "status,omitzero")] },
     { Name := "Detail", PkgPath := "", Typ := .string, Tag := [("json", "detail,omitzero")] },
     { Name := "Errors", PkgPath := "", Typ := .slice (.struct "router.ErrorItem"),
       Tag := [("json", "errors,omitzero")] }]
  else if name = "router.ErrorItem" then
    [{ Name := "Name", PkgPath := "", Typ := .string, Tag := [("json", "name")] },
     { Name := "Reason", PkgPath := "", Typ := .string, Tag := [("json", "reason")] },
     { Name := "Metadata", PkgPath := "", Typ := .map .string .interface,
       Tag := [("json", "metadata,omitzero")] }]
  else []

/-- A rank for `sampleEnv`: HTTPError above ErrorItem. -/
def sampleRank (name : String) : Nat := if name = "router.HTTPError" then 1 else 0

/-- The operation of the sample POST route with request shape `GetItem` and
response shape `Item`, from a given component map. -/
def sampleOperation (schemas : List (String × SchemaProxy)) :
    Option (V3Operation × List (String × SchemaProxy)) :=
  (sampleRoute [] sampleHandler).Operation sampleEnv 6 (.struct "GetItem") (.struct "Item")
    schemas

/-- Name, location and allow-empty-value flag of the parameters of an
operation. -/
def V3Operation.parameterList (op : V3Operation) : List (String × String × Bool) :=
  op.Parameters.map (fun p => (p.Name, p.In, p.AllowEmptyValue))

/-- The operation that section 4.4 of the specification describes, for a
content type, a status code and the nodes of the three shapes: a required
request body with one content entry under the content type; one response
entry under the decimal text of the status code; a default response. -/
def specifiedOperation (contentType : String) (statusCode : Int)
    (inputSchema outputSchema errorSchema : Option SchemaProxy)
    (parameters : List V3Parameter) : V3Operation :=
  let body : V3RequestBody :=
    { Required := some true, Description := StatusText statusCode,
      Content := [(contentType, { Schema := inputSchema })] }
  let success : V3Response := { Content := [(contentType, { Schema := outputSchema })] }
  let fallback : V3Response := { Content := [(contentType, { Schema := errorSchema })] }
  { RequestBody := some body,
    Responses := some { Codes := [(Itoa statusCode, success)], Default := some fallback },
    Parameters := parameters }

/-! ## Field names of the JSON codec -/

/-- The characters that encoding/json accepts in a tag name besides letters
and digits (`isValidTag`). -/
def jsonTagPunctuation : List Char :=
  "!#$%&()*+-./:;<=>?@[]^_\x7b|\x7d~ ".data

/-- The check `isValidTag` of encoding/json (Go standard library), with
ASCII letters and digits for `unicode.IsLetter` and `unicode.IsDigit`. -/
def jsonValidTag (name : String) : Bool :=
  name ≠ "" ∧ name.data.all (fun c => jsonTagPunctuation.contains c ∨ c.isAlphanum)

/-- The key under which the default codec (encoding/json, Go standard
library) decodes and encodes an exported field that is not embedded, or
`none` when it leaves the field out: the tag "-" leaves the field out;
otherwise the name is the part of the tag before the first comma when that
part is a valid name, and the field's own name when it is empty or invalid. -/
def jsonFieldKey (sf : StructField) : Option String :=
  if sf.TagGet "json" = "-" then none
  else if jsonValidTag (cutComma (sf.TagGet "json")) then some (cutComma (sf.TagGet "json"))
  else some sf.Name

/-- What the walker does with an exported field without location tag: the
property name it emits, or `none` when it omits the field. -/
def walkerFieldKey (sf : StructField) : Option String :=
  if (propName sf).2 then none else some (propName sf).1

/-- The field `Count uint8` tagged `json:",omitempty"`. -/
def omitemptyField : StructField :=
  { Name := "Count", PkgPath := "", Typ := .uint .w8, Tag := [("json", ",omitempty")] }

/-- The field `Dash string` tagged `json:"-,"`, which the codec names "-". -/
def dashCommaField : StructField :=
  { Name := "Dash", PkgPath := "", Typ := .string, Tag := [("json", "-,")] }

/-! ## Middleware slices -/

/-- A Go slice header over a backing array of middlewares; every slice of
the package starts at the first cell of its array. -/
structure MwSlice where
  array : Nat
  len : Nat
  cap : Nat
  deriving DecidableEq, Repr

/-- The backing arrays, by index: the cells written so far. -/
abbrev MwHeap := List (List Middleware)

/-- The elements of a slice. -/
def MwHeap.read (heap : MwHeap) (s : MwSlice) : List Middleware :=
  (heap.getD s.array []).take s.len

/-- The builtin `append(s, xs...)` of Go: when the capacity suffices, the
values are written into the backing array of `s` after its elements;
otherwise a new array is allocated, of the capacity that `grow` (the
runtime's growth rule) gives. -/
def goAppend (grow : Nat → Nat → Nat) (heap : MwHeap) (s : MwSlice) (xs : List Middleware) :
    MwHeap × MwSlice :=
  if s.len + xs.length ≤ s.cap then
    let cells := heap.getD s.array []
    (heap.set s.array (cells.take s.len ++ xs ++ cells.drop (s.len + xs.length)),
      { s with len := s.len + xs.length })
  else
    (heap ++ [(heap.getD s.array []).take s.len ++ xs],
      { array := heap.length, len := s.len + xs.length,
        cap := grow s.cap (s.len + xs.length) })

/-- The middleware slice of a new route (newRoute, route.go 100:
`middlewares: router.middlewares`): the router's slice header. -/
def newRouteMiddlewares (routerMiddlewares : MwSlice) : MwSlice := routerMiddlewares

/-- route.Use (route.go 152-155) on the slice of the route:
`r.middlewares = append(r.middlewares, middlewares...)`. -/
def useMiddlewares (grow : Nat → Nat → Nat) (heap : MwHeap) (routeMiddlewares : MwSlice)
    (middlewares : List Middleware) : MwHeap × MwSlice :=
  goAppend grow heap routeMiddlewares middlewares

/-- Two routes with the same verb and pattern and different request shapes. -/
def duplicateRoutes : List Route :=
  [(sampleRoute [] sampleHandler).toRoute sampleEnv 6 (.struct "GetItem") (.struct "Item"),
   (sampleRoute [] sampleHandler).toRoute sampleEnv 6 (.struct "ItemKey") (.struct "Item")]

/-- The slice that `make([]Middleware, 0)` gives in `New` (router.go 41):
length 0 and capacity 0, over the array with index 0. -/
def newMiddlewares : MwSlice := { array := 0, len := 0, cap := 0 }

/-- The middleware slices of a router and of its routes: the backing
arrays, the router's slice (`Router.middlewares`) and the slices of the
routes in the order of their creation (`route.middlewares`). -/
structure MwState where
  heap : MwHeap
  router : MwSlice
  routes : List MwSlice

/-- The state after `New()` (router.go 35-52): the router's empty slice and
no route. -/
def afterNew : MwState := { heap := [[]], router := newMiddlewares, routes := [] }

/-- The calls of the package that read or write a middleware slice: the
creation of a route (`Get`, `Post`, ..., `Any`, through `newRoute`) and
`Use` on the route created as number `index`.  No function of the package
writes `Router.middlewares`. -/
inductive MwCall where
  | Create
  | Use (index : Nat) (middlewares : List Middleware)

/-- The state after one call. -/
def MwState.call (grow : Nat → Nat → Nat) (st : MwState) : MwCall → MwState
  | .Create => { st with routes := st.routes ++ [newRouteMiddlewares st.router] }
  | .Use index middlewares =>
    match st.routes[index]? with
    | none => st
    | some s =>
      { st with heap := (useMiddlewares grow st.heap s middlewares).1,
                routes := st.routes.set index (useMiddlewares grow st.heap s middlewares).2 }

/-- The state after `New()` and a sequence of calls. -/
def MwState.after (grow : Nat → Nat → Nat) (calls : List MwCall) : MwState :=
  calls.foldl (MwState.call grow) afterNew

/-- The middleware lists of the routes, in the order of their creation. -/
def MwState.lists (st : MwState) : List (List Middleware) := st.routes.map st.heap.read

/-- The router-level middleware list. -/
def MwState.routerList (st : MwState) : List Middleware := st.heap.read st.router

/-- The lists of the routes after `Use` on the route with number `index`, as
the specification words it: the arguments follow the list of that route, and
no other list changes. -/
def listsAfterUse (lists : List (List Middleware)) (index : Nat)
    (middlewares : List Middleware) : List (List Middleware) :=
  match lists[index]? with
  | none => lists
  | some l => lists.set index (l ++ middlewares)

/-- The lists of the routes after a sequence of calls, as the specification
words them: a route starts with the router-level list as it is when the
route is created, and every later `Use` on the route puts its arguments
after the list of that route. -/
def specifiedLists (routerList : List Middleware) (calls : List MwCall) :
    List (List Middleware) :=
  calls.foldl (fun lists c =>
    match c with
    | .Create => lists ++ [routerList]
    | .Use index middlewares => listsAfterUse lists index middlewares) []

/-- What holds of the slices in every state that the calls reach: every
slice of a route lies within its array, a slice over the array of `New` has
capacity 0, and two routes share no other array. -/
def MwState.separate (st : MwState) : Prop :=
  0 < st.heap.length ∧ st.router = newMiddlewares ∧
  (∀ (i : Nat) (s : MwSlice), st.routes[i]? = some s →
    s.array < st.heap.length ∧ s.len ≤ (st.heap.getD s.array []).length ∧
      (s.array = 0 → s.cap = 0)) ∧
  (∀ (i j : Nat) (s t : MwSlice), st.routes[i]? = some s → st.routes[j]? = some t →
    i ≠ j → s.array = t.array → s.array = 0)

/-! ## The response as delivered -/

/-- The header map of the response writer after `Header().Set(key, value)`. -/
def headerSet (header : List (String × List String)) (key value : String) :
    List (String × List String) :=
  omSet header key [value]

/-- The header map of the response writer after `Header().Add(key, value)`. -/
def headerAdd (header : List (String × List String)) (key value : String) :
    List (String × List String) :=
  omSet header key ((omGet header key).getD [] ++ [value])

/-- The status line and the headers that go out to the client. -/
structure Delivered where
  status : Int
  header : List (String × List String)
  deriving DecidableEq, Repr

/-- One call on the response writer, under the semantics in which the
headers sent are those present when the status line is written: the first
`WriteHeader` (or the first `Write`, with status 200, when there was none)
sends the status line with the header map of that moment; later changes of
the header map and later `WriteHeader` calls are not sent. -/
def deliverStep (state : List (String × List String) × Option Delivered) :
    ResCall → List (String × List String) × Option Delivered
  | .HeaderSet key value => (headerSet state.1 key value, state.2)
  | .HeaderAdd key value => (headerAdd state.1 key value, state.2)
  | .WriteHeader code =>
    match state.2 with
    | some sent => (state.1, some sent)
    | none => (state.1, some { status := code, header := state.1 })
  | .Write _ =>
    match state.2 with
    | some sent => (state.1, some sent)
    | none => (state.1, some { status := 200, header := state.1 })

/-- What the client receives of a response: `none` when nothing was sent. -/
def ResponseWriter.delivered (w : ResponseWriter) : Option Delivered :=
  (w.calls.foldl deliverStep ([], none)).2

/-- The Content-Type values of the delivered response, or `none` when the
response was delivered without that header (or not at all). -/
def ResponseWriter.deliveredContentType (w : ResponseWriter) : Option (List String) :=
  w.delivered.bind (fun sent => omGet sent.header xContentType)

/-- A middleware that answers 204 itself and returns nil without `Next()`. -/
def stopMiddleware : Middleware :=
  fun _ => { ops := [.WriteHeader 204], result := .ret none }

/-- A record with a field whose record type has no body property:
`type Wrapper struct { Key ItemKey; Name string }`, over `sampleEnv`. -/
def wrapperEnv : TypeEnv := fun name =>
  if name = "Wrapper" then
    [{ Name := "Key", PkgPath := "", Typ := .struct "ItemKey", Tag := [] },
     { Name := "Name", PkgPath := "", Typ := .string, Tag := [] }]
  else sampleEnv name

/-- The properties of a schema node (none for a reference). -/
def SchemaProxy.properties : SchemaProxy → List (String × Option SchemaProxy)
  | .schema _ _ _ _ _ _ _ props => props
  | .ref _ => []

/-- The list of routes with the one sample POST route of request shape
`GetItem`. -/
def singleRoute : List Route :=
  [(sampleRoute [] sampleHandler).toRoute sampleEnv 6 (.struct "GetItem") (.struct "Item")]

/-- The parameter list in the POST slot of the path item "/items". -/
def postParameters (doc : V3Document) : Option (List (String × String × Bool)) :=
  (omGet doc.PathItems "/items").bind
    (fun item => (item.slot "POST").map V3Operation.parameterList)

/-- An error of a type outside error.go whose `StatusCode()` returns 0. -/
def zeroCodeError : Option GoError := some (.coded "unset" 0)

/-! ## The rule table of the walker -/

/-- The walk of the type from the state returns the proxy and the state
(with some amount of fuel). -/
def Walks (env : TypeEnv) (st : WalkState) (t : GoType)
    (r : Option SchemaProxy × WalkState) : Prop :=
  ∃ fuel, walk env fuel st t = some r

/-- The node of the rule table for a scalar: the type and no constraint. -/
def scalarNode (type : String) : SchemaProxy :=
  .schema [type] "" none none none none none []

/-- The integer node of the rule table: format hint and minimum. -/
def integerNode (format : String) (minimum : Option Int) : SchemaProxy :=
  .schema ["integer"] format minimum none none none none []

/-- The number node of the rule table with its format hint. -/
def numberNode (format : String) : SchemaProxy :=
  .schema ["number"] format none none none none none []

/-- The array node of the rule table: the length bounds (both set to the
length, or both unset) and the item node. -/
def arrayNode (length : Option Int) (item : Option SchemaProxy) : SchemaProxy :=
  .schema ["array"] "" none length length (some item) none []

/-- The object node of the rule table for a mapping: additional properties
set to the node of the value shape. -/
def mappingNode (value : Option SchemaProxy) : SchemaProxy :=
  .schema ["object"] "" none none none none (some (.inl value)) []

/-- An error of a type outside error.go whose `StatusCode()` returns 42,
which is no status code that `WriteHeader` takes. -/
def shortCodeError : GoError := .coded "short" 42

/-- A middleware that panics with that error before anything is written. -/
def shortCodePanicMiddleware : Middleware :=
  fun _ => { ops := [], result := .panic (.error shortCodeError) }

/-- A handler that returns that error. -/
def shortCodeHandler : Handler Unit String :=
  fun _ => { ops := [], result := .ret ("", some shortCodeError) }

/-! ## Route patterns -/

theorem slash_prefix_of_head (l : List Char) (h : l.head? = some '/') :
    "/".data <+: l := by
  cases l with
  | nil => simp at h
  | cons c t =>
    simp only [List.head?_cons, Option.some.injEq] at h
    subst h
    exact ⟨t, rfl⟩

theorem slash_suffix_of_getLast (l : List Char) (h : l.getLast? = some '/') :
    "/".data <:+ l := by
  rcases List.getLast?_eq_some_iff.mp h with ⟨ys, rfl⟩
  exact ⟨ys, rfl⟩

/-- The pattern a successful newRoute stores, from the pattern after the
prefix step and its first byte. -/
theorem pattern_steps_slashes (p : String) (first : Char) (auto : Bool)
    (hf : p.data.head? = some first) :
    let p1 := if first ≠ '/' then "/" ++ p else p
    let p2 := if auto = true ∧ p1.data.getLast? ≠ some '/' then p1 ++ "/" else p1
    "/".data <+: p2.data ∧ (auto = true → "/".data <:+ p2.data) := by
  intro p1 p2
  have h1 : p1.data.head? = some '/' := by
    by_cases hc : first = '/'
    · simp only [p1, hc, ne_eq, not_true_eq_false, if_false]
      rw [hf, hc]
    · simp only [p1, hc, ne_eq, not_false_eq_true, if_true, String.data_append]
      rfl
  by_cases hl : p1.data.getLast? = some '/'
  · have h2 : p2 = p1 := by simp [p2, hl]
    rw [h2]
    exact ⟨slash_prefix_of_head _ h1, fun _ => slash_suffix_of_getLast _ hl⟩
  · cases auto with
    | false =>
      have h2 : p2 = p1 := by simp [p2]
      rw [h2]
      exact ⟨slash_prefix_of_head _ h1, fun h => by cases h⟩
    | true =>
      have h2 : p2 = p1 ++ "/" := by simp [p2, hl]
      rw [h2, String.data_append]
      refine ⟨?_, fun _ => ⟨p1.data, rfl⟩⟩
      apply slash_prefix_of_head
      cases hd : p1.data with
      | nil => rw [hd] at h1; simp at h1
      | cons c t => rw [hd] at h1; simpa using h1

/-- C1: a route that newRoute creates has a pattern that starts with "/",
and that ends with "/" when the router enables trailing-slash mode; newRoute
creates a route for every prefix and pattern that are not both empty. -/
theorem newRoute_pattern_slashes {I O : Type} (router : Router O) (method pattern : String)
    (handler : Handler I O) (kind : CtxKind) (os : Option (Serializer O))
    (je : Payload O → String) :
    (∀ r : route I O, newRoute router method pattern handler kind os je = .ok r →
      "/".data <+: r.Pattern.data ∧
      (router.enableAutoSlash = true → "/".data <:+ r.Pattern.data)) ∧
    (router.pattern ≠ "" ∨ pattern ≠ "" →
      ∃ r : route I O, newRoute router method pattern handler kind os je = .ok r) := by
  constructor
  · intro r h
    unfold newRoute at h
    simp only [] at h
    split at h
    · cases h
    · rename_i first hf
      simp only [Except.ok.injEq] at h
      subst h
      exact pattern_steps_slashes _ first router.enableAutoSlash hf
  · intro hne
    unfold newRoute
    simp only []
    split
    · rename_i hnone
      exfalso
      rw [List.head?_eq_none_iff] at hnone
      by_cases hp : router.pattern = ""
      · simp only [hp, ne_eq, not_true_eq_false, if_false] at hnone
        rcases hne with h | h
        · exact h hp
        · exact h (String.ext hnone)
      · by_cases hs : pattern = "/"
        · simp only [hp, hs, ne_eq, not_false_eq_true, if_true, not_true_eq_false, if_false] at hnone
          exact hp (String.ext hnone)
        · simp only [hp, hs, ne_eq, not_false_eq_true, if_true, String.data_append,
            List.append_eq_nil] at hnone
          exact hp (String.ext hnone.1)
    · exact ⟨_, rfl⟩

/-- Instance of C1: "items" registered on a router mounted at "/api" with
trailing-slash mode gives a route whose pattern has both slashes. -/
theorem newRoute_pattern_slashes_witness :
    ∃ r : route Unit String,
      newRoute sampleRouter "GET" "items" sampleHandler .ContextAny none sampleEncode = .ok r ∧
      "/".data <+: r.Pattern.data ∧ "/".data <:+ r.Pattern.data :=
  have h := newRoute_pattern_slashes sampleRouter "GET" "items" sampleHandler
    .ContextAny none sampleEncode
  match h.2 (Or.inl (by decide)) with
  | ⟨r, hr⟩ => ⟨r, hr, (h.1 r hr).1, (h.1 r hr).2 rfl⟩

/-! ## Middleware chain -/

theorem applyOps_isNextCalled (ops : List CtxOp) (ctx : ContextAny) :
    (ctx.applyOps ops).isNextCalled = (ctx.isNextCalled || ops.contains .Next) := by
  induction ops generalizing ctx with
  | nil => simp [ContextAny.applyOps]
  | cons op rest ih =>
    have hstep : ctx.applyOps (op :: rest) = (ctx.applyOp op).applyOps rest := rfl
    rw [hstep, ih]
    cases op <;>
      simp [ContextAny.applyOp, ContextAny.Next, ContextAny.SetStatus, ContextAny.SetHeader,
        ContextAny.AddHeader, ContextAny.afterWriteHeader, ContextAny.Write]

/-- One turn of the middleware loop, by whether the middleware returned nil
and called `Next()`. -/
theorem middlewareLoop_cons (m : Middleware) (rest : List Middleware) (i : Nat)
    (ctx : ContextAny) :
    let c0 : ContextAny := { ctx with isNextCalled := false }
    let inv : Invocation := { who := .middleware i, ops := (m c0).ops, result := (m c0).result }
    middlewareLoop (m :: rest) i ctx =
      if inv.continues = true then
        (inv :: (middlewareLoop rest (i + 1) (c0.applyOps (m c0).ops)).1,
          (middlewareLoop rest (i + 1) (c0.applyOps (m c0).ops)).2)
      else
        ([inv], c0.applyOps (m c0).ops,
          match (m c0).result with
          | .panic p => .panic p
          | .ret err => .stop err) := by
  intro c0 inv
  have hflag : (c0.applyOps (m c0).ops).isNextCalled = (m c0).ops.contains .Next := by
    rw [applyOps_isNextCalled]; simp [c0]
  have hcont : inv.continues =
      ((match (m c0).result with | .ret none => true | _ => false) &&
        (m c0).ops.contains .Next) := rfl
  rw [middlewareLoop]
  simp only []
  rw [hcont]
  change (match (m c0).result with
    | .panic p => ([inv], c0.applyOps (m c0).ops, Flow.panic p)
    | .ret err =>
      if err.isSome = true ∨ (c0.applyOps (m c0).ops).isNextCalled = false then
        ([inv], c0.applyOps (m c0).ops, Flow.stop err)
      else
        (inv :: (middlewareLoop rest (i + 1) (c0.applyOps (m c0).ops)).1,
          (middlewareLoop rest (i + 1) (c0.applyOps (m c0).ops)).2.1,
          (middlewareLoop rest (i + 1) (c0.applyOps (m c0).ops)).2.2)) = _
  rw [hflag]
  cases (m c0).result with
  | panic p => simp
  | ret err =>
    cases err with
    | some e => simp
    | none =>
      cases (m c0).ops.contains .Next <;> simp

theorem middlewareLoop_length_le (mws : List Middleware) (i : Nat) (ctx : ContextAny) :
    (middlewareLoop mws i ctx).1.length ≤ mws.length := by
  induction mws generalizing i ctx with
  | nil => simp [middlewareLoop]
  | cons m rest ih =>
    have h := middlewareLoop_cons m rest i ctx
    simp only [] at h
    rw [h]
    split
    · simpa using ih _ _
    · simp

/-- The invocation at position `j` of the loop's record is a run of the
middleware at position `j` of the list. -/
theorem middlewareLoop_getElem (mws : List Middleware) (i : Nat) (ctx : ContextAny)
    (j : Nat) (inv : Invocation) (hj : (middlewareLoop mws i ctx).1[j]? = some inv) :
    inv.who = .middleware (i + j) ∧
      ∃ m c, mws[j]? = some m ∧ inv.ops = (m c).ops ∧ inv.result = (m c).result := by
  induction mws generalizing i ctx j with
  | nil => simp [middlewareLoop] at hj
  | cons m rest ih =>
    have h := middlewareLoop_cons m rest i ctx
    simp only [] at h
    rw [h] at hj
    split at hj
    · cases j with
      | zero =>
        simp only [List.getElem?_cons_zero, Option.some.injEq] at hj
        subst hj
        exact ⟨rfl, m, _, List.getElem?_cons_zero, rfl, rfl⟩
      | succ j =>
        simp only [List.getElem?_cons_succ] at hj
        obtain ⟨hw, m2, c2, hm, ho, hr⟩ := ih _ _ _ hj
        refine ⟨?_, m2, c2, by simpa using hm, ho, hr⟩
        rw [hw]; congr 1; omega
    · cases j with
      | zero =>
        simp only [List.getElem?_cons_zero, Option.some.injEq] at hj
        subst hj
        exact ⟨rfl, m, _, List.getElem?_cons_zero, rfl, rfl⟩
      | succ j => simp at hj

/-- Every invocation of the loop's record but the last one returned nil and
called `Next()`. -/
theorem middlewareLoop_init_continues (mws : List Middleware) (i : Nat) (ctx : ContextAny)
    (j : Nat) (inv : Invocation) (hj : (middlewareLoop mws i ctx).1[j]? = some inv)
    (hlt : j + 1 < (middlewareLoop mws i ctx).1.length) : inv.continues = true := by
  induction mws generalizing i ctx j with
  | nil => simp [middlewareLoop] at hj
  | cons m rest ih =>
    have h := middlewareLoop_cons m rest i ctx
    simp only [] at h
    rw [h] at hj hlt
    split at hj
    · rename_i hc
      rw [if_pos hc] at hlt
      cases j with
      | zero =>
        simp only [List.getElem?_cons_zero, Option.some.injEq] at hj
        subst hj
        exact hc
      | succ j =>
        simp only [List.getElem?_cons_succ] at hj
        simp only [List.length_cons] at hlt
        exact ih _ _ _ hj (by omega)
    · rename_i hc
      rw [if_neg hc] at hlt
      simp at hlt

/-- The loop runs to its end exactly when it invoked every middleware and
each of them returned nil and called `Next()`. -/
theorem middlewareLoop_isNext_iff (mws : List Middleware) (i : Nat) (ctx : ContextAny) :
    (middlewareLoop mws i ctx).2.2.isNext = true ↔
      (middlewareLoop mws i ctx).1.length = mws.length ∧
        ∀ inv ∈ (middlewareLoop mws i ctx).1, inv.continues = true := by
  induction mws generalizing i ctx with
  | nil => simp [middlewareLoop, Flow.isNext]
  | cons m rest ih =>
    have h := middlewareLoop_cons m rest i ctx
    simp only [] at h
    rw [h]
    split
    · rename_i hc
      simp only [List.length_cons, Nat.add_right_cancel_iff, List.mem_cons, forall_eq_or_imp]
      rw [ih]
      constructor
      · rintro ⟨h1, h2⟩; exact ⟨h1, hc, h2⟩
      · rintro ⟨h1, _, h2⟩; exact ⟨h1, h2⟩
    · rename_i hc
      constructor
      · intro hn
        exfalso
        revert hn
        cases (m { ctx with isNextCalled := false }).result <;> simp [Flow.isNext]
      · rintro ⟨_, h2⟩
        exact absurd (h2 _ (List.mem_singleton.mpr rfl)) hc

theorem middlewareLoop_whos (mws : List Middleware) (ctx : ContextAny) :
    (middlewareLoop mws 0 ctx).1.map Invocation.who =
      (List.range (middlewareLoop mws 0 ctx).1.length).map Callee.middleware := by
  apply List.ext_getElem?
  intro j
  simp only [List.getElem?_map]
  cases hj : (middlewareLoop mws 0 ctx).1[j]? with
  | none =>
    have : (middlewareLoop mws 0 ctx).1.length ≤ j := List.getElem?_eq_none_iff.mp hj
    simp [List.getElem?_eq_none_iff.mpr, this]
  | some inv =>
    have hlt : j < (middlewareLoop mws 0 ctx).1.length := by
      rcases List.getElem?_eq_some_iff.mp hj with ⟨h, _⟩
      exact h
    have hw := (middlewareLoop_getElem mws 0 ctx j inv hj).1
    simp [hw, List.getElem?_range hlt]

/-- The invocations of a dispatch: those of the middleware loop, then the
handler's when the loop ran to its end. -/
theorem ServeHTTP_invoked {I O : Type} (r : route I O) (res : ResponseWriter)
    (req : Request) :
    let ctxAny : ContextAny :=
      { req := req, res := res, statusCode := r.statusCode, isNextCalled := true }
    let L := middlewareLoop r.middlewares 0 ctxAny
    (r.ServeHTTP res req).invoked =
      if L.2.2.isNext = true then
        L.1 ++ [r.handlerInvocation ((newContext r.ctxKind ctxAny : Ctx I).sync L.2.1)]
      else L.1 := by
  intro ctxAny L
  have hL : middlewareLoop r.middlewares 0 ctxAny = (L.1, L.2.1, L.2.2) := rfl
  unfold route.ServeHTTP route.serveBody
  simp only []
  rw [hL]
  cases hf : L.2.2 with
  | next =>
    simp only [Flow.isNext, if_true]
    cases hres : (r.handler ((newContext r.ctxKind ctxAny : Ctx I).sync L.2.1)).result with
    | panic p =>
      simp only [ctxAny] at hres
      simp only [hres]
      cases r.recovered _ p <;> rfl
    | ret v =>
      obtain ⟨output, err⟩ := v
      simp only [ctxAny] at hres
      simp only [hres]
      cases err with
      | none =>
        simp only []
        cases hh : ContextAny.WriteHeader _ _ with
        | ok c => rfl
        | error p =>
          simp only []
          cases r.recovered _ p <;> rfl
      | some e =>
        simp only []
        cases hh : r.handleError _ (some e) with
        | ok c => rfl
        | error p =>
          simp only []
          cases r.recovered _ p <;> rfl
  | stop err =>
    simp only [Flow.isNext, Bool.false_eq_true, if_false]
    cases hh : r.handleError L.2.1 err with
    | ok c => rfl
    | error p =>
      simp only []
      cases r.recovered _ p <;> rfl
  | panic p =>
    simp only [Flow.isNext, Bool.false_eq_true, if_false]
    cases r.recovered _ p <;> rfl

theorem mem_getElem?_of_mem {α : Type} (l : List α) (a : α) (h : a ∈ l) :
    ∃ j : Nat, l[j]? = some a := by
  obtain ⟨j, hj, rfl⟩ := List.mem_iff_getElem.mp h
  exact ⟨j, List.getElem?_eq_getElem hj⟩

/-- C2: in every dispatch the middlewares that run are the first `k` of the
route's list, each run once and in list order, followed by the handler at
most; the handler runs exactly when every middleware of the list ran,
returned a nil error and called `Next()`; and after a middleware that
returns an error, returns without calling `Next()` or panics, nothing else
is invoked. -/
theorem ServeHTTP_middleware_order {I O : Type} (r : route I O) (res : ResponseWriter)
    (req : Request) :
    (∃ k, k ≤ r.middlewares.length ∧
      ((r.ServeHTTP res req).invoked.map Invocation.who =
          (List.range k).map Callee.middleware ∨
        (k = r.middlewares.length ∧
          (r.ServeHTTP res req).invoked.map Invocation.who =
            (List.range k).map Callee.middleware ++ [Callee.handler]))) ∧
    (∀ (j : Nat) (inv : Invocation) (i : Nat),
      (r.ServeHTTP res req).invoked[j]? = some inv → inv.who = .middleware i →
      i = j ∧ ∃ m c, r.middlewares[i]? = some m ∧ inv.ops = (m c).ops ∧
        inv.result = (m c).result) ∧
    (Callee.handler ∈ (r.ServeHTTP res req).invoked.map Invocation.who ↔
      ∀ i, i < r.middlewares.length →
        ∃ inv ∈ (r.ServeHTTP res req).invoked,
          inv.who = .middleware i ∧ inv.continues = true) ∧
    (∀ (pre : List Invocation) (inv : Invocation) (post : List Invocation),
      (r.ServeHTTP res req).invoked = pre ++ inv :: post →
      inv.who ≠ .handler → inv.continues = false → post = []) := by
  have hinv := ServeHTTP_invoked r res req
  simp only [] at hinv
  rw [hinv]
  obtain ⟨ctxAny, hc⟩ : ∃ c : ContextAny, c = ⟨res, req, r.statusCode, true⟩ := ⟨_, rfl⟩
  rw [← hc]
  have hwhos := middlewareLoop_whos r.middlewares ctxAny
  have hget := middlewareLoop_getElem r.middlewares 0 ctxAny
  have hinit := middlewareLoop_init_continues r.middlewares 0 ctxAny
  have hiff := middlewareLoop_isNext_iff r.middlewares 0 ctxAny
  have hle := middlewareLoop_length_le r.middlewares 0 ctxAny
  generalize middlewareLoop r.middlewares 0 ctxAny = L at *
  obtain ⟨invs, c1, flow⟩ := L
  simp only [] at hwhos hget hinit hiff hle ⊢
  have hnoHandler : ∀ inv ∈ invs, inv.who ≠ .handler := by
    intro inv hm hw
    obtain ⟨j, hj⟩ := mem_getElem?_of_mem invs inv hm
    rw [(hget j inv hj).1] at hw
    cases hw
  by_cases hn : flow.isNext = true
  · rw [if_pos hn]
    obtain ⟨hlen, hall⟩ := hiff.mp hn
    have hiw0 : (r.handlerInvocation ((newContext r.ctxKind ctxAny : Ctx I).sync c1)).who =
        .handler := rfl
    generalize r.handlerInvocation ((newContext r.ctxKind ctxAny : Ctx I).sync c1) = hi at *
    have hiw : hi.who = .handler := hiw0
    refine ⟨⟨r.middlewares.length, le_refl _, Or.inr ⟨rfl, ?_⟩⟩, ?_, ?_, ?_⟩
    · rw [List.map_append, hwhos, hlen]
      simp [hiw]
    · intro j inv i hj hw
      rcases Nat.lt_or_ge j invs.length with hlt | hge
      · rw [List.getElem?_append_left hlt] at hj
        obtain ⟨hw2, hrun⟩ := hget j inv hj
        rw [hw2] at hw
        have hij : i = j := by
          have := Callee.middleware.inj hw
          omega
        subst hij
        exact ⟨rfl, hrun⟩
      · rw [List.getElem?_append_right hge] at hj
        cases hk : j - invs.length with
        | zero =>
          rw [hk] at hj
          simp only [List.getElem?_cons_zero, Option.some.injEq] at hj
          rw [← hj, hiw] at hw
          cases hw
        | succ n => rw [hk] at hj; simp at hj
    · constructor
      · intro _ i hi2
        rw [← hlen] at hi2
        refine ⟨invs[i], List.mem_append_left _ (List.getElem_mem hi2), ?_,
          hall _ (List.getElem_mem hi2)⟩
        have := (hget i invs[i] (List.getElem?_eq_getElem hi2)).1
        simpa using this
      · intro _
        simp [hiw]
    · intro pre inv post heq hw hcn
      have hmem : inv ∈ invs ++ [hi] := by rw [heq]; simp
      rcases List.mem_append.mp hmem with h1 | h1
      · rw [hall inv h1] at hcn
        cases hcn
      · rw [List.mem_singleton.mp h1] at hw
        exact absurd hiw hw
  · rw [if_neg hn]
    refine ⟨⟨invs.length, hle, Or.inl hwhos⟩, ?_, ?_, ?_⟩
    · intro j inv i hj hw
      obtain ⟨hw2, hrun⟩ := hget j inv hj
      rw [hw2] at hw
      have hij : i = j := by
        have := Callee.middleware.inj hw
        omega
      subst hij
      exact ⟨rfl, hrun⟩
    · constructor
      · intro hmem
        rw [hwhos] at hmem
        simp at hmem
      · intro hall
        exfalso
        apply hn
        rw [hiff]
        have key : ∀ i, i < r.middlewares.length →
            ∃ h : i < invs.length, invs[i].continues = true := by
          intro i hi
          obtain ⟨inv, hm, hw, hcn⟩ := hall i hi
          obtain ⟨j, hj⟩ := mem_getElem?_of_mem invs inv hm
          have hw2 := (hget j inv hj).1
          rw [hw] at hw2
          have hij : i = j := by
            have := Callee.middleware.inj hw2
            omega
          subst hij
          obtain ⟨hlt, he⟩ := List.getElem?_eq_some_iff.mp hj
          exact ⟨hlt, by rw [he]; exact hcn⟩
        have hlen : invs.length = r.middlewares.length := by
          rcases Nat.lt_or_ge invs.length r.middlewares.length with hlt | hge
          · obtain ⟨h, _⟩ := key invs.length hlt
            exact absurd h (lt_irrefl _)
          · omega
        refine ⟨hlen, ?_⟩
        intro inv hm
        obtain ⟨j, hj, rfl⟩ := List.mem_iff_getElem.mp hm
        exact (key j (by omega)).2
    · intro pre inv post heq _ hcn
      by_contra hpost
      have hj : invs[pre.length]? = some inv := by
        rw [heq, List.getElem?_append_right (le_refl _)]
        simp
      have hlt : pre.length + 1 < invs.length := by
        rw [heq]
        cases post with
        | nil => exact absurd rfl hpost
        | cons a t => simp
      rw [hinit pre.length inv hj hlt] at hcn
      cases hcn

/-! ## Error handling in a dispatch -/

theorem applyOps_calls (ops : List CtxOp) (ctx : ContextAny) :
    (ctx.applyOps ops).res.calls = ctx.res.calls ++ ops.filterMap CtxOp.resCall? := by
  induction ops generalizing ctx with
  | nil => simp [ContextAny.applyOps]
  | cons op rest ih =>
    have hstep : ctx.applyOps (op :: rest) = (ctx.applyOp op).applyOps rest := rfl
    rw [hstep, ih]
    cases op <;>
      simp [ContextAny.applyOp, ContextAny.Next, ContextAny.SetStatus, ContextAny.SetHeader,
        ContextAny.AddHeader, ContextAny.afterWriteHeader, ContextAny.Write, CtxOp.resCall?]

theorem middlewareLoop_calls (mws : List Middleware) (i : Nat) (ctx : ContextAny) :
    (middlewareLoop mws i ctx).2.1.res.calls =
      ctx.res.calls ++ userCalls (middlewareLoop mws i ctx).1 := by
  induction mws generalizing i ctx with
  | nil => simp [middlewareLoop, userCalls]
  | cons m rest ih =>
    have h := middlewareLoop_cons m rest i ctx
    simp only [] at h
    rw [h]
    split_ifs with hc
    · simp only []
      rw [ih, applyOps_calls]
      simp [userCalls]
    · simp only []
      rw [applyOps_calls]
      simp [userCalls]

/-- When the loop ends early, its last invocation is the middleware that
ended it. -/
theorem middlewareLoop_flow (mws : List Middleware) (i : Nat) (ctx : ContextAny) :
    match (middlewareLoop mws i ctx).2.2 with
    | .next => True
    | .stop err => ∃ pre inv, (middlewareLoop mws i ctx).1 = pre ++ [inv] ∧
        inv.result = .ret err ∧ inv.continues = false ∧ inv.who ≠ .handler
    | .panic p => ∃ pre inv, (middlewareLoop mws i ctx).1 = pre ++ [inv] ∧
        inv.result = .panic p := by
  induction mws generalizing i ctx with
  | nil => simp [middlewareLoop]
  | cons m rest ih =>
    have h := middlewareLoop_cons m rest i ctx
    simp only [] at h
    rw [h]
    split_ifs with hc
    · simp only []
      have ih2 := ih (i + 1) (({ ctx with isNextCalled := false } : ContextAny).applyOps
        (m { ctx with isNextCalled := false }).ops)
      revert ih2
      cases (middlewareLoop rest (i + 1) _).2.2 with
      | next => intro _; trivial
      | stop err =>
        rintro ⟨pre, inv, h1, h2⟩
        exact ⟨_ :: pre, inv, by rw [h1]; rfl, h2⟩
      | panic p =>
        rintro ⟨pre, inv, h1, h2⟩
        exact ⟨_ :: pre, inv, by rw [h1]; rfl, h2⟩
    · simp only []
      cases hres : (m { ctx with isNextCalled := false }).result with
      | panic p => exact ⟨[], _, rfl, rfl⟩
      | ret err =>
        refine ⟨[], _, rfl, rfl, ?_, ?_⟩
        · rw [hres] at hc; simpa using hc
        · intro hw; cases hw

theorem getLast?_snoc {α : Type} (l : List α) (a : α) : (l ++ [a]).getLast? = some a := by
  simp

/-- A call of `WriteHeader` with a three-digit code returns. -/
theorem WriteHeader_of_valid (ctx : ContextAny) (code : Int) (h : validWriteHeaderCode code) :
    ctx.WriteHeader code = .ok (ctx.afterWriteHeader code) := by
  unfold ContextAny.WriteHeader checkWriteHeaderCode
  have hno : ¬ (code < 100 ∨ code > 999) := by
    unfold validWriteHeaderCode at h
    omega
  rw [if_neg hno]
  split_ifs <;> rfl

/-- A call of `WriteHeader` that returned has the effect that the action
`WriteHeader` of a run has. -/
theorem WriteHeader_ok (ctx ctx1 : ContextAny) (code : Int)
    (h : ctx.WriteHeader code = .ok ctx1) : ctx1 = ctx.applyOp (.WriteHeader code) := by
  unfold ContextAny.WriteHeader at h
  split_ifs at h
  · exact (Except.ok.inj h).symm
  · split at h
    · cases h
    · exact (Except.ok.inj h).symm

/-- The status code that error handling derives from an error on a route
with the default error processor is a three-digit one when the error
declares none, declares 0, or declares a three-digit code. -/
theorem errorStatus_valid (err : Option GoError)
    (h : ∀ code, GoError.StatusCode? err = some code → code = 0 ∨ validWriteHeaderCode code) :
    validWriteHeaderCode (HTTPError.StatusCode (defaultErrorProcessorValue err)) := by
  have hs : (defaultErrorProcessorValue err).Status = (GoError.StatusCode? err).getD 500 := by
    unfold defaultErrorProcessorValue
    simp only []
    split_ifs <;>
    · rcases err with _ | e
      · rfl
      · cases e <;> rfl
  unfold HTTPError.StatusCode
  rw [hs]
  cases hc : GoError.StatusCode? err with
  | none => exact ⟨by decide, by decide⟩
  | some code =>
    rcases h code hc with h0 | hv
    · subst h0
      exact ⟨by decide, by decide⟩
    · simp only [Option.getD_some]
      split_ifs with hz
      · exact ⟨by decide, by decide⟩
      · exact hv

theorem handleError_default {I O : Type} (r : route I O)
    (hdef : r.router.errorProcessor = some defaultErrorProcessor) (ctx : ContextAny)
    (err : Option GoError)
    (hcode : validWriteHeaderCode (HTTPError.StatusCode (defaultErrorProcessorValue err))) :
    ∃ ctx1, r.handleError ctx err = .ok ctx1 ∧
      ctx1.res.calls = ctx.res.calls ++ errorResponse r err := by
  unfold route.handleError
  rw [hdef]
  have hst : GoError.StatusCode? (defaultErrorProcessor err) =
      some (HTTPError.StatusCode (defaultErrorProcessorValue err)) := rfl
  simp only [hst]
  rw [WriteHeader_of_valid _ _ hcode]
  refine ⟨_, rfl, ?_⟩
  simp [ContextAny.Write, ContextAny.SetHeader, ContextAny.afterWriteHeader, errorResponse,
    defaultErrorProcessor]

theorem recovered_eq {I O : Type} (r : route I O) (ctx : ContextAny) (p : PanicValue) :
    r.recovered ctx p = r.handleError ctx (some (panicError p)) := by
  cases p <;> rfl

/-- On a route with the default error processor, a dispatch whose last
invocation sends an error to error handling lets no panic out and ends the
response with the error response for that error, after the calls of user
code. -/
theorem ServeHTTP_error_response {I O : Type} (r : route I O) (res : ResponseWriter)
    (req : Request) (hdef : r.router.errorProcessor = some defaultErrorProcessor)
    (inv : Invocation) (err : Option GoError)
    (hlast : (r.ServeHTTP res req).invoked.getLast? = some inv)
    (hr : inv.routed = some err)
    (hcode : validWriteHeaderCode (HTTPError.StatusCode (defaultErrorProcessorValue err))) :
    (r.ServeHTTP res req).propagated = none ∧
      (r.ServeHTTP res req).ctx.res.calls =
        res.calls ++ userCalls (r.ServeHTTP res req).invoked ++ errorResponse r err := by
  have hinvk := ServeHTTP_invoked r res req
  simp only [] at hinvk
  rw [hinvk] at hlast ⊢
  unfold route.ServeHTTP route.serveBody
  simp only []
  obtain ⟨ctxAny, hc⟩ : ∃ c : ContextAny, c = ⟨res, req, r.statusCode, true⟩ := ⟨_, rfl⟩
  have hres0 : res.calls = ctxAny.res.calls := by rw [hc]
  rw [← hc] at hlast ⊢
  rw [hres0]
  have hcalls := middlewareLoop_calls r.middlewares 0 ctxAny
  have hflow := middlewareLoop_flow r.middlewares 0 ctxAny
  generalize middlewareLoop r.middlewares 0 ctxAny = L at *
  obtain ⟨invs, c1, flow⟩ := L
  simp only [] at hcalls hflow hlast ⊢
  cases flow with
  | next =>
    simp only [Flow.isNext, if_true] at hlast ⊢
    rw [getLast?_snoc, Option.some.injEq] at hlast
    subst hlast
    simp only [Invocation.routed, route.handlerInvocation] at hr
    cases hres : (r.handler ((newContext r.ctxKind ctxAny : Ctx I).sync c1)).result with
    | panic p =>
      rw [hres] at hr
      simp only [Outcome.error?, Option.some.injEq] at hr
      subst hr
      simp only []
      rw [recovered_eq]
      obtain ⟨c2, h1, h2⟩ := handleError_default r hdef
        (c1.applyOps (r.handler ((newContext r.ctxKind ctxAny : Ctx I).sync c1)).ops)
        (some (panicError p)) hcode
      rw [h1]
      refine ⟨rfl, ?_⟩
      simp only []
      rw [h2, applyOps_calls, hcalls]
      simp [userCalls, route.handlerInvocation]
    | ret v =>
      obtain ⟨output, e⟩ := v
      rw [hres] at hr
      cases e with
      | none => simp [Outcome.error?] at hr
      | some e =>
        simp only [Outcome.error?, Option.some.injEq] at hr
        subst hr
        simp only []
        obtain ⟨c2, h1, h2⟩ := handleError_default r hdef
          (c1.applyOps (r.handler ((newContext r.ctxKind ctxAny : Ctx I).sync c1)).ops)
          (some e) hcode
        rw [h1]
        refine ⟨rfl, ?_⟩
        simp only []
        rw [h2, applyOps_calls, hcalls]
        simp [userCalls, route.handlerInvocation]
  | stop e =>
    obtain ⟨pre, inv2, h1, h2, h3, h4⟩ := hflow
    simp only [Flow.isNext, Bool.false_eq_true, if_false] at hlast ⊢
    rw [h1, getLast?_snoc, Option.some.injEq] at hlast
    subst hlast
    have hre : err = e := by
      simp only [Invocation.routed, h2] at hr
      cases e with
      | some e => simpa using hr.symm
      | none =>
        simp only [Invocation.continues, Invocation.returnedNil, h2, Bool.true_and] at h3
        simp only [h4, h3, false_or, Bool.false_eq_true, if_false, Option.some.injEq] at hr
        exact hr.symm
    subst hre
    obtain ⟨c2, h5, h6⟩ := handleError_default r hdef c1 err hcode
    rw [h5]
    refine ⟨rfl, ?_⟩
    simp only []
    rw [h6, hcalls]
  | panic p =>
    obtain ⟨pre, inv2, h1, h2⟩ := hflow
    simp only [Flow.isNext, Bool.false_eq_true, if_false] at hlast ⊢
    rw [h1, getLast?_snoc, Option.some.injEq] at hlast
    subst hlast
    simp only [Invocation.routed, h2, Option.some.injEq] at hr
    subst hr
    rw [recovered_eq]
    obtain ⟨c2, h5, h6⟩ := handleError_default r hdef c1 (some (panicError p)) hcode
    rw [h5]
    refine ⟨rfl, ?_⟩
    simp only []
    rw [h6, hcalls]

/-- An invocation of the handler, or one that did not return nil after
calling `Next()`, is the last one of its dispatch. -/
theorem ServeHTTP_last_of_mem {I O : Type} (r : route I O) (res : ResponseWriter)
    (req : Request) (inv : Invocation) (hmem : inv ∈ (r.ServeHTTP res req).invoked)
    (hend : inv.who = .handler ∨ inv.continues = false) :
    (r.ServeHTTP res req).invoked.getLast? = some inv := by
  have hinvk := ServeHTTP_invoked r res req
  simp only [] at hinvk
  rw [hinvk] at hmem ⊢
  obtain ⟨ctxAny, hc⟩ : ∃ c : ContextAny, c = ⟨res, req, r.statusCode, true⟩ := ⟨_, rfl⟩
  rw [← hc] at hmem ⊢
  have hget := middlewareLoop_getElem r.middlewares 0 ctxAny
  have hinit := middlewareLoop_init_continues r.middlewares 0 ctxAny
  have hiff := middlewareLoop_isNext_iff r.middlewares 0 ctxAny
  generalize middlewareLoop r.middlewares 0 ctxAny = L at *
  obtain ⟨invs, c1, flow⟩ := L
  simp only [] at hget hinit hiff hmem ⊢
  have hnoHandler : ∀ a ∈ invs, a.who ≠ .handler := by
    intro a hm hw
    obtain ⟨j, hj⟩ := mem_getElem?_of_mem invs a hm
    rw [(hget j a hj).1] at hw
    cases hw
  by_cases hn : flow.isNext = true
  · rw [if_pos hn] at hmem ⊢
    rw [getLast?_snoc]
    obtain ⟨_, hall⟩ := hiff.mp hn
    rcases List.mem_append.mp hmem with h1 | h1
    · exfalso
      rcases hend with h | h
      · exact hnoHandler inv h1 h
      · rw [hall inv h1] at h
        cases h
    · rw [List.mem_singleton.mp h1]
  · rw [if_neg hn] at hmem ⊢
    obtain ⟨j, hlt, rfl⟩ := List.mem_iff_getElem.mp hmem
    have hcn : invs[j].continues = false := by
      rcases hend with h | h
      · exact absurd h (hnoHandler _ hmem)
      · exact h
    have hj : j + 1 = invs.length := by
      by_contra hne
      have := hinit j invs[j] (List.getElem?_eq_getElem hlt) (by omega)
      rw [this] at hcn
      cases hcn
    rw [List.getLast?_eq_getElem?]
    have : invs.length - 1 = j := by omega
    rw [this]
    exact List.getElem?_eq_getElem hlt

/-- C3, as stated, fails: a middleware panics, before anything is written,
with an error whose `StatusCode()` is 42; the deferred function hands the
error to error handling, `WriteHeader(42)` panics there, and that panic
leaves the dispatch with nothing written. -/
theorem ServeHTTP_panic_propagates :
    ((sampleRoute [shortCodePanicMiddleware] sampleHandler).ServeHTTP ⟨[]⟩
        sampleRequest).propagated = checkWriteHeaderCode 42 ∧
      (checkWriteHeaderCode 42).isSome = true ∧
      ((sampleRoute [shortCodePanicMiddleware] sampleHandler).ServeHTTP ⟨[]⟩
        sampleRequest).ctx.res.calls = [] :=
  ⟨rfl, rfl, rfl⟩

/-- C3, amended: on a route with the default error processor, when a
middleware or the handler panics with a value that is no error, or an error
that declares no status code, or one that declares 0 or a three-digit code,
no panic leaves the dispatch, and after the calls of user code the dispatch
makes exactly one WriteHeader call, sets the content type, and writes one
encoded body: the structured error that defaultErrorProcessor makes of the
recovered value. -/
theorem ServeHTTP_panic_response {I O : Type} (r : route I O) (res : ResponseWriter)
    (req : Request) (hdef : r.router.errorProcessor = some defaultErrorProcessor)
    (inv : Invocation) (p : PanicValue)
    (hmem : inv ∈ (r.ServeHTTP res req).invoked) (hp : inv.result = .panic p)
    (hcode : ∀ code, GoError.StatusCode? (some (panicError p)) = some code →
      code = 0 ∨ validWriteHeaderCode code) :
    (r.ServeHTTP res req).propagated = none ∧
      (r.ServeHTTP res req).ctx.res.calls =
        res.calls ++ userCalls (r.ServeHTTP res req).invoked ++
          [.WriteHeader (HTTPError.StatusCode (defaultErrorProcessorValue (some (panicError p)))),
           .HeaderSet xContentType r.contentType,
           .Write (r.serializer.Marshal
             (.error (some (.http (defaultErrorProcessorValue (some (panicError p)))))))] := by
  have hcn : inv.continues = false := by
    simp [Invocation.continues, Invocation.returnedNil, hp]
  have hlast := ServeHTTP_last_of_mem r res req inv hmem (Or.inr hcn)
  have hr : inv.routed = some (some (panicError p)) := by
    simp [Invocation.routed, hp]
  exact ServeHTTP_error_response r res req hdef inv _ hlast hr (errorStatus_valid _ hcode)

/-- Instance of C3 (amended): a middleware that panics with "boom" after
writing; the dispatch answers 500 with the generic body and no panic leaves
it. -/
theorem ServeHTTP_panic_response_witness :
    ((sampleRoute [passMiddleware, panicMiddleware] sampleHandler).ServeHTTP ⟨[]⟩
        sampleRequest).propagated = none ∧
      ((sampleRoute [passMiddleware, panicMiddleware] sampleHandler).ServeHTTP ⟨[]⟩
        sampleRequest).ctx.res.calls =
        [.Write "partial", .WriteHeader 500, .HeaderSet "Content-Type" "application/json",
         .Write "Internal Server Error: An unexpected error occurred"] :=
  ServeHTTP_panic_response (sampleRoute [passMiddleware, panicMiddleware] sampleHandler) ⟨[]⟩
    sampleRequest rfl
    { who := .middleware 1, ops := [.Write "partial"], result := .panic (.value "boom") }
    (.value "boom") (List.Mem.tail _ (List.Mem.head _)) rfl
    (fun _ h => Option.noConfusion h)

/-! ## defaultErrorProcessor -/

theorem defaultErrorProcessorValue_status (err : Option GoError) :
    (defaultErrorProcessorValue err).Status = (GoError.StatusCode? err).getD 500 := by
  unfold defaultErrorProcessorValue
  simp only []
  split_ifs <;>
  · rcases err with _ | e
    · rfl
    · cases e <;> rfl

theorem defaultErrorProcessorValue_named (kind : ErrorKind) (e : HTTPError) :
    defaultErrorProcessorValue (some (.named kind e)) =
      { Err := some (.named kind e), Title := StatusText kind.StatusCode,
        Status := kind.StatusCode, Detail := "An unexpected error occurred", Errors := [] } := by
  simp [defaultErrorProcessorValue, GoError.asHTTPError?, GoError.StatusCode?]

/-- C4: on a route with the default error processor, when the handler
returns a value of a named error kind, the dispatch writes the fixed status
of that kind, and the encoded body has that status and the standard status
text of it as title. -/
theorem ServeHTTP_named_error_status {I O : Type} (r : route I O) (res : ResponseWriter)
    (req : Request) (hdef : r.router.errorProcessor = some defaultErrorProcessor)
    (kind : ErrorKind) (e : HTTPError) (inv : Invocation)
    (hmem : inv ∈ (r.ServeHTTP res req).invoked) (hw : inv.who = .handler)
    (hres : inv.result = .ret (some (.named kind e))) :
    ∃ body : HTTPError,
      (r.ServeHTTP res req).ctx.res.calls =
        res.calls ++ userCalls (r.ServeHTTP res req).invoked ++
          [.WriteHeader kind.StatusCode, .HeaderSet xContentType r.contentType,
           .Write (r.serializer.Marshal (.error (some (.http body))))] ∧
      body.Status = kind.StatusCode ∧ body.Title = StatusText kind.StatusCode := by
  have hlast := ServeHTTP_last_of_mem r res req inv hmem (Or.inl hw)
  have hr : inv.routed = some (some (.named kind e)) := by
    simp [Invocation.routed, hres]
  have hvalid : validWriteHeaderCode
      (HTTPError.StatusCode (defaultErrorProcessorValue (some (.named kind e)))) := by
    apply errorStatus_valid
    intro code hc
    right
    have hk : code = kind.StatusCode := (Option.some.inj hc).symm
    rw [hk]
    cases kind <;> exact ⟨by decide, by decide⟩
  have h := (ServeHTTP_error_response r res req hdef inv _ hlast hr hvalid).2
  refine ⟨defaultErrorProcessorValue (some (.named kind e)), ?_, ?_, ?_⟩
  · rw [h]
    have hs : HTTPError.StatusCode (defaultErrorProcessorValue (some (.named kind e))) =
        kind.StatusCode := by
      rw [defaultErrorProcessorValue_named]
      cases kind <;> rfl
    simp [errorResponse, hs]
  · rw [defaultErrorProcessorValue_named]
  · rw [defaultErrorProcessorValue_named]

/-- Instance of C4: a handler that returns a ConflictError with its own
title; the dispatch answers 409 with the title "Conflict". -/
theorem ServeHTTP_named_error_status_witness :
    ∃ body : HTTPError,
      ((sampleRoute [passMiddleware] conflictHandler).ServeHTTP ⟨[]⟩
        sampleRequest).ctx.res.calls =
        [] ++ userCalls ((sampleRoute [passMiddleware] conflictHandler).ServeHTTP ⟨[]⟩
          sampleRequest).invoked ++
          [.WriteHeader 409, .HeaderSet "Content-Type" "application/json",
           .Write (sampleEncode (.error (some (.http body))))] ∧
      body.Status = 409 ∧ body.Title = "Conflict" :=
  ServeHTTP_named_error_status (sampleRoute [passMiddleware] conflictHandler) ⟨[]⟩
    sampleRequest rfl .ConflictError
    { Err := none, Title := "Duplicate", Status := 0, Detail := "item exists", Errors := [] }
    { who := .handler, ops := [], result := .ret (some (.named .ConflictError
      { Err := none, Title := "Duplicate", Status := 0, Detail := "item exists",
        Errors := [] })) }
    (List.Mem.tail _ (List.Mem.head _)) rfl rfl

/-- C5, as stated, fails: an HTTPError with an unset status field comes back
with status 500, and a BadRequestError comes back without its detail, its
sub-items and its title, wrapped as the cause of a generic body. -/
theorem defaultErrorProcessor_not_passthrough :
    (defaultErrorProcessorValue (some (.http unsetStatusError))).Status ≠
        unsetStatusError.Status ∧
      (defaultErrorProcessorValue (some (.named .BadRequestError invalidNameError))).Detail ≠
        invalidNameError.Detail ∧
      (defaultErrorProcessorValue (some (.named .BadRequestError invalidNameError))).Title ≠
        invalidNameError.Title ∧
      (defaultErrorProcessorValue
        (some (.named .BadRequestError invalidNameError))).Errors.length ≠
        invalidNameError.Errors.length := by
  decide

/-- C5, amended: defaultErrorProcessor keeps the detail, the sub-items and
the wrapped cause of a generic HTTPError; the status of the result is the
error's `StatusCode()` (its status field, or 500 when the field is 0); the
title is the error's title when it is not empty and the standard status text
of that status otherwise. -/
theorem defaultErrorProcessor_HTTPError (e : HTTPError) :
    (defaultErrorProcessorValue (some (.http e))).Status = HTTPError.StatusCode e ∧
      (defaultErrorProcessorValue (some (.http e))).Detail = e.Detail ∧
      (defaultErrorProcessorValue (some (.http e))).Errors = e.Errors ∧
      (defaultErrorProcessorValue (some (.http e))).Err = e.Err ∧
      (defaultErrorProcessorValue (some (.http e))).Title =
        (if e.Title = "" then StatusText (HTTPError.StatusCode e) else e.Title) := by
  unfold defaultErrorProcessorValue
  simp only [GoError.asHTTPError?, GoError.StatusCode?]
  split_ifs <;> simp_all

/-- C6: for two errors that are not structured and declare no status code
(nil included), the encoded fields of the processed errors are the same:
status 500, title "Internal Server Error", the fixed detail, no sub-items. -/
theorem defaultErrorProcessor_unstructured_fixed (e1 e2 : Option GoError)
    (h1 : GoError.isStructured e1 = false) (c1 : GoError.StatusCode? e1 = none)
    (h2 : GoError.isStructured e2 = false) (c2 : GoError.StatusCode? e2 = none) :
    (defaultErrorProcessorValue e1).encoded = (defaultErrorProcessorValue e2).encoded ∧
      (defaultErrorProcessorValue e1).encoded =
        { title := "Internal Server Error", status := 500,
          detail := "An unexpected error occurred", errors := [] } := by
  have key : ∀ e : Option GoError, GoError.isStructured e = false →
      GoError.StatusCode? e = none →
      (defaultErrorProcessorValue e).encoded =
        { title := "Internal Server Error", status := 500,
          detail := "An unexpected error occurred", errors := [] } := by
    intro e hs hc
    rcases e with _ | e
    · rfl
    · cases e with
      | plain msg => rfl
      | coded msg code => simp [GoError.StatusCode?] at hc
      | http e => simp [GoError.isStructured] at hs
      | named kind e => simp [GoError.isStructured] at hs
  exact ⟨(key e1 h1 c1).trans (key e2 h2 c2).symm, key e1 h1 c1⟩

/-- Instance of C6: two different internal error texts give the same
encoded fields. -/
theorem defaultErrorProcessor_unstructured_fixed_witness :
    (defaultErrorProcessorValue (some (.plain "dial tcp 10.0.0.7:5432: refused"))).encoded =
        (defaultErrorProcessorValue (some (.plain "sql: no rows in result set"))).encoded ∧
      (defaultErrorProcessorValue (some (.plain "dial tcp 10.0.0.7:5432: refused"))).encoded =
        { title := "Internal Server Error", status := 500,
          detail := "An unexpected error occurred", errors := [] } :=
  defaultErrorProcessor_unstructured_fixed (some (.plain "dial tcp 10.0.0.7:5432: refused"))
    (some (.plain "sql: no rows in result set")) rfl rfl rfl rfl

/-- C7, as stated, fails: a handler returns an error whose `StatusCode()` is
0; the status written is 500, while the declared code and the status field
of the encoded body are 0.  And a handler returns an error whose
`StatusCode()` is 42: `WriteHeader(42)` panics in error handling, the
deferred function recovers that panic, and the status written is 500, with
the generic body. -/
theorem ServeHTTP_zero_code_status :
    ((sampleRoute [] zeroCodeHandler).ServeHTTP ⟨[]⟩ sampleRequest).ctx.res.calls =
        [.WriteHeader 500, .HeaderSet "Content-Type" "application/json",
         .Write (sampleEncode (.error (some (.http
           { Err := some (.coded "unset" 0), Title := "", Status := 0,
             Detail := "An unexpected error occurred", Errors := [] }))))] ∧
      GoError.StatusCode? (some (.coded "unset" 0)) = some 0 ∧
      (500 : Int) ≠ 0 ∧
      ((sampleRoute [] shortCodeHandler).ServeHTTP ⟨[]⟩ sampleRequest).ctx.res.calls =
        [.WriteHeader 500, .HeaderSet "Content-Type" "application/json",
         .Write "Internal Server Error: An unexpected error occurred"] ∧
      GoError.StatusCode? (some shortCodeError) = some 42 ∧
      (500 : Int) ≠ 42 :=
  ⟨rfl, rfl, by decide, rfl, rfl, by decide⟩

/-- C7, amended: on a route with the default error processor, for every
error sent to error handling that declares no status code, or declares 0 or
a three-digit code, the status written is the code the error declares when
it declares one other than 0, and 500 otherwise; the status field of the
encoded body is the declared code, or 500 when none is declared; so the two
agree unless the declared code is 0. -/
theorem ServeHTTP_error_status {I O : Type} (r : route I O) (res : ResponseWriter)
    (req : Request) (hdef : r.router.errorProcessor = some defaultErrorProcessor)
    (inv : Invocation) (err : Option GoError)
    (hlast : (r.ServeHTTP res req).invoked.getLast? = some inv)
    (hr : inv.routed = some err)
    (hcode : ∀ code, GoError.StatusCode? err = some code →
      code = 0 ∨ validWriteHeaderCode code) :
    ∃ (written : Int) (body : HTTPError),
      (r.ServeHTTP res req).ctx.res.calls =
        res.calls ++ userCalls (r.ServeHTTP res req).invoked ++
          [.WriteHeader written, .HeaderSet xContentType r.contentType,
           .Write (r.serializer.Marshal (.error (some (.http body))))] ∧
      written = (match GoError.StatusCode? err with
        | some code => if code = 0 then 500 else code
        | none => 500) ∧
      body.Status = (match GoError.StatusCode? err with
        | some code => code
        | none => 500) ∧
      (body.Status ≠ 0 → written = body.Status) := by
  have h := (ServeHTTP_error_response r res req hdef inv err hlast hr
    (errorStatus_valid err hcode)).2
  have hs := defaultErrorProcessorValue_status err
  refine ⟨HTTPError.StatusCode (defaultErrorProcessorValue err),
    defaultErrorProcessorValue err, h, ?_, ?_, ?_⟩
  · unfold HTTPError.StatusCode
    rw [hs]
    cases GoError.StatusCode? err <;> simp
  · rw [hs]
    cases GoError.StatusCode? err <;> rfl
  · intro hne
    unfold HTTPError.StatusCode
    rw [if_neg hne]

/-- Instance of C7 (amended): a middleware returns a TooManyRequestsError;
the dispatch writes 429 and the body carries status 429. -/
theorem ServeHTTP_error_status_witness :
    ∃ (written : Int) (body : HTTPError),
      ((sampleRoute [limitMiddleware] sampleHandler).ServeHTTP ⟨[]⟩
        sampleRequest).ctx.res.calls =
        [] ++ userCalls ((sampleRoute [limitMiddleware] sampleHandler).ServeHTTP ⟨[]⟩
          sampleRequest).invoked ++
          [.WriteHeader written, .HeaderSet "Content-Type" "application/json",
           .Write (sampleEncode (.error (some (.http body))))] ∧
      written = 429 ∧ body.Status = 429 ∧ (body.Status ≠ 0 → written = body.Status) :=
  ServeHTTP_error_status (sampleRoute [limitMiddleware] sampleHandler) ⟨[]⟩ sampleRequest rfl
    { who := .middleware 0, ops := [], result := .ret (some (.named .TooManyRequestsError
      { Err := none, Title := "", Status := 0, Detail := "", Errors := [] })) }
    (some (.named .TooManyRequestsError
      { Err := none, Title := "", Status := 0, Detail := "", Errors := [] })) rfl rfl
    (fun code h => Or.inr (by
      have hk : code = 429 := (Option.some.inj h).symm
      rw [hk]
      exact ⟨by decide, by decide⟩))

/-! ## Body decoding -/

/-- C8, as stated, fails: on a payload whose count has the wrong type, the
first GetBody returns the partly filled value with an error, and the second
call decodes again from the drained stream and returns the zero value. -/
theorem GetBody_twice_differs :
    (Context.GetBody itemShape (itemContext 26 mismatchPayload)).1.1 =
        { Name := "pen", Count := 0 } ∧
      (Context.GetBody itemShape
        (Context.GetBody itemShape (itemContext 26 mismatchPayload)).2).1.1 =
        { Name := "", Count := 0 } ∧
      (Context.GetBody itemShape (itemContext 26 mismatchPayload)).1.1 ≠
        (Context.GetBody itemShape
          (Context.GetBody itemShape (itemContext 26 mismatchPayload)).2).1.1 ∧
      (26 : Int) = mismatchPayload.utf8ByteSize := by
  refine ⟨rfl, rfl, ?_, by decide⟩
  have h1 : (Context.GetBody itemShape (itemContext 26 mismatchPayload)).1.1 =
      { Name := "pen", Count := 0 } := rfl
  have h2 : (Context.GetBody itemShape
      (Context.GetBody itemShape (itemContext 26 mismatchPayload)).2).1.1 =
      { Name := "", Count := 0 } := rfl
  rw [h1, h2]
  decide

theorem GetBody_of_cached {Body : Type} (shape : BodyShape Body) (ctx : Context Body)
    (b : Body) (hb : ctx.body = some b) : Context.GetBody shape ctx = ((b, none), ctx) := by
  unfold Context.GetBody
  rw [hb]

/-- A call of GetBody that returns a nil error leaves its value in the cache. -/
theorem GetBody_caches {Body : Type} (shape : BodyShape Body) (ctx : Context Body)
    (h : (Context.GetBody shape ctx).1.2 = none) :
    (Context.GetBody shape ctx).2.body = some (Context.GetBody shape ctx).1.1 := by
  unfold Context.GetBody at h ⊢
  cases hb : ctx.body with
  | some b => simp [hb]
  | none =>
    rw [hb] at h
    simp only [] at h ⊢
    cases hr : ctx.ctxAny.req.Body with
    | NoBody => rfl
    | reader remaining =>
      rw [hr] at h
      simp only [] at h ⊢
      by_cases hl : ctx.ctxAny.req.ContentLength > 0
      · by_cases hf : (shape.decode remaining).failed = true
        · simp [hl, hf] at h
        · simp [hl, hf]
      · simp [hl]

/-- C8, amended: when a call of GetBody returns a nil error, the next call
returns the same value and a nil error and leaves the context, with the
request stream in it, as it was. -/
theorem GetBody_cached {Body : Type} (shape : BodyShape Body) (ctx : Context Body)
    (h : (Context.GetBody shape ctx).1.2 = none) :
    Context.GetBody shape (Context.GetBody shape ctx).2 =
      ((Context.GetBody shape ctx).1, (Context.GetBody shape ctx).2) := by
  rw [GetBody_of_cached shape _ _ (GetBody_caches shape ctx h)]
  have : (Context.GetBody shape ctx).1 = ((Context.GetBody shape ctx).1.1, none) := by
    rw [← h]
  rw [← this]

/-- Instance of C8 (amended): a well-formed payload is decoded once. -/
theorem GetBody_cached_witness :
    Context.GetBody itemShape (Context.GetBody itemShape (itemContext 24 itemPayload)).2 =
      ((Context.GetBody itemShape (itemContext 24 itemPayload)).1,
        (Context.GetBody itemShape (itemContext 24 itemPayload)).2) :=
  GetBody_cached itemShape (itemContext 24 itemPayload) rfl

/-- C9, as stated, fails: a request of unknown length (-1) carries the
malformed payload "x"; the decoder rejects that text, yet GetBody does not
decode it and returns the zero value with a nil error, and Body returns
instead of panicking. -/
theorem GetBody_unknown_length_no_error :
    (itemShape.decode "x").failed = true ∧
      (Context.GetBody itemShape (itemContext (-1) "x")).1 =
        ({ Name := "", Count := 0 }, none) ∧
      (Context.Body itemShape (itemContext (-1) "x")).1 =
        .ret { Name := "", Count := 0 } :=
  ⟨rfl, rfl, rfl⟩

/-- C9, amended: for a request that declares a positive content length and
whose body stream holds a payload that the decoder rejects, GetBody on the
fresh context returns an error, and Body panics with that error. -/
theorem GetBody_decode_failure {Body : Type} (shape : BodyShape Body) (ctxAny : ContextAny)
    (remaining : String) (hb : ctxAny.req.Body = .reader remaining)
    (hl : ctxAny.req.ContentLength > 0) (hf : (shape.decode remaining).failed = true) :
    (Context.GetBody shape { ctxAny := ctxAny, body := none }).1.2 =
        some (.plain "could not read incoming request") ∧
      (Context.Body shape { ctxAny := ctxAny, body := none }).1 =
        .panic (.error (.plain "could not read incoming request")) := by
  have h1 : Context.GetBody shape { ctxAny := ctxAny, body := none } =
      (((shape.decode remaining).value, some (.plain "could not read incoming request")),
        { ctxAny := { ctxAny with
            req := { ctxAny.req with Body := .reader (shape.decode remaining).rest } },
          body := none }) := by
    unfold Context.GetBody
    simp only []
    rw [hb]
    simp [hl, hf]
  constructor
  · rw [h1]
  · unfold Context.Body
    rw [h1]

/-- Instance of C9 (amended): the payload with a count of the wrong type,
sent with its length declared. -/
theorem GetBody_decode_failure_witness :
    (Context.GetBody itemShape (itemContext 26 mismatchPayload)).1.2 =
        some (.plain "could not read incoming request") ∧
      (Context.Body itemShape (itemContext 26 mismatchPayload)).1 =
        .panic (.error (.plain "could not read incoming request")) :=
  GetBody_decode_failure itemShape (itemContext 26 mismatchPayload).ctxAny mismatchPayload
    rfl (by decide) rfl

/-- C10, as stated, fails: the payload of the request is empty while its
declared content length is 5 (the body was cut short, or a middleware has
read it through `BodyRaw()`); the guard lets the decoder run, the decoder
finds the end of the stream, and GetBody returns the error. -/
theorem GetBody_empty_payload_error :
    (itemContext 5 "").ctxAny.req.Body.payload = "" ∧
      (Context.GetBody itemShape (itemContext 5 "")).1 =
        ({ Name := "", Count := 0 }, some (.plain "could not read incoming request")) :=
  ⟨rfl, rfl⟩

/-- C10, amended: for every Input shape and every request with an empty
payload whose declared content length is not positive (0, or -1 for an
unknown length) or whose body is `http.NoBody`, GetBody on the fresh context
returns the zero value and a nil error, and so does every later call (the
stream is not read then, so the proof does not use that it is empty). -/
theorem GetBody_empty_payload {Body : Type} (shape : BodyShape Body) (ctxAny : ContextAny)
    (_hp : ctxAny.req.Body.payload = "")
    (hc : ctxAny.req.ContentLength ≤ 0 ∨ ctxAny.req.Body = .NoBody) (n : Nat) :
    (Context.GetBody shape
      (Context.afterGetBody shape n { ctxAny := ctxAny, body := none })).1 =
      (shape.zero, none) := by
  have h0 : Context.GetBody shape { ctxAny := ctxAny, body := none } =
      ((shape.zero, none), { ctxAny := ctxAny, body := some shape.zero }) := by
    unfold Context.GetBody
    simp only []
    cases hb : ctxAny.req.Body with
    | NoBody => rfl
    | reader remaining =>
      have hlen : ¬ ctxAny.req.ContentLength > 0 := by
        rcases hc with h | h
        · omega
        · rw [hb] at h
          cases h
      simp [hlen]
  have hfix : Context.GetBody shape { ctxAny := ctxAny, body := some shape.zero } =
      ((shape.zero, none), { ctxAny := ctxAny, body := some shape.zero }) :=
    GetBody_of_cached shape _ _ rfl
  have hiter : ∀ k, Context.afterGetBody shape k { ctxAny := ctxAny, body := some shape.zero } =
      { ctxAny := ctxAny, body := some shape.zero } := by
    intro k
    induction k with
    | zero => rfl
    | succ k ih =>
      show Context.afterGetBody shape k (Context.GetBody shape _).2 = _
      rw [hfix]
      exact ih
  cases n with
  | zero => exact congrArg Prod.fst h0
  | succ k =>
    show (Context.GetBody shape (Context.afterGetBody shape k (Context.GetBody shape _).2)).1 = _
    rw [h0]
    simp only []
    rw [hiter, hfix]

/-- Instance of C10 (amended): a POST with an empty stream and declared
length 0, decoded three times. -/
theorem GetBody_empty_payload_witness :
    (Context.GetBody itemShape
      (Context.afterGetBody itemShape 2
        { ctxAny := (itemContext 0 "").ctxAny, body := none })).1 =
      ({ Name := "", Count := 0 }, none) :=
  GetBody_empty_payload itemShape (itemContext 0 "").ctxAny rfl (Or.inl (by decide)) 2

/-! ## Default status and Status() -/

theorem applyOps_statusCode (ops : List CtxOp) (ctx : ContextAny) :
    (ctx.applyOps ops).statusCode = statusAfter ops ctx.statusCode := by
  induction ops generalizing ctx with
  | nil => rfl
  | cons op rest ih =>
    have hstep : ctx.applyOps (op :: rest) = (ctx.applyOp op).applyOps rest := rfl
    rw [hstep, ih]
    cases op <;> rfl

theorem statusAfter_append (a b : List CtxOp) (status : Int) :
    statusAfter (a ++ b) status = statusAfter b (statusAfter a status) := by
  simp [statusAfter, List.foldl_append]

theorem middlewareLoop_statusCode (mws : List Middleware) (i : Nat) (ctx : ContextAny) :
    (middlewareLoop mws i ctx).2.1.statusCode =
      statusAfter ((middlewareLoop mws i ctx).1.flatMap Invocation.ops) ctx.statusCode := by
  induction mws generalizing i ctx with
  | nil => simp [middlewareLoop, statusAfter]
  | cons m rest ih =>
    have h := middlewareLoop_cons m rest i ctx
    simp only [] at h
    rw [h]
    split_ifs with hc
    · simp only [List.flatMap_cons]
      rw [ih, applyOps_statusCode, statusAfter_append]
    · simp only [List.flatMap_cons, List.flatMap_nil, List.append_nil]
      rw [applyOps_statusCode]

theorem handleError_statusCode {I O : Type} (r : route I O) (ctx ctx1 : ContextAny)
    (err : Option GoError) (h : r.handleError ctx err = .ok ctx1) :
    ctx1.statusCode = ctx.statusCode := by
  unfold route.handleError at h
  split at h
  · cases h
  · simp only [] at h
    split at h
    · cases h
    · rename_i c hw
      simp only [Except.ok.injEq] at h
      rw [← h, WriteHeader_ok _ _ _ hw]
      rfl

theorem statusAfter_of_no_SetStatus (ops : List CtxOp) (status : Int)
    (h : ∀ code, CtxOp.SetStatus code ∉ ops) : statusAfter ops status = status := by
  induction ops generalizing status with
  | nil => rfl
  | cons op rest ih =>
    have hrest : ∀ code, CtxOp.SetStatus code ∉ rest :=
      fun code hm => h code (List.mem_cons_of_mem _ hm)
    have hstep : statusAfter (op :: rest) status =
        statusAfter rest (statusStep status op) := rfl
    rw [hstep, ih _ hrest]
    cases op with
    | SetStatus code => exact absurd (List.mem_cons_self _ _) (h code)
    | _ => rfl

/-- The status that the context of a dispatch reports at the end: the
route's status code, replaced by the last `SetStatus` of user code. -/
theorem ServeHTTP_statusCode {I O : Type} (r : route I O) (res : ResponseWriter)
    (req : Request) :
    (r.ServeHTTP res req).ctx.statusCode =
      statusAfter ((r.ServeHTTP res req).invoked.flatMap Invocation.ops) r.statusCode := by
  have hinvk := ServeHTTP_invoked r res req
  simp only [] at hinvk
  rw [hinvk]
  unfold route.ServeHTTP route.serveBody
  simp only []
  obtain ⟨ctxAny, hc⟩ : ∃ c : ContextAny, c = ⟨res, req, r.statusCode, true⟩ := ⟨_, rfl⟩
  have hs0 : r.statusCode = ctxAny.statusCode := by rw [hc]
  rw [← hc, hs0]
  have hst := middlewareLoop_statusCode r.middlewares 0 ctxAny
  generalize middlewareLoop r.middlewares 0 ctxAny = L at *
  obtain ⟨invs, c1, flow⟩ := L
  simp only [] at hst ⊢
  have hrec : ∀ (c : ContextAny) (p : PanicValue) (il : List Invocation),
      (match r.recovered c p with
        | .ok c2 => ({ ctx := c2, invoked := il, propagated := none } : Dispatch)
        | .error p2 => { ctx := c, invoked := il, propagated := some p2 }).ctx.statusCode =
        c.statusCode := by
    intro c p il
    rw [recovered_eq]
    cases hh : r.handleError c (some (panicError p)) with
    | ok c2 => exact handleError_statusCode r c c2 _ hh
    | error p2 => rfl
  cases flow with
  | next =>
    simp only [Flow.isNext, if_true, List.flatMap_append, List.flatMap_cons, List.flatMap_nil,
      List.append_nil, statusAfter_append]
    rw [← hst]
    have hops : (r.handlerInvocation ((newContext r.ctxKind ctxAny : Ctx I).sync c1)).ops =
        (r.handler ((newContext r.ctxKind ctxAny : Ctx I).sync c1)).ops := rfl
    rw [hops, ← applyOps_statusCode]
    cases hres : (r.handler ((newContext r.ctxKind ctxAny : Ctx I).sync c1)).result with
    | panic p =>
      simp only []
      exact hrec _ p _
    | ret v =>
      obtain ⟨output, e⟩ := v
      cases e with
      | none =>
        simp only []
        cases hh : ContextAny.WriteHeader (c1.applyOps
            (r.handler ((newContext r.ctxKind ctxAny : Ctx I).sync c1)).ops)
            (c1.applyOps
              (r.handler ((newContext r.ctxKind ctxAny : Ctx I).sync c1)).ops).statusCode with
        | ok c2 =>
          simp only []
          rw [WriteHeader_ok _ _ _ hh]
          rfl
        | error p =>
          simp only []
          exact hrec _ p _
      | some e =>
        simp only []
        cases hh : r.handleError (c1.applyOps
            (r.handler ((newContext r.ctxKind ctxAny : Ctx I).sync c1)).ops) (some e) with
        | ok c2 => exact handleError_statusCode r _ c2 _ hh
        | error p =>
          simp only []
          exact hrec _ p _
  | stop e =>
    simp only [Flow.isNext, Bool.false_eq_true, if_false]
    rw [← hst]
    cases hh : r.handleError c1 e with
    | ok c2 => exact handleError_statusCode r _ c2 _ hh
    | error p =>
      simp only []
      exact hrec _ p _
  | panic p =>
    simp only [Flow.isNext, Bool.false_eq_true, if_false]
    rw [← hst]
    exact hrec _ p _

/-- C17: the default verb-to-status function gives 201 for POST, 202 for
PUT, PATCH and DELETE, and 200 for every other verb, the empty one included;
a created route stores the value of the router's function for its verb; and
the context of a dispatch reports the route's value from `Status()` as long
as user code has not called `SetStatus`, and the code of the last call after. -/
theorem defaultMethodToStatusCode_and_Status {I O : Type} (r : route I O)
    (res : ResponseWriter) (req : Request) :
    defaultMethodToStatusCode "POST" = 201 ∧
    defaultMethodToStatusCode "PUT" = 202 ∧
    defaultMethodToStatusCode "PATCH" = 202 ∧
    defaultMethodToStatusCode "DELETE" = 202 ∧
    defaultMethodToStatusCode "" = 200 ∧
    (∀ method : String, method ≠ "POST" → method ≠ "PUT" → method ≠ "PATCH" →
      method ≠ "DELETE" → defaultMethodToStatusCode method = 200) ∧
    (∀ (router : Router O) (method pattern : String) (handler : Handler I O)
        (kind : CtxKind) (os : Option (Serializer O)) (je : Payload O → String)
        (created : route I O),
      newRoute router method pattern handler kind os je = .ok created →
        created.statusCode = router.methodToStatusCode method) ∧
    (r.ServeHTTP res req).ctx.Status =
      statusAfter ((r.ServeHTTP res req).invoked.flatMap Invocation.ops) r.statusCode ∧
    ((∀ inv ∈ (r.ServeHTTP res req).invoked, ∀ code, CtxOp.SetStatus code ∉ inv.ops) →
      (r.ServeHTTP res req).ctx.Status = r.statusCode) := by
  refine ⟨by decide, by decide, by decide, by decide, by decide, ?_, ?_,
    ServeHTTP_statusCode r res req, ?_⟩
  · intro method h1 h2 h3 h4
    simp [defaultMethodToStatusCode, h1, h2, h3, h4]
  · intro router method pattern handler kind os je created h
    unfold newRoute at h
    simp only [] at h
    split at h
    · cases h
    · simp only [Except.ok.injEq] at h
      rw [← h]
  · intro hno
    show (r.ServeHTTP res req).ctx.statusCode = r.statusCode
    rw [ServeHTTP_statusCode]
    apply statusAfter_of_no_SetStatus
    intro code hm
    obtain ⟨inv, hinv, hop⟩ := List.mem_flatMap.mp hm
    exact hno inv hinv code hop

/-! ## The effective pattern -/

theorem String.empty_append_eq (s : String) : "" ++ s = s := by
  apply String.ext
  simp [String.data_append]

/-- C18: the pattern of a created route is the specified one: the prefix
followed by the pattern (the bare prefix for a pattern of exactly "/" under
a non-empty prefix), with a leading "/" added when missing and, in
trailing-slash mode, a trailing "/" added when missing; "/" on a router
without prefix stays "/"; and a route is created unless prefix and pattern
are both empty. -/
theorem newRoute_pattern_specified {I O : Type} (router : Router O) (method pattern : String)
    (handler : Handler I O) (kind : CtxKind) (os : Option (Serializer O))
    (je : Payload O → String) :
    (∀ r : route I O, newRoute router method pattern handler kind os je = .ok r →
      r.Pattern = specifiedPattern router.pattern pattern router.enableAutoSlash ∧
      (router.pattern = "" → pattern = "/" → r.Pattern = "/")) ∧
    (router.pattern ≠ "" ∨ pattern ≠ "" →
      ∃ r : route I O, newRoute router method pattern handler kind os je = .ok r) := by
  have hjoin : (if router.pattern ≠ "" then
        if pattern ≠ "/" then router.pattern ++ pattern else router.pattern
      else pattern) =
      (if pattern = "/" ∧ router.pattern ≠ "" then router.pattern
        else router.pattern ++ pattern) := by
    by_cases hp : router.pattern = ""
    · simp [hp, String.empty_append_eq]
    · by_cases hs : pattern = "/"
      · simp [hp, hs]
      · simp [hp, hs]
  have hmain : ∀ r : route I O, newRoute router method pattern handler kind os je = .ok r →
      r.Pattern = specifiedPattern router.pattern pattern router.enableAutoSlash := by
    intro r h
    unfold newRoute at h
    simp only [] at h
    rw [hjoin] at h
    unfold specifiedPattern
    simp only []
    generalize (if pattern = "/" ∧ router.pattern ≠ "" then router.pattern
      else router.pattern ++ pattern) = joined at h ⊢
    split at h
    · cases h
    · rename_i first hf
      simp only [Except.ok.injEq] at h
      subst h
      simp only [route.Pattern, startsWithSlash, endsWithSlash, hf]
      by_cases hfirst : first = '/'
      · subst hfirst
        simp
      · simp [hfirst]
  refine ⟨fun r h => ⟨hmain r h, ?_⟩, ?_⟩
  · intro hp hs
    rw [hmain r h, hp, hs]
    unfold specifiedPattern
    cases router.enableAutoSlash <;> decide
  · intro hne
    unfold newRoute
    simp only []
    rw [hjoin]
    split
    · rename_i hnone
      exfalso
      rw [List.head?_eq_none_iff] at hnone
      by_cases hs : pattern = "/" ∧ router.pattern ≠ ""
      · rw [if_pos hs] at hnone
        exact hs.2 (String.ext hnone)
      · rw [if_neg hs, String.data_append, List.append_eq_nil] at hnone
        rcases hne with h | h
        · exact h (String.ext hnone.1)
        · exact h (String.ext hnone.2)
    · exact ⟨_, rfl⟩

/-- Instance of C18: "items" on a router mounted at "api" with trailing-slash
mode gives "/api/items/". -/
theorem newRoute_pattern_specified_witness :
    ∃ r : route Unit String,
      newRoute { sampleRouter with pattern := "api/" } "GET" "items" sampleHandler
        .ContextAny none sampleEncode = .ok r ∧
      r.Pattern = "/api/items/" :=
  have h := newRoute_pattern_specified { sampleRouter with pattern := "api/" } "GET" "items"
    sampleHandler .ContextAny none sampleEncode
  match h.2 (Or.inr (by decide)) with
  | ⟨r, hr⟩ => ⟨r, hr, ((h.1 r hr).1).trans (by decide)⟩

/-! ## The type walker: termination -/

theorem walkFields_mono
    (w w2 : WalkState → GoType → Option (Option SchemaProxy × WalkState))
    (hw : ∀ st t r, w st t = some r → w2 st t = some r)
    (fields : List StructField) (st : WalkState) (props : List (String × Option SchemaProxy))
    (r : List (String × Option SchemaProxy) × WalkState)
    (h : walkFields w fields st props = some r) : walkFields w2 fields st props = some r := by
  induction fields generalizing st props with
  | nil => simpa [walkFields] using h
  | cons f rest ih =>
    unfold walkFields at h ⊢
    by_cases he : f.IsExported = true
    · rw [if_pos he] at h ⊢
      cases hwf : w st f.Typ with
      | none => rw [hwf] at h; cases h
      | some x =>
        rw [hwf] at h
        rw [hw st f.Typ x hwf]
        obtain ⟨nsp, st1⟩ := x
        simp only [] at h ⊢
        split_ifs at h ⊢ with h1 h2
        · exact ih _ _ h
        · exact ih _ _ h
        · exact ih _ _ h
    · rw [if_neg he] at h ⊢
      exact ih _ _ h

/-- More fuel does not change what a walk returns. -/
theorem walk_mono (env : TypeEnv) (fuel : Nat) (st : WalkState) (t : GoType)
    (r : Option SchemaProxy × WalkState) (h : walk env fuel st t = some r) :
    walk env (fuel + 1) st t = some r := by
  induction fuel generalizing st t r with
  | zero => simp [walk] at h
  | succ n ih =>
    rw [walk.eq_def] at h
    rw [walk.eq_def]
    simp only [] at h ⊢
    cases t with
    | array len elem =>
      simp only [] at h ⊢
      cases he : walk env n st elem with
      | none => rw [he] at h; cases h
      | some x => rw [he] at h; rw [ih _ _ _ he]; exact h
    | slice elem =>
      simp only [] at h ⊢
      cases he : walk env n st elem with
      | none => rw [he] at h; cases h
      | some x => rw [he] at h; rw [ih _ _ _ he]; exact h
    | map key elem =>
      simp only [] at h ⊢
      cases he : walk env n st elem with
      | none => rw [he] at h; cases h
      | some x => rw [he] at h; rw [ih _ _ _ he]; exact h
    | ptr elem => exact ih _ _ _ h
    | struct name =>
      simp only [] at h ⊢
      split_ifs at h ⊢ with hp
      · exact h
      · cases hf : walkFields (walk env n) (env name) st [] with
        | none => rw [hf] at h; cases h
        | some x =>
          rw [hf] at h
          rw [walkFields_mono (walk env n) (walk env (n + 1)) (fun st t r => ih st t r) _ _ _ _ hf]
          exact h
    | _ => exact h

theorem walk_mono_le (env : TypeEnv) (fuel fuel2 : Nat) (hle : fuel ≤ fuel2) (st : WalkState)
    (t : GoType) (r : Option SchemaProxy × WalkState) (h : walk env fuel st t = some r) :
    walk env fuel2 st t = some r := by
  induction hle with
  | refl => exact h
  | step _ ih => exact walk_mono env _ st t r ih

/-- C11 fails on the code: for the self-referencing record
`type Node struct { Value string; Next *Node }` and the empty document, the
walk returns for no amount of fuel.  The component entry of a record is
written after its fields were walked, so the walk of field `Next` finds no
entry for `Node` and enters `Node` again. -/
theorem walk_self_reference_diverges (fuel : Nat) :
    walk nodeEnv fuel { Schemas := [], Parameters := [] } (.struct "Node") = none := by
  induction fuel using Nat.strong_induction_on with
  | _ fuel ih =>
    cases fuel with
    | zero => rfl
    | succ n =>
      rw [walk.eq_def]
      simp only [typeToString, omGet, Option.isSome_none, Bool.false_eq_true, if_false]
      have hfields : nodeEnv "Node" =
          [{ Name := "Value", PkgPath := "", Typ := .string, Tag := [] },
           { Name := "Next", PkgPath := "", Typ := .ptr (.struct "Node"), Tag := [] }] := rfl
      rw [hfields]
      cases n with
      | zero => rfl
      | succ m =>
        have hnext : walk nodeEnv (m + 1) { Schemas := [], Parameters := [] }
            (.ptr (.struct "Node")) = none := by
          rw [walk.eq_def]
          exact ih m (by omega)
        have hvalue : walk nodeEnv (m + 1) { Schemas := [], Parameters := [] } .string =
            some (some (.schema ["string"] "" none none none none none []),
              { Schemas := [], Parameters := [] }) := by
          rw [walk.eq_def]
        simp [walkFields, hvalue, hnext, StructField.IsExported, structPropToParams,
          StructField.TagGet, omGet, propName]

theorem walk_isSome_mono (env : TypeEnv) (fuel fuel2 : Nat) (hle : fuel ≤ fuel2)
    (st : WalkState) (t : GoType) (h : (walk env fuel st t).isSome = true) :
    (walk env fuel2 st t).isSome = true := by
  obtain ⟨r, hr⟩ := Option.isSome_iff_exists.mp h
  rw [walk_mono_le env fuel fuel2 hle st t r hr]
  rfl

theorem walkFields_total (w : WalkState → GoType → Option (Option SchemaProxy × WalkState))
    (fields : List StructField) (hw : ∀ f ∈ fields, ∀ st, (w st f.Typ).isSome = true)
    (st : WalkState) (props : List (String × Option SchemaProxy)) :
    (walkFields w fields st props).isSome = true := by
  induction fields generalizing st props with
  | nil => rfl
  | cons f rest ih =>
    have ihr := ih (fun g hg => hw g (List.mem_cons_of_mem _ hg))
    unfold walkFields
    by_cases he : f.IsExported = true
    · rw [if_pos he]
      obtain ⟨x, hx⟩ := Option.isSome_iff_exists.mp (hw f (List.mem_cons_self _ _) st)
      rw [hx]
      obtain ⟨nsp, st1⟩ := x
      simp only []
      split_ifs
      · exact ihr _ _
      · exact ihr _ _
      · exact ihr _ _
    · rw [if_neg he]
      exact ihr _ _

theorem terminates_of_structs (env : TypeEnv) (t : GoType)
    (h : ∀ s ∈ t.structNames, Terminates env (.struct s)) : Terminates env t := by
  induction t with
  | struct name => exact h name (by simp [GoType.structNames])
  | array len elem ih =>
    obtain ⟨fuel, hf⟩ := ih (by simpa [GoType.structNames] using h)
    refine ⟨fuel + 1, fun st => ?_⟩
    obtain ⟨x, hx⟩ := Option.isSome_iff_exists.mp (hf st)
    rw [walk.eq_def]
    simp [hx]
  | slice elem ih =>
    obtain ⟨fuel, hf⟩ := ih (by simpa [GoType.structNames] using h)
    refine ⟨fuel + 1, fun st => ?_⟩
    obtain ⟨x, hx⟩ := Option.isSome_iff_exists.mp (hf st)
    rw [walk.eq_def]
    simp [hx]
  | map key elem _ ih =>
    obtain ⟨fuel, hf⟩ := ih (by simpa [GoType.structNames] using h)
    refine ⟨fuel + 1, fun st => ?_⟩
    obtain ⟨x, hx⟩ := Option.isSome_iff_exists.mp (hf st)
    rw [walk.eq_def]
    simp [hx]
  | ptr elem ih =>
    obtain ⟨fuel, hf⟩ := ih (by simpa [GoType.structNames] using h)
    refine ⟨fuel + 1, fun st => ?_⟩
    rw [walk.eq_def]
    exact hf st
  | _ => exact ⟨1, fun st => rfl⟩

theorem fields_fuel (env : TypeEnv) (fields : List StructField)
    (h : ∀ f ∈ fields, Terminates env f.Typ) :
    ∃ fuel, ∀ f ∈ fields, ∀ st, (walk env fuel st f.Typ).isSome = true := by
  induction fields with
  | nil => exact ⟨0, fun f hf => absurd hf (List.not_mem_nil _)⟩
  | cons g rest ih =>
    obtain ⟨fuel1, h1⟩ := ih (fun f hf => h f (List.mem_cons_of_mem _ hf))
    obtain ⟨fuel2, h2⟩ := h g (List.mem_cons_self _ _)
    refine ⟨max fuel1 fuel2, fun f hf st => ?_⟩
    rcases List.mem_cons.mp hf with rfl | hr
    · exact walk_isSome_mono env fuel2 _ (le_max_right _ _) st _ (h2 st)
    · exact walk_isSome_mono env fuel1 _ (le_max_left _ _) st _ (h1 f hr st)

theorem terminates_struct_step (env : TypeEnv) (rank : String → Nat) (hac : Acyclic env rank)
    (name : String) (ih : ∀ s, rank s < rank name → Terminates env (.struct s)) :
    Terminates env (.struct name) := by
  have hfields : ∀ f ∈ env name, Terminates env f.Typ := by
    intro f hf
    apply terminates_of_structs
    intro s hs
    exact ih s (hac name f hf s hs)
  obtain ⟨fuel, hfuel⟩ := fields_fuel env (env name) hfields
  refine ⟨fuel + 1, fun st => ?_⟩
  rw [walk.eq_def]
  simp only []
  split_ifs
  · rfl
  · obtain ⟨x, hx⟩ := Option.isSome_iff_exists.mp
      (walkFields_total (walk env fuel) (env name) hfuel st [])
    rw [hx]
    simp only []
    split_ifs <;> rfl

theorem terminates_struct (env : TypeEnv) (rank : String → Nat) (hac : Acyclic env rank)
    (name : String) : Terminates env (.struct name) := by
  have key : ∀ k, ∀ name, rank name = k → Terminates env (.struct name) := by
    intro k
    induction k using Nat.strong_induction_on with
    | _ k ih =>
      intro name hk
      exact terminates_struct_step env rank hac name
        (fun s hs => ih (rank s) (by rw [← hk]; exact hs) s rfl)
  exact key (rank name) name rfl

/-- On struct types that do not mention themselves, every walk returns. -/
theorem terminates_of_acyclic (env : TypeEnv) (rank : String → Nat) (hac : Acyclic env rank)
    (t : GoType) : Terminates env t :=
  terminates_of_structs env t (fun s _ => terminates_struct env rank hac s)

/-! ## The type walker: records -/

theorem omGet_omSet {V : Type} (m : List (String × V)) (key key2 : String) (v : V) :
    omGet (omSet m key v) key2 = if key = key2 then some v else omGet m key2 := by
  induction m with
  | nil => simp [omSet, omGet]
  | cons e rest ih =>
    obtain ⟨k, w⟩ := e
    unfold omSet
    by_cases hk : k = key
    · rw [if_pos hk]
      unfold omGet
      subst hk
      by_cases h2 : k = key2
      · simp [h2]
      · simp [h2]
    · rw [if_neg hk]
      unfold omGet
      by_cases h2 : k = key2
      · have : ¬ key = key2 := fun h => hk (h2.trans h.symm)
        simp [h2, this]
      · simp [h2, ih]

theorem omSet_length_pos {V : Type} (m : List (String × V)) (key : String) (v : V) :
    0 < (omSet m key v).length := by
  cases m with
  | nil => simp [omSet]
  | cons e rest =>
    obtain ⟨k, w⟩ := e
    unfold omSet
    split_ifs <;> simp

/-- The field carries a header, path or query tag. -/
theorem structPropToParams_length (sf : StructField) (schema : Option SchemaProxy) :
    (structPropToParams sf schema).length > 0 ↔
      (sf.TagGet "header" ≠ "" ∨ sf.TagGet "path" ≠ "" ∨ sf.TagGet "query" ≠ "") := by
  unfold structPropToParams
  simp only []
  by_cases h1 : sf.TagGet "header" = "" <;> by_cases h2 : sf.TagGet "path" = "" <;>
    by_cases h3 : sf.TagGet "query" = "" <;> simp [h1, h2, h3]

/-- Every property that the field loop sets is the property of an exported
field without location tag. -/
theorem walkFields_props_origin
    (w : WalkState → GoType → Option (Option SchemaProxy × WalkState))
    (fields : List StructField) (st : WalkState) (props : List (String × Option SchemaProxy))
    (r : List (String × Option SchemaProxy) × WalkState)
    (h : walkFields w fields st props = some r) (key : String)
    (hk : (omGet r.1 key).isSome = true) :
    (omGet props key).isSome = true ∨
      ∃ f ∈ fields, f.IsExported = true ∧ f.TagGet "header" = "" ∧ f.TagGet "path" = "" ∧
        f.TagGet "query" = "" ∧ propName f = (key, false) := by
  induction fields generalizing st props with
  | nil =>
    simp only [walkFields, Option.some.injEq] at h
    subst h
    exact Or.inl hk
  | cons f rest ih =>
    have lift : ∀ {P : StructField → Prop}, (∃ g ∈ rest, P g) → ∃ g ∈ f :: rest, P g := by
      rintro P ⟨g, hg, hp⟩
      exact ⟨g, List.mem_cons_of_mem _ hg, hp⟩
    unfold walkFields at h
    by_cases he : f.IsExported = true
    · rw [if_pos he] at h
      cases hwf : w st f.Typ with
      | none => rw [hwf] at h; cases h
      | some x =>
        rw [hwf] at h
        obtain ⟨nsp, st1⟩ := x
        simp only [] at h
        by_cases hp : (structPropToParams f nsp).length > 0
        · rw [if_pos hp] at h
          rcases ih _ _ h with h1 | h1
          · exact Or.inl h1
          · exact Or.inr (lift h1)
        · rw [if_neg hp] at h
          have htags := (not_congr (structPropToParams_length f nsp)).mp hp
          simp only [not_or, not_not] at htags
          by_cases hs : (propName f).2 = false
          · rw [if_pos hs] at h
            rcases ih _ _ h with h1 | h1
            · rw [omGet_omSet] at h1
              by_cases hkey : (propName f).1 = key
              · refine Or.inr ⟨f, List.mem_cons_self _ _, he, htags.1, htags.2.1, htags.2.2, ?_⟩
                rw [← hkey, ← hs]
              · rw [if_neg hkey] at h1
                exact Or.inl h1
            · exact Or.inr (lift h1)
          · rw [if_neg hs] at h
            rcases ih _ _ h with h1 | h1
            · exact Or.inl h1
            · exact Or.inr (lift h1)
    · rw [if_neg he] at h
      rcases ih _ _ h with h1 | h1
      · exact Or.inl h1
      · exact Or.inr (lift h1)

/-- What the struct case of `walk` does for a record that has no component
entry yet: it runs the field loop from the empty property map; without
properties it returns the nil proxy and writes nothing; otherwise it writes
the object node with these properties as the record's component entry and
returns the reference to it. -/
theorem walk_struct_new (env : TypeEnv) (fuel : Nat) (st : WalkState) (name : String)
    (r : Option SchemaProxy × WalkState)
    (hnew : omGet st.Schemas name = none)
    (h : walk env (fuel + 1) st (.struct name) = some r) :
    ∃ props st1, walkFields (walk env fuel) (env name) st [] = some (props, st1) ∧
      ((props = [] ∧ r = (none, st1)) ∨
        (props ≠ [] ∧ r = (some (.ref (componentSchemaRef name)),
          { st1 with Schemas := omSet st1.Schemas name (objectProxy props) }))) := by
  rw [walk.eq_def] at h
  simp only [typeToString, hnew, Option.isSome_none, Bool.false_eq_true, if_false] at h
  cases hf : walkFields (walk env fuel) (env name) st [] with
  | none => rw [hf] at h; cases h
  | some x =>
    rw [hf] at h
    obtain ⟨props, st1⟩ := x
    refine ⟨props, st1, rfl, ?_⟩
    simp only [] at h
    by_cases hl : props.length = 0
    · rw [if_pos hl, Option.some.injEq] at h
      exact Or.inl ⟨List.length_eq_zero.mp hl, h.symm⟩
    · rw [if_neg hl, Option.some.injEq] at h
      exact Or.inr ⟨fun hp => hl (by rw [hp]; rfl), h.symm⟩

/-- A walk of a record that already has a component entry returns the
reference and changes nothing. -/
theorem walk_struct_present (env : TypeEnv) (fuel : Nat) (st : WalkState) (name : String)
    (hp : (omGet st.Schemas name).isSome = true) :
    walk env (fuel + 1) st (.struct name) = some (some (.ref (componentSchemaRef name)), st) := by
  rw [walk.eq_def]
  simp [typeToString, hp]

/-- C13: when the walker builds the object node of a record (the record has
no component entry yet), every body property of that node is the property of
an exported field that carries no header, path or query tag; a field with
such a tag gives no property.  The node is dropped when it has no
properties and is the record's component entry otherwise. -/
theorem walk_tagged_field_not_property (env : TypeEnv) (fuel : Nat) (st : WalkState)
    (name : String) (r : Option SchemaProxy × WalkState)
    (hnew : omGet st.Schemas name = none)
    (h : walk env (fuel + 1) st (.struct name) = some r) :
    ∃ props st1, walkFields (walk env fuel) (env name) st [] = some (props, st1) ∧
      ((props = [] ∧ r.1 = none) ∨ omGet r.2.Schemas name = some (objectProxy props)) ∧
      ∀ key, (omGet props key).isSome = true →
        ∃ f ∈ env name, f.IsExported = true ∧ f.TagGet "header" = "" ∧
          f.TagGet "path" = "" ∧ f.TagGet "query" = "" ∧ propName f = (key, false) := by
  obtain ⟨props, st1, hf, hr⟩ := walk_struct_new env fuel st name r hnew h
  refine ⟨props, st1, hf, ?_, ?_⟩
  · rcases hr with ⟨hp, hr⟩ | ⟨_, hr⟩
    · exact Or.inl ⟨hp, by rw [hr]⟩
    · refine Or.inr ?_
      rw [hr]
      simp [omGet_omSet]
  · intro key hk
    rcases walkFields_props_origin _ _ _ _ _ hf key hk with h1 | h1
    · simp [omGet] at h1
    · exact h1

/-- Instance of C13: the request shape with a path parameter `ID`, a query
parameter `Page` and the body field `Verbose`; the object node has the
property "verbose" only. -/
theorem walk_tagged_field_not_property_witness :
    ∃ props st1, walkFields (walk sampleEnv 1) (sampleEnv "GetItem")
        { Schemas := [], Parameters := [] } [] = some (props, st1) ∧
      ((props = [] ∧ (some (SchemaProxy.ref "#/components/schemas/GetItem")) = none) ∨
        omGet (omSet [] "GetItem" (objectProxy
          [("verbose", some (.schema ["boolean"] "" none none none none none []))]))
          "GetItem" = some (objectProxy props)) ∧
      ∀ key, (omGet props key).isSome = true →
        ∃ f ∈ sampleEnv "GetItem", f.IsExported = true ∧ f.TagGet "header" = "" ∧
          f.TagGet "path" = "" ∧ f.TagGet "query" = "" ∧ propName f = (key, false) :=
  walk_tagged_field_not_property sampleEnv 1 { Schemas := [], Parameters := [] } "GetItem"
    (some (.ref "#/components/schemas/GetItem"),
      { Schemas := omSet [] "GetItem" (objectProxy
          [("verbose", some (.schema ["boolean"] "" none none none none none []))]),
        Parameters :=
          [{ Name := "id", In := "path",
             Schema := some (.schema ["string"] "" none none none none none []),
             AllowEmptyValue := false },
           { Name := "page", In := "query",
             Schema := some (.schema ["integer"] "" none none none none none []),
             AllowEmptyValue := true }] })
    rfl rfl

/-- The field loop keeps every property of the component map that `Set`
keeps, when the walks of the field types do. -/
theorem walkFields_schemas_inv (P : List (String × SchemaProxy) → Prop)
    (w : WalkState → GoType → Option (Option SchemaProxy × WalkState))
    (hw : ∀ st t r, w st t = some r → P st.Schemas → P r.2.Schemas)
    (fields : List StructField) (st : WalkState) (props : List (String × Option SchemaProxy))
    (r : List (String × Option SchemaProxy) × WalkState)
    (h : walkFields w fields st props = some r) (hP : P st.Schemas) : P r.2.Schemas := by
  induction fields generalizing st props with
  | nil =>
    simp only [walkFields, Option.some.injEq] at h
    subst h
    exact hP
  | cons f rest ih =>
    unfold walkFields at h
    by_cases he : f.IsExported = true
    · rw [if_pos he] at h
      cases hwf : w st f.Typ with
      | none => rw [hwf] at h; cases h
      | some x =>
        rw [hwf] at h
        have hx := hw st f.Typ x hwf hP
        obtain ⟨nsp, st1⟩ := x
        simp only [] at h hx
        split_ifs at h
        · exact ih _ _ h hx
        · exact ih _ _ h hx
        · exact ih _ _ h hx
    · rw [if_neg he] at h
      exact ih _ _ h hP

/-- A walk keeps every property of the component map that `Set` keeps. -/
theorem walk_schemas_inv (P : List (String × SchemaProxy) → Prop)
    (hset : ∀ m key v, P m → P (omSet m key v))
    (env : TypeEnv) (fuel : Nat) (st : WalkState) (t : GoType)
    (r : Option SchemaProxy × WalkState) (h : walk env fuel st t = some r)
    (hP : P st.Schemas) : P r.2.Schemas := by
  induction fuel generalizing st t r with
  | zero => simp [walk] at h
  | succ n ih =>
    rw [walk.eq_def] at h
    simp only [] at h
    cases t with
    | array len elem =>
      simp only [] at h
      cases he : walk env n st elem with
      | none => rw [he] at h; cases h
      | some x =>
        rw [he, Option.some.injEq] at h
        rw [← h]
        exact ih st elem x he hP
    | slice elem =>
      simp only [] at h
      cases he : walk env n st elem with
      | none => rw [he] at h; cases h
      | some x =>
        rw [he, Option.some.injEq] at h
        rw [← h]
        exact ih st elem x he hP
    | map key elem =>
      simp only [] at h
      cases he : walk env n st elem with
      | none => rw [he] at h; cases h
      | some x =>
        rw [he, Option.some.injEq] at h
        rw [← h]
        exact ih st elem x he hP
    | ptr elem => exact ih _ _ _ h hP
    | struct name =>
      simp only [] at h
      split_ifs at h with hp
      · rw [Option.some.injEq] at h
        rw [← h]
        exact hP
      · cases hf : walkFields (walk env n) (env name) st [] with
        | none => rw [hf] at h; cases h
        | some x =>
          rw [hf] at h
          have hx := walkFields_schemas_inv P (walk env n) (fun st t r => ih st t r)
            _ _ _ _ hf hP
          obtain ⟨props, st1⟩ := x
          simp only [] at h hx
          split_ifs at h
          · rw [Option.some.injEq] at h
            rw [← h]
            exact hx
          · rw [Option.some.injEq] at h
            rw [← h]
            exact hset _ _ _ hx
    | bool => simp only [Option.some.injEq] at h; rw [← h]; exact hP
    | string => simp only [Option.some.injEq] at h; rw [← h]; exact hP
    | int w => simp only [Option.some.injEq] at h; rw [← h]; exact hP
    | uint w => simp only [Option.some.injEq] at h; rw [← h]; exact hP
    | float32 => simp only [Option.some.injEq] at h; rw [← h]; exact hP
    | float64 => simp only [Option.some.injEq] at h; rw [← h]; exact hP
    | interface => simp only [Option.some.injEq] at h; rw [← h]; exact hP
    | other => simp only [Option.some.injEq] at h; rw [← h]; exact hP

theorem omSet_keys_nodup {V : Type} (m : List (String × V)) (key : String) (v : V)
    (h : (m.map Prod.fst).Nodup) : ((omSet m key v).map Prod.fst).Nodup := by
  have hmem : ∀ (m : List (String × V)) (k : String),
      k ∈ (omSet m key v).map Prod.fst → k = key ∨ k ∈ m.map Prod.fst := by
    intro m
    induction m with
    | nil => intro k hk; simp [omSet] at hk; exact Or.inl hk
    | cons e rest ih =>
      intro k hk
      obtain ⟨k0, w⟩ := e
      unfold omSet at hk
      split_ifs at hk with h0
      · simp only [List.map_cons, List.mem_cons] at hk
        rcases hk with hk | hk
        · exact Or.inl hk
        · exact Or.inr (by simp [hk])
      · simp only [List.map_cons, List.mem_cons] at hk
        rcases hk with hk | hk
        · exact Or.inr (by simp [hk])
        · rcases ih k hk with h1 | h1
          · exact Or.inl h1
          · exact Or.inr (by simp [h1])
  induction m with
  | nil => simp [omSet]
  | cons e rest ih =>
    obtain ⟨k0, w⟩ := e
    simp only [List.map_cons, List.nodup_cons] at h
    unfold omSet
    split_ifs with h0
    · subst h0
      simp only [List.map_cons, List.nodup_cons]
      exact h
    · simp only [List.map_cons, List.nodup_cons]
      refine ⟨?_, ih h.2⟩
      intro hk
      rcases hmem rest k0 hk with h1 | h1
      · exact h0 h1
      · exact h.1 h1

theorem keyCount_eq_one {V : Type} (m : List (String × V)) (key : String)
    (hn : (m.map Prod.fst).Nodup) (hp : (omGet m key).isSome = true) : keyCount m key = 1 := by
  induction m with
  | nil => simp [omGet] at hp
  | cons e rest ih =>
    obtain ⟨k0, w⟩ := e
    simp only [List.map_cons, List.nodup_cons] at hn
    unfold keyCount at ih ⊢
    by_cases h0 : k0 = key
    · subst h0
      have hz : List.countP (fun e : String × V => decide (e.1 = k0)) rest = 0 := by
        rw [List.countP_eq_zero]
        intro a ha hd
        simp only [decide_eq_true_eq] at hd
        exact hn.1 (by rw [← hd]; exact List.mem_map_of_mem _ ha)
      simp [List.countP_cons, hz]
    · unfold omGet at hp
      rw [if_neg h0] at hp
      simp [List.countP_cons, h0, ih hn.2 hp]

theorem walkFields_props_length
    (w : WalkState → GoType → Option (Option SchemaProxy × WalkState))
    (fields : List StructField) (st : WalkState) (props : List (String × Option SchemaProxy))
    (r : List (String × Option SchemaProxy) × WalkState)
    (h : walkFields w fields st props = some r) :
    (0 < props.length → 0 < r.1.length) ∧
      ((∃ f ∈ fields, f.isBodyProperty) → 0 < r.1.length) := by
  induction fields generalizing st props with
  | nil =>
    simp only [walkFields, Option.some.injEq] at h
    subst h
    exact ⟨id, fun ⟨f, hf, _⟩ => absurd hf (List.not_mem_nil _)⟩
  | cons f rest ih =>
    unfold walkFields at h
    have tail : ∀ st2 props2, walkFields w rest st2 props2 = some r →
        (0 < props.length → 0 < props2.length) → ¬ f.isBodyProperty →
        (0 < props.length → 0 < r.1.length) ∧
          ((∃ g ∈ f :: rest, g.isBodyProperty) → 0 < r.1.length) := by
      intro st2 props2 h2 hlen hnb
      refine ⟨fun hp => (ih _ _ h2).1 (hlen hp), ?_⟩
      rintro ⟨g, hg, hb⟩
      rcases List.mem_cons.mp hg with rfl | hg
      · exact absurd hb hnb
      · exact (ih _ _ h2).2 ⟨g, hg, hb⟩
    by_cases he : f.IsExported = true
    · rw [if_pos he] at h
      cases hwf : w st f.Typ with
      | none => rw [hwf] at h; cases h
      | some x =>
        rw [hwf] at h
        obtain ⟨nsp, st1⟩ := x
        simp only [] at h
        by_cases hp : (structPropToParams f nsp).length > 0
        · rw [if_pos hp] at h
          refine tail _ _ h id ?_
          intro hb
          have := (structPropToParams_length f nsp).mp hp
          rcases this with h1 | h1 | h1
          · exact h1 hb.2.1
          · exact h1 hb.2.2.1
          · exact h1 hb.2.2.2.1
        · rw [if_neg hp] at h
          by_cases hs : (propName f).2 = false
          · rw [if_pos hs] at h
            have hpos := (ih _ _ h).1 (omSet_length_pos props (propName f).1 nsp)
            exact ⟨fun _ => hpos, fun _ => hpos⟩
          · rw [if_neg hs] at h
            exact tail _ _ h id (fun hb => hs hb.2.2.2.2)
    · rw [if_neg he] at h
      exact tail _ _ h id (fun hb => he hb.1)

theorem sampleEnv_acyclic : Acyclic sampleEnv sampleRank := by
  intro name f hf s hs
  unfold sampleEnv at hf
  split_ifs at hf with h1 h2 h3 h4 h5
  all_goals
    simp only [List.mem_cons, List.mem_singleton, List.not_mem_nil, or_false] at hf
  · rcases hf with rfl | rfl | rfl <;> simp [GoType.structNames] at hs
  · rcases hf with rfl | rfl <;> simp [GoType.structNames] at hs
  · subst hf; simp [GoType.structNames] at hs
  · rcases hf with rfl | rfl | rfl | rfl | rfl <;> simp [GoType.structNames] at hs
    subst hs
    subst h4
    decide
  · rcases hf with rfl | rfl | rfl <;> simp [GoType.structNames] at hs

/-- Deduplication on struct types that do not mention themselves: for a
record with at least one body property and from every state of the component map, the
walk returns the reference named after the record; afterwards the component
map has exactly one entry for the record; and every later walk of the
record, in the same operation or in another one, and from any later state
of the document that still has the entry, returns the same reference and
writes nothing. -/
theorem walk_struct_dedup (env : TypeEnv) (rank : String → Nat) (hac : Acyclic env rank)
    (st : WalkState) (name : String) (hkeys : (st.Schemas.map Prod.fst).Nodup)
    (hbody : ∃ f ∈ env name, f.isBodyProperty) :
    ∃ fuel0, ∀ fuel, fuel0 ≤ fuel → ∃ st1,
      walk env fuel st (.struct name) = some (some (.ref (componentSchemaRef name)), st1) ∧
      keyCount st1.Schemas name = 1 ∧
      (∀ params fuel2, 0 < fuel2 →
        walk env fuel2 { st1 with Parameters := params } (.struct name) =
          some (some (.ref (componentSchemaRef name)), { st1 with Parameters := params })) ∧
      (∀ st2 fuel2, 0 < fuel2 → (omGet st2.Schemas name).isSome = true →
        walk env fuel2 st2 (.struct name) =
          some (some (.ref (componentSchemaRef name)), st2)) := by
  obtain ⟨fuel0, hterm⟩ := terminates_struct env rank hac name
  refine ⟨fuel0, fun fuel hle => ?_⟩
  have hsome := walk_isSome_mono env fuel0 fuel hle st _ (hterm st)
  obtain ⟨r, hr⟩ := Option.isSome_iff_exists.mp hsome
  have hlater : ∀ st2 fuel2, 0 < fuel2 → (omGet st2.Schemas name).isSome = true →
      walk env fuel2 st2 (.struct name) =
        some (some (.ref (componentSchemaRef name)), st2) := by
    intro st2 fuel2 hpos hp
    obtain ⟨n, rfl⟩ : ∃ n, fuel2 = n + 1 := ⟨fuel2 - 1, by omega⟩
    exact walk_struct_present env n st2 name hp
  have hnodup := walk_schemas_inv (fun m => (m.map Prod.fst).Nodup)
    (fun m key v h => omSet_keys_nodup m key v h) env fuel st _ r hr hkeys
  cases fuel with
  | zero => simp [walk] at hr
  | succ n =>
    have finish : ∀ st1, r = (some (.ref (componentSchemaRef name)), st1) →
        (omGet st1.Schemas name).isSome = true →
        ∃ st1, walk env (n + 1) st (.struct name) =
            some (some (.ref (componentSchemaRef name)), st1) ∧
          keyCount st1.Schemas name = 1 ∧
          (∀ params fuel2, 0 < fuel2 →
            walk env fuel2 { st1 with Parameters := params } (.struct name) =
              some (some (.ref (componentSchemaRef name)),
                { st1 with Parameters := params })) ∧
          (∀ st2 fuel2, 0 < fuel2 → (omGet st2.Schemas name).isSome = true →
            walk env fuel2 st2 (.struct name) =
              some (some (.ref (componentSchemaRef name)), st2)) := by
      intro st1 hr1 hp1
      subst hr1
      exact ⟨st1, hr, keyCount_eq_one _ _ hnodup hp1,
        fun params fuel2 hpos => hlater _ fuel2 hpos hp1, hlater⟩
    by_cases hp : (omGet st.Schemas name).isSome = true
    · rw [walk_struct_present env n st name hp, Option.some.injEq] at hr
      exact finish st hr.symm hp
    · have hnew : omGet st.Schemas name = none := by
        cases h : omGet st.Schemas name with
        | none => rfl
        | some v => rw [h] at hp; exact absurd rfl hp
      obtain ⟨props, st1, hf, hcase⟩ := walk_struct_new env n st name r hnew hr
      rcases hcase with ⟨hempty, _⟩ | ⟨_, hr1⟩
      · have hpos := (walkFields_props_length _ _ _ _ _ hf).2 hbody
        rw [hempty] at hpos
        exact absurd hpos (lt_irrefl _)
      · refine finish _ hr1 ?_
        simp [omGet_omSet]

/-- Instance of the deduplication: the response shape `Item`, walked from
the empty document. -/
theorem walk_struct_dedup_witness :
    ∃ fuel0, ∀ fuel, fuel0 ≤ fuel → ∃ st1,
      walk sampleEnv fuel { Schemas := [], Parameters := [] } (.struct "Item") =
        some (some (.ref (componentSchemaRef "Item")), st1) ∧
      keyCount st1.Schemas "Item" = 1 ∧
      (∀ params fuel2, 0 < fuel2 →
        walk sampleEnv fuel2 { st1 with Parameters := params } (.struct "Item") =
          some (some (.ref (componentSchemaRef "Item")), { st1 with Parameters := params })) ∧
      (∀ st2 fuel2, 0 < fuel2 → (omGet st2.Schemas "Item").isSome = true →
        walk sampleEnv fuel2 st2 (.struct "Item") =
          some (some (.ref (componentSchemaRef "Item")), st2)) :=
  walk_struct_dedup sampleEnv sampleRank sampleEnv_acyclic
    { Schemas := [], Parameters := [] } "Item" List.nodup_nil
    ⟨{ Name := "Name", PkgPath := "", Typ := .string, Tag := [] }, by decide,
      by decide, by decide, by decide, by decide, by decide⟩

/-! ## Operation synthesis -/

/-- C14 fails on the code: the first `Operation()` of a route whose request
shape has a path parameter, a query parameter and a body field lists both
parameters; a second `Operation()` on the document that the first one left
(a second `Schema()` call, or another route with the same request shape)
lists none, because the request shape now has a component entry and its
fields are not visited. -/
theorem Operation_second_call_drops_parameters :
    (sampleOperation []).map (fun r => r.1.parameterList) =
        some [("id", "path", false), ("page", "query", true)] ∧
      ((sampleOperation []).bind (fun r => sampleOperation r.2)).map
        (fun r => r.1.parameterList) = some [] := by
  constructor <;> rfl

theorem omGet_isSome_of_ne_nil {V : Type} (m : List (String × V)) (h : m ≠ []) :
    ∃ key, (omGet m key).isSome = true := by
  cases m with
  | nil => exact absurd rfl h
  | cons e rest =>
    obtain ⟨k, w⟩ := e
    exact ⟨k, by simp [omGet]⟩

/-- A record without component entry and without a field that is a body
property gives the nil proxy. -/
theorem walk_struct_nil (env : TypeEnv) (fuel : Nat) (st : WalkState) (name : String)
    (r : Option SchemaProxy × WalkState) (hnew : omGet st.Schemas name = none)
    (hnone : ∀ f ∈ env name, ¬ f.isBodyProperty)
    (h : walk env fuel st (.struct name) = some r) : r.1 = none := by
  cases fuel with
  | zero => simp [walk] at h
  | succ n =>
    obtain ⟨props, st1, hf, hcase⟩ := walk_struct_new env n st name r hnew h
    rcases hcase with ⟨_, hr⟩ | ⟨hne, _⟩
    · rw [hr]
    · exfalso
      obtain ⟨key, hk⟩ := omGet_isSome_of_ne_nil props hne
      rcases walkFields_props_origin _ _ _ _ _ hf key hk with h1 | ⟨f, hf1, he, h1, h2, h3, h4⟩
      · simp [omGet] at h1
      · exact hnone f hf1 ⟨he, h1, h2, h3, by rw [h4]⟩

/-- Operation synthesis on struct types that do not mention themselves:
`Operation()` returns, and the operation is the one described: the three walks run in the
order Input, Output, structured error on the shared document, the request
body is required and has one content entry under the route's content type
with the node of the Input shape, the one response entry is under the
decimal text of the route's status code with the node of the Output shape,
and the default response has the node of the error shape.  The node of an
Input record without component entry whose fields are all parameters is
nil. -/
theorem Operation_specified {I O : Type} (r : route I O) (env : TypeEnv)
    (rank : String → Nat) (hac : Acyclic env rank) (inputType outputType : GoType)
    (schemas : List (String × SchemaProxy)) :
    ∃ fuel0, ∀ fuel, fuel0 ≤ fuel → ∃ n1 st1 n2 st2 n3 st3,
      walk env fuel { Schemas := schemas, Parameters := [] } inputType = some (n1, st1) ∧
      walk env fuel st1 outputType = some (n2, st2) ∧
      walk env fuel st2 (.struct httpErrorTypeName) = some (n3, st3) ∧
      r.Operation env fuel inputType outputType schemas =
        some (specifiedOperation r.contentType r.statusCode n1 n2 n3 st3.Parameters,
          st3.Schemas) ∧
      (∀ name, inputType = .struct name → omGet schemas name = none →
        (∀ f ∈ env name, f.TagGet "header" ≠ "" ∨ f.TagGet "path" ≠ "" ∨
          f.TagGet "query" ≠ "") → n1 = none) := by
  obtain ⟨f1, h1⟩ := terminates_of_acyclic env rank hac inputType
  obtain ⟨f2, h2⟩ := terminates_of_acyclic env rank hac outputType
  obtain ⟨f3, h3⟩ := terminates_of_acyclic env rank hac (.struct httpErrorTypeName)
  refine ⟨max f1 (max f2 f3), fun fuel hle => ?_⟩
  have hle1 : f1 ≤ fuel := le_trans (le_max_left _ _) hle
  have hle2 : f2 ≤ fuel := le_trans (le_trans (le_max_left _ _) (le_max_right _ _)) hle
  have hle3 : f3 ≤ fuel := le_trans (le_trans (le_max_right _ _) (le_max_right _ _)) hle
  obtain ⟨x1, hx1⟩ := Option.isSome_iff_exists.mp
    (walk_isSome_mono env f1 fuel hle1 { Schemas := schemas, Parameters := [] } _ (h1 _))
  obtain ⟨n1, st1⟩ := x1
  obtain ⟨x2, hx2⟩ := Option.isSome_iff_exists.mp
    (walk_isSome_mono env f2 fuel hle2 st1 _ (h2 _))
  obtain ⟨n2, st2⟩ := x2
  obtain ⟨x3, hx3⟩ := Option.isSome_iff_exists.mp
    (walk_isSome_mono env f3 fuel hle3 st2 _ (h3 _))
  obtain ⟨n3, st3⟩ := x3
  refine ⟨n1, st1, n2, st2, n3, st3, hx1, hx2, hx3, ?_, ?_⟩
  · unfold route.Operation
    rw [hx1]
    simp only []
    rw [hx2]
    simp only []
    rw [hx3]
    rfl
  · intro name hname hnew hall
    subst hname
    have := walk_struct_nil env fuel { Schemas := schemas, Parameters := [] } name (n1, st1)
      hnew ?_ hx1
    · exact this
    · intro f hf hb
      rcases hall f hf with h | h | h
      · exact h hb.2.1
      · exact h hb.2.2.1
      · exact h hb.2.2.2.1

/-- Instance of the operation synthesis: the sample POST route with a
request shape whose only field is a path parameter; the request body holds
the nil node and the response entry is under "201". -/
theorem Operation_specified_witness :
    ∃ fuel0, ∀ fuel, fuel0 ≤ fuel → ∃ n1 st1 n2 st2 n3 st3,
      walk sampleEnv fuel { Schemas := [], Parameters := [] } (.struct "ItemKey") =
        some (n1, st1) ∧
      walk sampleEnv fuel st1 (.struct "Item") = some (n2, st2) ∧
      walk sampleEnv fuel st2 (.struct httpErrorTypeName) = some (n3, st3) ∧
      (sampleRoute [] sampleHandler).Operation sampleEnv fuel (.struct "ItemKey")
          (.struct "Item") [] =
        some (specifiedOperation "application/json" 201 n1 n2 n3 st3.Parameters,
          st3.Schemas) ∧
      (∀ name, GoType.struct "ItemKey" = .struct name →
        omGet ([] : List (String × SchemaProxy)) name = none →
        (∀ f ∈ sampleEnv name, f.TagGet "header" ≠ "" ∨ f.TagGet "path" ≠ "" ∨
          f.TagGet "query" ≠ "") → n1 = none) :=
  Operation_specified (sampleRoute [] sampleHandler) sampleEnv sampleRank sampleEnv_acyclic
    (.struct "ItemKey") (.struct "Item") []

/-! ## Self-referencing records in deduplication and operation synthesis -/

/-- The walk of `Node` returns for no amount of fuel, from every state
without a component entry for `Node`. -/
theorem walk_node_none (fuel : Nat) (st : WalkState)
    (hnew : omGet st.Schemas "Node" = none) :
    walk nodeEnv fuel st (.struct "Node") = none := by
  induction fuel using Nat.strong_induction_on generalizing st with
  | _ fuel ih =>
    cases fuel with
    | zero => rfl
    | succ n =>
      rw [walk.eq_def]
      simp only [typeToString, hnew, Option.isSome_none, Bool.false_eq_true, if_false]
      have hfields : nodeEnv "Node" =
          [{ Name := "Value", PkgPath := "", Typ := .string, Tag := [] },
           { Name := "Next", PkgPath := "", Typ := .ptr (.struct "Node"), Tag := [] }] := rfl
      rw [hfields]
      cases n with
      | zero => rfl
      | succ m =>
        have hnext : walk nodeEnv (m + 1) st (.ptr (.struct "Node")) = none := by
          rw [walk.eq_def]
          exact ih m (by omega) st hnew
        have hvalue : walk nodeEnv (m + 1) st .string =
            some (some (.schema ["string"] "" none none none none none []), st) := by
          rw [walk.eq_def]
        simp [walkFields, hvalue, hnext, StructField.IsExported, structPropToParams,
          StructField.TagGet, omGet, propName]

/-- C12 fails on the code: `type Node struct { Value string; Next *Node }`
is a named record with a body property (`Value`), and from the empty
component map, whatever the parameters of the operation so far, its walk
returns for no amount of fuel: no reference node comes back and no
component entry is written. -/
theorem walk_struct_dedup_self_reference :
    (∃ f, f ∈ nodeEnv "Node" ∧ f.isBodyProperty) ∧
      ∀ (fuel : Nat) (params : List V3Parameter),
        walk nodeEnv fuel { Schemas := [], Parameters := params } (.struct "Node") = none :=
  ⟨⟨{ Name := "Value", PkgPath := "", Typ := .string, Tag := [] }, by decide,
      by decide, by decide, by decide, by decide, by decide⟩,
    fun fuel params => walk_node_none fuel { Schemas := [], Parameters := params } rfl⟩

/-- C15 fails on the code: for a route whose Input shape is
`type Node struct { Value string; Next *Node }` (and whose Output is a
string), `Operation()` on the empty document returns for no amount of
fuel. -/
theorem Operation_self_reference_diverges (fuel : Nat) :
    (sampleRoute [] sampleHandler).Operation nodeEnv fuel (.struct "Node") .string [] =
      none := by
  unfold route.Operation
  rw [walk_node_none fuel { Schemas := [], Parameters := [] } rfl]

/-! ## Field naming -/

/-- C16 fails on the code: for a field tagged `json:",omitempty"` the walker
emits the empty property name while the codec uses the field's name, and
for a field tagged `json:"-,"` the walker omits the field while the codec
keeps it under the key "-". -/
theorem propName_differs_from_json :
    propName omitemptyField = ("", false) ∧
      walkerFieldKey omitemptyField = some "" ∧
      jsonFieldKey omitemptyField = some "Count" ∧
      walkerFieldKey dashCommaField = none ∧
      jsonFieldKey dashCommaField = some "-" := by
  decide

/-! ## Use and the middleware slices -/

theorem goAppend_spec (grow : Nat → Nat → Nat) (heap : MwHeap) (s : MwSlice)
    (xs : List Middleware) (h0 : 0 < heap.length) (ha : s.array < heap.length)
    (hl : s.len ≤ (heap.getD s.array []).length) (hz : s.array = 0 → s.cap = 0) :
    heap.length ≤ (goAppend grow heap s xs).1.length ∧
    (goAppend grow heap s xs).2.array < (goAppend grow heap s xs).1.length ∧
    (goAppend grow heap s xs).1.read (goAppend grow heap s xs).2 = heap.read s ++ xs ∧
    (goAppend grow heap s xs).2.len ≤
      ((goAppend grow heap s xs).1.getD (goAppend grow heap s xs).2.array []).length ∧
    ((goAppend grow heap s xs).2.array = 0 → (goAppend grow heap s xs).2.cap = 0) ∧
    (∀ a, a < heap.length → (a ≠ s.array ∨ s.cap = 0) →
      (goAppend grow heap s xs).1.getD a [] = heap.getD a []) ∧
    ((goAppend grow heap s xs).2.array = s.array ∨
      (goAppend grow heap s xs).2.array = heap.length) := by
  obtain ⟨cells, hcells⟩ : ∃ cells, heap.getD s.array [] = cells := ⟨_, rfl⟩
  have hget : heap[s.array]? = some cells := by
    rw [← hcells, List.getD_eq_getElem?_getD, List.getElem?_eq_getElem ha]
    rfl
  rw [hcells] at hl
  have htake : (cells.take s.len).length = s.len := by
    rw [List.length_take]; omega
  by_cases hc : s.len + xs.length ≤ s.cap
  · have hg : goAppend grow heap s xs =
        (heap.set s.array (cells.take s.len ++ xs ++ cells.drop (s.len + xs.length)),
          { array := s.array, len := s.len + xs.length, cap := s.cap }) := by
      unfold goAppend
      rw [if_pos hc, hcells]
    rw [hg]
    have hown : (heap.set s.array
        (cells.take s.len ++ xs ++ cells.drop (s.len + xs.length))).getD s.array [] =
        cells.take s.len ++ xs ++ cells.drop (s.len + xs.length) := by
      rw [List.getD_eq_getElem?_getD, List.getElem?_set_self ha]
      rfl
    refine ⟨?_, ?_, ?_, ?_, ?_, ?_, Or.inl rfl⟩
    · simp
    · simpa using ha
    · show ((heap.set s.array _).getD s.array []).take (s.len + xs.length) =
        (heap.getD s.array []).take s.len ++ xs
      rw [hown, hcells]
      apply List.take_left'
      rw [List.length_append, htake]
    · show s.len + xs.length ≤ ((heap.set s.array _).getD s.array []).length
      rw [hown]
      simp only [List.length_append, htake]
      omega
    · exact hz
    · intro a hlt hor
      show (heap.set s.array _).getD a [] = heap.getD a []
      by_cases hne : a = s.array
      · subst hne
        have hcap : s.cap = 0 := by
          rcases hor with h | h
          · exact absurd rfl h
          · exact h
        have hlen0 : s.len = 0 := by omega
        have hxs : xs = [] := List.eq_nil_of_length_eq_zero (by omega)
        rw [hown, hcells, hlen0, hxs]
        simp
      · rw [List.getD_eq_getElem?_getD, List.getD_eq_getElem?_getD,
          List.getElem?_set_ne (Ne.symm hne)]
  · have hg : goAppend grow heap s xs =
        (heap ++ [cells.take s.len ++ xs],
          { array := heap.length, len := s.len + xs.length,
            cap := grow s.cap (s.len + xs.length) }) := by
      unfold goAppend
      rw [if_neg hc, hcells]
    rw [hg]
    have hown : (heap ++ [cells.take s.len ++ xs]).getD heap.length [] =
        cells.take s.len ++ xs := by
      rw [List.getD_eq_getElem?_getD, List.getElem?_concat_length]
      rfl
    refine ⟨?_, ?_, ?_, ?_, ?_, ?_, Or.inr rfl⟩
    · simp
    · simp
    · show ((heap ++ [_]).getD heap.length []).take (s.len + xs.length) =
        (heap.getD s.array []).take s.len ++ xs
      rw [hown, hcells]
      apply List.take_of_length_le
      rw [List.length_append, htake]
    · show s.len + xs.length ≤ ((heap ++ [_]).getD heap.length []).length
      rw [hown, List.length_append, htake]
    · intro h
      exact absurd h (by simpa using Nat.ne_of_gt h0)
    · intro a hlt _
      show (heap ++ [_]).getD a [] = heap.getD a []
      rw [List.getD_eq_getElem?_getD, List.getD_eq_getElem?_getD,
        List.getElem?_append_left hlt]

theorem read_newMiddlewares (heap : MwHeap) : heap.read newMiddlewares = [] := by
  simp [MwHeap.read, newMiddlewares]

theorem afterNew_separate : afterNew.separate := by
  refine ⟨by decide, rfl, ?_, ?_⟩
  · intro i s h
    simp [afterNew] at h
  · intro i j s t h
    simp [afterNew] at h

theorem call_Create (grow : Nat → Nat → Nat) (st : MwState) (hs : st.separate) :
    (st.call grow .Create).separate ∧
      (st.call grow .Create).lists = st.lists ++ [st.routerList] ∧
      (st.call grow .Create).routerList = st.routerList := by
  obtain ⟨h0, hrouter, hwf, hsep⟩ := hs
  have hnew : ∀ (i : Nat) (s : MwSlice), (st.routes ++ [st.router])[i]? = some s →
      st.routes[i]? = some s ∨ (i = st.routes.length ∧ s = newMiddlewares) := by
    intro i s h
    rcases Nat.lt_or_ge i st.routes.length with hlt | hge
    · rw [List.getElem?_append_left hlt] at h
      exact Or.inl h
    · rw [List.getElem?_append_right hge] at h
      cases hk : i - st.routes.length with
      | zero =>
        rw [hk] at h
        simp only [List.getElem?_cons_zero, Option.some.injEq] at h
        exact Or.inr ⟨by omega, by rw [← h, hrouter]⟩
      | succ n => rw [hk] at h; simp at h
  have hlt_of : ∀ (i : Nat) (s : MwSlice), st.routes[i]? = some s → i < st.routes.length := by
    intro i s h
    exact (List.getElem?_eq_some_iff.mp h).1
  refine ⟨⟨h0, hrouter, ?_, ?_⟩, ?_, rfl⟩
  · intro i s h
    rcases hnew i s h with h1 | ⟨_, h1⟩
    · exact hwf i s h1
    · subst h1
      exact ⟨h0, Nat.zero_le _, fun _ => rfl⟩
  · intro i j s t hi hj hne harr
    rcases hnew i s hi with h1 | ⟨hi1, h1⟩
    · rcases hnew j t hj with h2 | ⟨_, h2⟩
      · exact hsep i j s t h1 h2 hne harr
      · rw [harr, h2]
        rfl
    · rw [h1]
      rfl
  · simp [MwState.lists, MwState.call, newRouteMiddlewares, MwState.routerList]

theorem call_Use (grow : Nat → Nat → Nat) (st : MwState) (hs : st.separate) (index : Nat)
    (mws : List Middleware) :
    (st.call grow (.Use index mws)).separate ∧
      (st.call grow (.Use index mws)).lists = listsAfterUse st.lists index mws ∧
      (st.call grow (.Use index mws)).routerList = st.routerList := by
  have hs0 := hs
  obtain ⟨h0, hrouter, hwf, hsep⟩ := hs
  cases hr : st.routes[index]? with
  | none =>
    have hcall : st.call grow (.Use index mws) = st := by
      simp only [MwState.call, hr]
    rw [hcall]
    refine ⟨hs0, ?_, rfl⟩
    unfold listsAfterUse
    have : st.lists[index]? = none := by
      simp [MwState.lists, hr]
    rw [this]
  | some s =>
    obtain ⟨g, hg⟩ : ∃ g, goAppend grow st.heap s mws = g := ⟨_, rfl⟩
    have hcall : st.call grow (.Use index mws) =
        { heap := g.1, router := st.router, routes := st.routes.set index g.2 } := by
      simp only [MwState.call, hr, useMiddlewares, hg]
    obtain ⟨hsa, hsl, hsz⟩ := hwf index s hr
    have spec := goAppend_spec grow st.heap s mws h0 hsa hsl hsz
    rw [hg] at spec
    obtain ⟨g1, g2, g3, g4, g5, g6, g7⟩ := spec
    have hidx : index < st.routes.length := (List.getElem?_eq_some_iff.mp hr).1
    have hother : ∀ (j : Nat) (t : MwSlice), st.routes[j]? = some t → j ≠ index →
        g.1.getD t.array [] = st.heap.getD t.array [] := by
      intro j t ht hne
      apply g6 t.array (hwf j t ht).1
      by_cases hsame : t.array = s.array
      · right
        have hzero := hsep j index t s ht hr hne hsame
        exact hsz (by rw [← hsame, hzero])
      · exact Or.inl hsame
    have hset : ∀ (j : Nat) (t : MwSlice), (st.routes.set index g.2)[j]? = some t →
        (j = index ∧ t = g.2) ∨ (j ≠ index ∧ st.routes[j]? = some t) := by
      intro j t h
      by_cases hj : j = index
      · subst hj
        rw [List.getElem?_set_self hidx] at h
        exact Or.inl ⟨rfl, (Option.some.inj h).symm⟩
      · rw [List.getElem?_set_ne (Ne.symm hj)] at h
        exact Or.inr ⟨hj, h⟩
    rw [hcall]
    refine ⟨⟨by show 0 < g.1.length; omega, hrouter, ?_, ?_⟩, ?_, ?_⟩
    · intro i t h
      show t.array < g.1.length ∧ t.len ≤ (g.1.getD t.array []).length ∧
        (t.array = 0 → t.cap = 0)
      rcases hset i t h with ⟨_, rfl⟩ | ⟨hne, hold⟩
      · exact ⟨g2, g4, g5⟩
      · obtain ⟨ha, hl, hz⟩ := hwf i t hold
        exact ⟨by omega, by rw [hother i t hold hne]; exact hl, hz⟩
    · intro i j a b hi hj hne harr
      rcases hset i a hi with ⟨hi1, rfl⟩ | ⟨hi1, hiold⟩
      · rcases hset j b hj with ⟨hj1, _⟩ | ⟨hj1, hjold⟩
        · exact absurd (hi1.trans hj1.symm) hne
        · rcases g7 with h7 | h7
          · rw [h7]
            exact hsep index j s b hr hjold (Ne.symm hj1) (by rw [← h7, harr])
          · have := (hwf j b hjold).1
            omega
      · rcases hset j b hj with ⟨hj1, rfl⟩ | ⟨hj1, hjold⟩
        · rcases g7 with h7 | h7
          · exact hsep i index a s hiold hr hi1 (by rw [harr, h7])
          · have := (hwf i a hiold).1
            omega
        · exact hsep i j a b hiold hjold hne harr
    · show (st.routes.set index g.2).map g.1.read = listsAfterUse st.lists index mws
      have hl : st.lists[index]? = some (st.heap.read s) := by
        simp [MwState.lists, hr]
      unfold listsAfterUse
      rw [hl]
      simp only []
      apply List.ext_getElem?
      intro j
      rw [List.getElem?_map]
      by_cases hj : j = index
      · subst hj
        rw [List.getElem?_set_self hidx, List.getElem?_set_self (by simpa [MwState.lists] using hidx)]
        simp only [Option.map_some']
        rw [g3]
      · rw [List.getElem?_set_ne (Ne.symm hj), List.getElem?_set_ne (Ne.symm hj)]
        simp only [MwState.lists, List.getElem?_map]
        cases ht : st.routes[j]? with
        | none => rfl
        | some t =>
          simp only [Option.map_some']
          congr 1
          unfold MwHeap.read
          rw [hother j t ht hj]
    · show g.1.read st.router = st.heap.read st.router
      rw [hrouter, read_newMiddlewares, read_newMiddlewares]

theorem call_separate (grow : Nat → Nat → Nat) (st : MwState) (hs : st.separate)
    (c : MwCall) : (st.call grow c).separate := by
  cases c with
  | Create => exact (call_Create grow st hs).1
  | Use index mws => exact (call_Use grow st hs index mws).1

theorem foldl_separate (grow : Nat → Nat → Nat) (calls : List MwCall) (st : MwState)
    (hs : st.separate) : (calls.foldl (MwState.call grow) st).separate := by
  induction calls generalizing st with
  | nil => exact hs
  | cons c rest ih => exact ih _ (call_separate grow st hs c)

theorem after_separate (grow : Nat → Nat → Nat) (calls : List MwCall) :
    (MwState.after grow calls).separate :=
  foldl_separate grow calls afterNew afterNew_separate

theorem after_snoc (grow : Nat → Nat → Nat) (calls : List MwCall) (c : MwCall) :
    MwState.after grow (calls ++ [c]) = (MwState.after grow calls).call grow c := by
  simp [MwState.after, List.foldl_append]

theorem listsAfterUse_twice (lists : List (List Middleware)) (index : Nat)
    (a b : List Middleware) :
    listsAfterUse (listsAfterUse lists index a) index b = listsAfterUse lists index (a ++ b) := by
  unfold listsAfterUse
  cases hl : lists[index]? with
  | none => simp [hl]
  | some l =>
    have hidx : index < lists.length := (List.getElem?_eq_some_iff.mp hl).1
    simp [List.getElem?_set_self hidx, List.set_set, List.append_assoc]

theorem after_routerList (grow : Nat → Nat → Nat) (calls : List MwCall) :
    (MwState.after grow calls).routerList = [] := by
  show (MwState.after grow calls).heap.read (MwState.after grow calls).router = []
  rw [(after_separate grow calls).2.1, read_newMiddlewares]

theorem after_lists (grow : Nat → Nat → Nat) (calls : List MwCall) :
    (MwState.after grow calls).lists = specifiedLists [] calls := by
  induction calls using List.reverseRecOn with
  | nil => rfl
  | append_singleton l c ih =>
    have hspec : specifiedLists [] (l ++ [c]) =
        (match c with
          | .Create => specifiedLists [] l ++ [[]]
          | .Use index middlewares => listsAfterUse (specifiedLists [] l) index middlewares) := by
      simp [specifiedLists, List.foldl_append]
    rw [after_snoc, hspec]
    cases c with
    | Create =>
      rw [(call_Create grow _ (after_separate grow l)).2.1, ih, after_routerList]
    | Use index mws =>
      rw [(call_Use grow _ (after_separate grow l) index mws).2.1, ih]

/-- C19: after `New()` and any sequence of route creations and `Use` calls,
whatever the growth rule of `append`, the list of every route is the
router-level list as it was when the route was created followed by the
arguments of the later `Use` calls on that route, in call order.  Step by
step: a new route starts with the router-level list as it is then; `Use` on
a route puts its arguments after the list of that route and leaves the list
of every other route as it was; `Use(a)` followed by `Use(b)` gives the
lists that `Use(a, b)` gives; and the router-level list stays what `New`
made it, the empty list. -/
theorem Use_lists (grow : Nat → Nat → Nat) (calls : List MwCall) :
    (MwState.after grow calls).lists =
      specifiedLists (MwState.after grow []).routerList calls ∧
    (MwState.after grow (calls ++ [.Create])).lists =
      (MwState.after grow calls).lists ++ [(MwState.after grow calls).routerList] ∧
    (∀ (index : Nat) (mws : List Middleware),
      (MwState.after grow (calls ++ [.Use index mws])).lists =
        listsAfterUse (MwState.after grow calls).lists index mws) ∧
    (∀ (index : Nat) (a b : List Middleware),
      (MwState.after grow (calls ++ [.Use index a, .Use index b])).lists =
        (MwState.after grow (calls ++ [.Use index (a ++ b)])).lists) ∧
    (MwState.after grow calls).routerList = (MwState.after grow []).routerList ∧
    (MwState.after grow []).routerList = [] := by
  have hs := after_separate grow calls
  refine ⟨after_lists grow calls, ?_, ?_, ?_, after_routerList grow calls, rfl⟩
  · rw [after_snoc]
    exact (call_Create grow _ hs).2.1
  · intro index mws
    rw [after_snoc]
    exact (call_Use grow _ hs index mws).2.1
  · intro index a b
    have h2 : calls ++ [MwCall.Use index a, MwCall.Use index b] =
        (calls ++ [MwCall.Use index a]) ++ [MwCall.Use index b] := by simp
    rw [h2, after_snoc, after_snoc, after_snoc]
    rw [(call_Use grow _ (call_separate grow _ hs _) index b).2.1,
      (call_Use grow _ hs index a).2.1, (call_Use grow _ hs index (a ++ b)).2.1]
    exact listsAfterUse_twice _ index a b

/-- Instance of C19: two routes are created; the first gets
`panicMiddleware`, then the second gets `limitMiddleware`, and the list of
the first is still the one it had. -/
theorem Use_lists_witness :
    (MwState.after (fun _ n => n + 1)
      ([.Create, .Create, .Use 0 [panicMiddleware]] ++ [.Use 1 [limitMiddleware]])).lists =
      listsAfterUse (MwState.after (fun _ n => n + 1)
        [.Create, .Create, .Use 0 [panicMiddleware]]).lists 1 [limitMiddleware] ∧
    listsAfterUse (MwState.after (fun _ n => n + 1)
        [.Create, .Create, .Use 0 [panicMiddleware]]).lists 1 [limitMiddleware] =
      [[panicMiddleware], [limitMiddleware]] :=
  ⟨(Use_lists (fun _ n => n + 1) [.Create, .Create, .Use 0 [panicMiddleware]]).2.2.1 1
    [limitMiddleware], rfl⟩

/-! ## Schema -/

theorem slot_setSlot_same (item : V3PathItem) (method : String) (op : V3Operation)
    (h : hasSlot method = true) : (item.setSlot method op).slot method = some op := by
  simp only [hasSlot, Bool.decide_or, Bool.or_eq_true, decide_eq_true_eq] at h
  rcases h with rfl | rfl | rfl | rfl | rfl | rfl <;> rfl

theorem slot_setSlot_other (item : V3PathItem) (method method2 : String) (op : V3Operation)
    (h2 : hasSlot method2 = true) (hne : method ≠ method2) :
    (item.setSlot method2 op).slot method = item.slot method := by
  simp only [hasSlot, Bool.decide_or, Bool.or_eq_true, decide_eq_true_eq] at h2
  unfold V3PathItem.slot
  rcases h2 with rfl | rfl | rfl | rfl | rfl | rfl <;>
    simp only [V3PathItem.setSlot, if_true, if_false, reduceCtorEq, String.reduceEq] <;>
    split_ifs <;> first | rfl | (exfalso; exact hne (by assumption))

theorem schemaLoop_cons (ro : Route) (rest : List Route) (doc : V3Document) :
    schemaLoop (ro :: rest) doc =
      if hasSlot ro.Method = true then
        (ro.Operation doc.Schemas).bind
          (fun r => schemaLoop rest (schemaStep doc ro r.1 r.2))
      else schemaLoop rest doc := by
  rw [schemaLoop]
  split_ifs
  · cases ro.Operation doc.Schemas with
    | none => rfl
    | some x => rfl
  · rfl

theorem schemaLoop_append (pre post : List Route) (doc : V3Document) :
    schemaLoop (pre ++ post) doc = (schemaLoop pre doc).bind (schemaLoop post) := by
  induction pre generalizing doc with
  | nil => rfl
  | cons ro rest ih =>
    simp only [List.cons_append]
    rw [schemaLoop_cons, schemaLoop_cons]
    split_ifs
    · cases ro.Operation doc.Schemas with
      | none => rfl
      | some x => exact ih _
    · exact ih _

/-- The later turns of the loop keep the operation in a slot, when none of
the later routes has both the verb and the pattern. -/
theorem schemaLoop_keeps_slot (post : List Route) (doc doc2 : V3Document)
    (h : schemaLoop post doc = some doc2) (pattern method : String) (op : V3Operation)
    (hno : ∀ q ∈ post, ¬ (q.Method = method ∧ q.Pattern = pattern))
    (hslot : ∃ item, omGet doc.PathItems pattern = some item ∧ item.slot method = some op) :
    ∃ item, omGet doc2.PathItems pattern = some item ∧ item.slot method = some op := by
  induction post generalizing doc with
  | nil =>
    simp only [schemaLoop, Option.some.injEq] at h
    subst h
    exact hslot
  | cons q rest ih =>
    have hrest : ∀ q2 ∈ rest, ¬ (q2.Method = method ∧ q2.Pattern = pattern) :=
      fun q2 hq => hno q2 (List.mem_cons_of_mem _ hq)
    rw [schemaLoop_cons] at h
    by_cases hq : hasSlot q.Method = true
    · rw [if_pos hq] at h
      cases hop : q.Operation doc.Schemas with
      | none => rw [hop] at h; cases h
      | some x =>
        rw [hop] at h
        simp only [Option.some_bind] at h
        refine ih _ h hrest ?_
        obtain ⟨item, hget, hs⟩ := hslot
        simp only [schemaStep, omGet_omSet]
        by_cases hp : q.Pattern = pattern
        · rw [if_pos hp]
          refine ⟨_, rfl, ?_⟩
          have hne : method ≠ q.Method := fun hm => hno q (List.mem_cons_self _ _) ⟨hm.symm, hp⟩
          rw [slot_setSlot_other _ _ _ _ hq hne]
          simp only [pathItemOf, hp, hget]
          exact hs
        · rw [if_neg hp]
          exact ⟨item, hget, hs⟩
    · rw [if_neg hq] at h
      exact ih _ h hrest hslot

theorem schemaLoop_keys_nodup (routes : List Route) (doc doc2 : V3Document)
    (h : schemaLoop routes doc = some doc2) (hn : (doc.PathItems.map Prod.fst).Nodup) :
    (doc2.PathItems.map Prod.fst).Nodup := by
  induction routes generalizing doc with
  | nil =>
    simp only [schemaLoop, Option.some.injEq] at h
    subst h
    exact hn
  | cons q rest ih =>
    rw [schemaLoop_cons] at h
    by_cases hq : hasSlot q.Method = true
    · rw [if_pos hq] at h
      cases hop : q.Operation doc.Schemas with
      | none => rw [hop] at h; cases h
      | some x =>
        rw [hop] at h
        simp only [Option.some_bind] at h
        exact ih _ h (omSet_keys_nodup _ _ _ hn)
    · rw [if_neg hq] at h
      exact ih _ h hn

theorem schemaLoop_total (routes : List Route) (doc : V3Document)
    (hops : ∀ ro ∈ routes, ∀ schemas, (ro.Operation schemas).isSome = true) :
    (schemaLoop routes doc).isSome = true := by
  induction routes generalizing doc with
  | nil => rfl
  | cons q rest ih =>
    have hrest := fun ro hr => hops ro (List.mem_cons_of_mem _ hr)
    rw [schemaLoop_cons]
    split_ifs
    · obtain ⟨x, hx⟩ := Option.isSome_iff_exists.mp (hops q (List.mem_cons_self _ _) doc.Schemas)
      rw [hx]
      exact ih _ hrest
    · exact ih _ hrest

/-- C20, as stated, fails: two routes are registered with the same verb and
pattern; after `Schema()` the slot holds the operation of the second route
(one parameter), not the operation of the first (two parameters). -/
theorem Schema_duplicate_route_overwritten :
    (Router.Schema duplicateRoutes defaultSchema).map
        (fun doc => (omGet doc.PathItems "/items").bind
          (fun item => (item.slot "POST").map V3Operation.parameterList)) =
        some (some [("id", "path", false)]) ∧
      (duplicateRoutes.head?.bind (fun ro => ro.Operation [])).map
        (fun r => r.1.parameterList) =
        some [("id", "path", false), ("page", "query", true)] := by
  constructor <;> rfl

/-- C20, amended: `Schema()` returns when the `Operation()` of every route
does; for every route whose verb has a slot and whose verb and pattern are
not both those of a later route, the path item under the route's pattern
exists after `Schema()` and its slot for the verb holds the operation that
the route's `Operation()` returned at its turn; the path items stay one per
pattern; and a route with any other verb (the empty one included) can be
taken out of the list without changing the document. -/
theorem Schema_slots (routes : List Route) (doc : V3Document) :
    ((∀ ro ∈ routes, ∀ schemas, (ro.Operation schemas).isSome = true) →
      ∃ doc2, Router.Schema routes doc = some doc2) ∧
    ∀ doc2, Router.Schema routes doc = some doc2 →
      (∀ pre ro post, routes = pre ++ ro :: post → hasSlot ro.Method = true →
        (∀ q ∈ post, ¬ (q.Method = ro.Method ∧ q.Pattern = ro.Pattern)) →
        ∃ mid op schemas item, schemaLoop pre doc = some mid ∧
          ro.Operation mid.Schemas = some (op, schemas) ∧
          omGet doc2.PathItems ro.Pattern = some item ∧ item.slot ro.Method = some op) ∧
      ((doc.PathItems.map Prod.fst).Nodup → (doc2.PathItems.map Prod.fst).Nodup) ∧
      (∀ pre ro post, routes = pre ++ ro :: post → hasSlot ro.Method = false →
        Router.Schema (pre ++ post) doc = some doc2) := by
  refine ⟨fun hops => Option.isSome_iff_exists.mp (schemaLoop_total routes doc hops), ?_⟩
  intro doc2 h
  unfold Router.Schema at h
  refine ⟨?_, schemaLoop_keys_nodup routes doc doc2 h, ?_⟩
  · intro pre ro post hsplit hm hno
    rw [hsplit, schemaLoop_append] at h
    cases hpre : schemaLoop pre doc with
    | none => rw [hpre] at h; cases h
    | some mid =>
      rw [hpre] at h
      simp only [Option.some_bind] at h
      rw [schemaLoop_cons, if_pos hm] at h
      cases hop : ro.Operation mid.Schemas with
      | none => rw [hop] at h; cases h
      | some x =>
        rw [hop] at h
        simp only [Option.some_bind] at h
        obtain ⟨op, schemas⟩ := x
        obtain ⟨item, hget, hs⟩ := schemaLoop_keeps_slot post _ doc2 h ro.Pattern ro.Method op
          hno ⟨(pathItemOf mid ro.Pattern).setSlot ro.Method op,
            by simp [schemaStep, omGet_omSet], slot_setSlot_same _ _ _ hm⟩
        exact ⟨mid, op, schemas, item, rfl, hop, hget, hs⟩
  · intro pre ro post hsplit hm
    unfold Router.Schema
    rw [hsplit, schemaLoop_append] at h
    rw [schemaLoop_append]
    cases hpre : schemaLoop pre doc with
    | none => rw [hpre] at h; cases h
    | some mid =>
      rw [hpre] at h
      simp only [Option.some_bind] at h ⊢
      rw [schemaLoop_cons, hm] at h
      simpa using h

/-- Instance of C20 (amended): one POST route; after `Schema()` the slot of
its path item holds its operation. -/
theorem Schema_slots_witness :
    ∃ mid op schemas item, schemaLoop [] defaultSchema = some mid ∧
      (duplicateRoutes.take 1).head?.bind (fun ro => ro.Operation mid.Schemas) =
        some (op, schemas) ∧
      omGet ((Router.Schema (duplicateRoutes.take 1) defaultSchema).getD
        defaultSchema).PathItems "/items" = some item ∧
      item.slot "POST" = some op :=
  match Schema_slots (duplicateRoutes.take 1) defaultSchema with
  | ⟨_, h⟩ =>
    match (h ((Router.Schema (duplicateRoutes.take 1) defaultSchema).getD defaultSchema)
        rfl).1 [] _ [] rfl rfl (fun _ hq => absurd hq (List.not_mem_nil _)) with
    | ⟨mid, op, schemas, item, h1, h2, h3, h4⟩ => ⟨mid, op, schemas, item, h1, h2, h3, h4⟩

/-! ## Content type of the delivered response -/

/-- C21 fails on the code: on the success path and on the error path the
dispatch calls `WriteHeader` before it sets the Content-Type header, so the
response goes out without that header (201 and 409 here, for a handler that
returns "ok" and for one that returns a ConflictError). -/
theorem ServeHTTP_content_type_not_delivered :
    ((sampleRoute [] sampleHandler).ServeHTTP ⟨[]⟩ sampleRequest).ctx.res.calls =
        [.WriteHeader 201, .HeaderSet "Content-Type" "application/json", .Write "ok"] ∧
      ((sampleRoute [] sampleHandler).ServeHTTP ⟨[]⟩ sampleRequest).ctx.res.delivered =
        some { status := 201, header := [] } ∧
      ((sampleRoute [] sampleHandler).ServeHTTP ⟨[]⟩
        sampleRequest).ctx.res.deliveredContentType = none ∧
      ((sampleRoute [] conflictHandler).ServeHTTP ⟨[]⟩ sampleRequest).ctx.res.delivered =
        some { status := 409, header := [] } ∧
      ((sampleRoute [] conflictHandler).ServeHTTP ⟨[]⟩
        sampleRequest).ctx.res.deliveredContentType = none := by
  refine ⟨rfl, ?_, ?_, ?_, ?_⟩ <;> decide

/-! ## A middleware that stops without an error -/

/-- C23: on a route with the default error processor, when a middleware
returns a nil error without calling `Next()`, no panic leaves the dispatch,
and after the calls of user code (those of the middleware included) the
dispatch writes status 500, the content type, and the encoded generic error
body: title "Internal Server Error", status 500, detail "An unexpected error
occurred", no sub-items, no cause. -/
theorem ServeHTTP_stop_without_error {I O : Type} (r : route I O) (res : ResponseWriter)
    (req : Request) (hdef : r.router.errorProcessor = some defaultErrorProcessor)
    (inv : Invocation) (index : Nat)
    (hmem : inv ∈ (r.ServeHTTP res req).invoked) (hw : inv.who = .middleware index)
    (hret : inv.result = .ret none) (hnext : inv.calledNext = false) :
    (r.ServeHTTP res req).propagated = none ∧
      (r.ServeHTTP res req).ctx.res.calls =
        res.calls ++ userCalls (r.ServeHTTP res req).invoked ++
          [.WriteHeader 500, .HeaderSet xContentType r.contentType,
           .Write (r.serializer.Marshal (.error (some (.http
             { Err := none, Title := "Internal Server Error", Status := 500,
               Detail := "An unexpected error occurred", Errors := [] }))))] := by
  have hcn : inv.continues = false := by
    simp [Invocation.continues, hnext]
  have hlast := ServeHTTP_last_of_mem r res req inv hmem (Or.inr hcn)
  have hr : inv.routed = some none := by
    simp [Invocation.routed, hret, hw, hnext]
  exact ServeHTTP_error_response r res req hdef inv none hlast hr
    (errorStatus_valid none (fun _ h => Option.noConfusion h))

/-- Instance of C23: a middleware answers 204 and returns nil without
`Next()`; the dispatch adds the 500 response after the middleware's call. -/
theorem ServeHTTP_stop_without_error_witness :
    ((sampleRoute [stopMiddleware] sampleHandler).ServeHTTP ⟨[]⟩
        sampleRequest).propagated = none ∧
      ((sampleRoute [stopMiddleware] sampleHandler).ServeHTTP ⟨[]⟩
        sampleRequest).ctx.res.calls =
        [.WriteHeader 204, .WriteHeader 500, .HeaderSet "Content-Type" "application/json",
         .Write "Internal Server Error: An unexpected error occurred"] :=
  ServeHTTP_stop_without_error (sampleRoute [stopMiddleware] sampleHandler) ⟨[]⟩
    sampleRequest rfl { who := .middleware 0, ops := [.WriteHeader 204], result := .ret none }
    0 (List.Mem.head _) rfl rfl rfl

/-! ## Repeating the schema synthesis -/

/-- C24 fails on the code: for a router with one POST route whose request
shape has parameters and a body field, the first `Schema()` puts an
operation with two parameters into the slot and the second `Schema()` one
without parameters; likewise the second `Operation()` of the route returns
an operation without the parameters of the first. -/
theorem Schema_twice_differs :
    (Router.Schema singleRoute defaultSchema).bind postParameters =
        some [("id", "path", false), ("page", "query", true)] ∧
      ((Router.Schema singleRoute defaultSchema).bind (Router.Schema singleRoute)).bind
        postParameters = some [] ∧
      (sampleOperation []).map (fun r => r.1.parameterList) ≠
        ((sampleOperation []).bind (fun r => sampleOperation r.2)).map
          (fun r => r.1.parameterList) := by
  have h1 : (Router.Schema singleRoute defaultSchema).bind postParameters =
      some [("id", "path", false), ("page", "query", true)] := rfl
  have h2 : ((Router.Schema singleRoute defaultSchema).bind
      (Router.Schema singleRoute)).bind postParameters = some [] := rfl
  have h3 : (sampleOperation []).map (fun r => r.1.parameterList) =
      some [("id", "path", false), ("page", "query", true)] := rfl
  have h4 : ((sampleOperation []).bind (fun r => sampleOperation r.2)).map
      (fun r => r.1.parameterList) = some [] := rfl
  refine ⟨h1, h2, ?_⟩
  rw [h3, h4]
  decide

/-! ## defaultErrorProcessor on its own results -/

theorem defaultErrorProcessorValue_http (e : HTTPError) :
    defaultErrorProcessorValue (some (.http e)) =
      { e with Status := HTTPError.StatusCode e,
               Title := if e.Title = "" then StatusText (HTTPError.StatusCode e)
                        else e.Title } := by
  unfold defaultErrorProcessorValue
  simp only [GoError.asHTTPError?, GoError.StatusCode?]
  split_ifs <;> rfl

theorem defaultErrorProcessorValue_title (err : Option GoError)
    (h : (defaultErrorProcessorValue err).Title = "") :
    StatusText (defaultErrorProcessorValue err).Status = "" := by
  unfold defaultErrorProcessorValue at h ⊢
  simp only [] at h ⊢
  split_ifs at h ⊢ with ht
  · exact h
  · exact absurd h ht

/-- C25, as stated, fails: for an error of another type whose `StatusCode()`
is 0, the processed error has status 0 and an empty title, and processing
it again gives status 500 and the title "Internal Server Error". -/
theorem defaultErrorProcessor_zero_code_not_idempotent :
    (defaultErrorProcessorValue zeroCodeError).Status = 0 ∧
      (defaultErrorProcessorValue zeroCodeError).Title = "" ∧
      (defaultErrorProcessorValue (defaultErrorProcessor zeroCodeError)).Status = 500 ∧
      (defaultErrorProcessorValue (defaultErrorProcessor zeroCodeError)).Title =
        "Internal Server Error" := by
  decide

/-- C25, amended: for every error that does not declare the status code 0
(every built-in kind, every generic HTTPError, every error without status
code, and every other error with a non-zero code), processing the processed
error again gives the same error, and the processed error has a non-zero
status. -/
theorem defaultErrorProcessor_idempotent (err : Option GoError)
    (h : GoError.StatusCode? err ≠ some 0) :
    defaultErrorProcessor (defaultErrorProcessor err) = defaultErrorProcessor err ∧
      (defaultErrorProcessorValue err).Status ≠ 0 := by
  have hs : (defaultErrorProcessorValue err).Status ≠ 0 := by
    rw [defaultErrorProcessorValue_status]
    cases hc : GoError.StatusCode? err with
    | none => decide
    | some code =>
      intro h0
      apply h
      rw [hc]
      simpa using h0
  refine ⟨?_, hs⟩
  unfold defaultErrorProcessor
  rw [defaultErrorProcessorValue_http]
  have hcode : HTTPError.StatusCode (defaultErrorProcessorValue err) =
      (defaultErrorProcessorValue err).Status := by
    unfold HTTPError.StatusCode
    rw [if_neg hs]
  rw [hcode]
  by_cases ht : (defaultErrorProcessorValue err).Title = ""
  · rw [if_pos ht, defaultErrorProcessorValue_title err ht, ← ht]
  · rw [if_neg ht]

/-- Instance of C25 (amended): a ConflictError. -/
theorem defaultErrorProcessor_idempotent_witness :
    defaultErrorProcessor (defaultErrorProcessor
        (some (.named .ConflictError invalidNameError))) =
      defaultErrorProcessor (some (.named .ConflictError invalidNameError)) ∧
      (defaultErrorProcessorValue (some (.named .ConflictError invalidNameError))).Status ≠ 0 :=
  defaultErrorProcessor_idempotent (some (.named .ConflictError invalidNameError))
    (by decide)

/-! ## Nil properties -/

/-- C26 fails on the code: for `type Wrapper struct { Key ItemKey; Name
string }`, where `ItemKey` has a path parameter only, the walk of `ItemKey`
returns the nil proxy, and the object node written for `Wrapper` has the
nil proxy as its property "Key". -/
theorem walk_writes_nil_property :
    (walk wrapperEnv 3 { Schemas := [], Parameters := [] } (.struct "Wrapper")).map
        (fun r => omGet r.2.Schemas "Wrapper") =
        some (some (objectProxy
          [("Key", none), ("Name", some (.schema ["string"] "" none none none none none []))])) ∧
      omGet (objectProxy
        [("Key", none), ("Name", some (.schema ["string"] "" none none none none none []))]
        ).properties "Key" = some none :=
  ⟨rfl, rfl⟩

/-! ## The rule table for the shapes that are not records -/

theorem Walks_leaf (env : TypeEnv) (st : WalkState) (t : GoType)
    (node : Option SchemaProxy × WalkState)
    (h : ∀ fuel, walk env (fuel + 1) st t = some node)
    (r : Option SchemaProxy × WalkState) :
    Walks env st t r ↔ r = node := by
  constructor
  · rintro ⟨fuel, hw⟩
    cases fuel with
    | zero => simp [walk] at hw
    | succ fuel =>
      rw [h fuel] at hw
      exact (Option.some.inj hw).symm
  · rintro rfl
    exact ⟨1, h 0⟩

theorem Walks_element (env : TypeEnv) (st : WalkState) (t elem : GoType)
    (node : Option SchemaProxy → SchemaProxy)
    (h : ∀ fuel, walk env (fuel + 1) st t =
      (walk env fuel st elem).map (fun r => (some (node r.1), r.2)))
    (r : Option SchemaProxy × WalkState) :
    Walks env st t r ↔
      ∃ item st2, Walks env st elem (item, st2) ∧ r = (some (node item), st2) := by
  constructor
  · rintro ⟨fuel, hw⟩
    cases fuel with
    | zero => simp [walk] at hw
    | succ fuel =>
      rw [h fuel] at hw
      cases he : walk env fuel st elem with
      | none => rw [he] at hw; simp at hw
      | some p =>
        rw [he] at hw
        exact ⟨p.1, p.2, ⟨fuel, he⟩, (Option.some.inj hw).symm⟩
  · rintro ⟨item, st2, ⟨fuel, he⟩, rfl⟩
    exact ⟨fuel + 1, by rw [h fuel, he]; rfl⟩

/-- C22: the walker follows the rule table on the shapes that are not
records.  From every state, the walk of a boolean or a string returns the
scalar node without constraints and leaves the state as it was; a signed
integer gives the integer node whose format is the kind name for a sized
kind and empty for the default width; an unsigned integer the integer node
with the kind name as format (never empty) and minimum 0; float32 and
float64 the number nodes with formats "float" and "double".  The walk of
an array of length n returns exactly when the walk of its element does,
with the array node that has minItems = maxItems = n and the node of the
element as item; for a slice the array node has no length bounds; for a map
the object node has the node of the value shape as additional properties;
and the walk of a pointer returns exactly what the walk of the referenced
shape returns. -/
theorem walk_rule_table (env : TypeEnv) (st : WalkState)
    (r : Option SchemaProxy × WalkState) :
    (Walks env st .bool r ↔ r = (some (scalarNode "boolean"), st)) ∧
    (Walks env st .string r ↔ r = (some (scalarNode "string"), st)) ∧
    (∀ w : Width, (Walks env st (.int w) r ↔
        r = (some (integerNode (if w = .plain then "" else "int" ++ w.digits) none), st)) ∧
      ((if w = .plain then "" else "int" ++ w.digits) ≠ "" ↔ w ≠ .plain)) ∧
    (∀ w : Width, (Walks env st (.uint w) r ↔
        r = (some (integerNode ("uint" ++ w.digits) (some 0)), st)) ∧
      "uint" ++ w.digits ≠ "") ∧
    (Walks env st .float32 r ↔ r = (some (numberNode "float"), st)) ∧
    (Walks env st .float64 r ↔ r = (some (numberNode "double"), st)) ∧
    (∀ (n : Nat) (elem : GoType), Walks env st (.array n elem) r ↔
      ∃ item st2, Walks env st elem (item, st2) ∧
        r = (some (arrayNode (some (n : Int)) item), st2)) ∧
    (∀ elem : GoType, Walks env st (.slice elem) r ↔
      ∃ item st2, Walks env st elem (item, st2) ∧ r = (some (arrayNode none item), st2)) ∧
    (∀ key elem : GoType, Walks env st (.map key elem) r ↔
      ∃ value st2, Walks env st elem (value, st2) ∧ r = (some (mappingNode value), st2)) ∧
    (∀ elem : GoType, Walks env st (.ptr elem) r ↔ Walks env st elem r) := by
  refine ⟨?_, ?_, ?_, ?_, ?_, ?_, ?_, ?_, ?_, ?_⟩
  · apply Walks_leaf
    intro fuel
    rfl
  · apply Walks_leaf
    intro fuel
    rfl
  · intro w
    constructor
    · apply Walks_leaf
      intro fuel
      cases w <;> rfl
    · cases w <;> decide
  · intro w
    constructor
    · apply Walks_leaf
      intro fuel
      rfl
    · cases w <;> decide
  · apply Walks_leaf
    intro fuel
    rfl
  · apply Walks_leaf
    intro fuel
    rfl
  · intro n elem
    refine Walks_element env st _ elem (fun item => arrayNode (some (n : Int)) item) ?_ r
    intro fuel
    rw [walk]
    cases walk env fuel st elem <;> rfl
  · intro elem
    refine Walks_element env st _ elem (fun item => arrayNode none item) ?_ r
    intro fuel
    rw [walk]
    cases walk env fuel st elem <;> rfl
  · intro key elem
    refine Walks_element env st _ elem (fun value => mappingNode value) ?_ r
    intro fuel
    rw [walk]
    cases walk env fuel st elem <;> rfl
  · intro elem
    constructor
    · rintro ⟨fuel, hw⟩
      cases fuel with
      | zero => simp [walk] at hw
      | succ fuel =>
        rw [walk] at hw
        exact ⟨fuel, hw⟩
    · rintro ⟨fuel, hw⟩
      exact ⟨fuel + 1, by rw [walk]; exact hw⟩

end Grass
